import Mathlib

/-!
cs2json: event aggregation and derived metrics.

A shallow embedding of the demo summariser `cs2json` (Go).  The main development
(namespace `Cs2`) follows `src/cs2json_final_fixed.go`; the round counting of
`src/cs2json_final.go` is embedded in namespace `Cs2.Final`.

Modelling conventions.

* Go `int` counters are `Int`, `uint64` Steam ids are `Nat`.  The 64-bit range of
  `int` is not modelled: the counters grow by one per event or by the damage of
  one event, and the statements below are about streams that stay in range.
* A Go `map[uint64]T` is an association list searched from the front; the code
  only ever inserts a key after a failed lookup.
* `*PlayerStats` pointers are indices into `State.heap`, the arena of allocated
  records.  The id map and the insertion-order slice both hold such pointers, as
  the Go program shares one record between `playerMap` and `players`.
* The iteration order of `range` over a Go map is left open by the language: the
  loop of `detectSuspiciousMoments` takes the history entries as a list in the
  order visited.  `sort.Slice` is library code and is not stable: it is modelled
  by its contract (`SortedByConfidence`).
* Go strings are lists of characters; the string functions are those of the
  standard library on ASCII strings.
* `float64` is `F64`: an exact rational, or one of the IEEE-754 special values
  `+Inf`, `-Inf`, `NaN`.  Division by zero, and comparisons with `NaN`, follow
  IEEE-754; rounding of finite results to 53 bits is not modelled, and zero is
  the positive zero (the only zero the program can produce).
-/

namespace Cs2

/-! ## float64 -/

/-- Values of Go `float64`: finite values carried exactly, and the IEEE specials. -/
inductive F64 where
  | fin (q : ℚ)
  | posInf
  | negInf
  | nan
  deriving DecidableEq

namespace F64

/-- Conversion `float64(i)` of a Go `int`. -/
def ofInt (i : Int) : F64 := fin (i : ℚ)

/-- IEEE-754 addition. -/
def add : F64 → F64 → F64
  | fin a, fin b => fin (a + b)
  | nan, _ => nan
  | _, nan => nan
  | posInf, negInf => nan
  | negInf, posInf => nan
  | posInf, _ => posInf
  | negInf, _ => negInf
  | _, posInf => posInf
  | _, negInf => negInf

/-- IEEE-754 negation. -/
def neg : F64 → F64
  | fin a => fin (-a)
  | posInf => negInf
  | negInf => posInf
  | nan => nan

/-- IEEE-754 subtraction. -/
def sub (x y : F64) : F64 := add x (neg y)

/-- The infinity with the sign of a non-zero rational. -/
def infOfSign (a : ℚ) : F64 := if 0 < a then posInf else negInf

/-- IEEE-754 multiplication. -/
def mul : F64 → F64 → F64
  | fin a, fin b => fin (a * b)
  | nan, _ => nan
  | _, nan => nan
  | posInf, fin b => if b = 0 then nan else infOfSign b
  | negInf, fin b => if b = 0 then nan else infOfSign (-b)
  | fin a, posInf => if a = 0 then nan else infOfSign a
  | fin a, negInf => if a = 0 then nan else infOfSign (-a)
  | posInf, posInf => posInf
  | negInf, negInf => posInf
  | posInf, negInf => negInf
  | negInf, posInf => negInf

/-- IEEE-754 division: a non-zero finite value divided by zero is an infinity,
`0 / 0` is `NaN`; Go does not panic on a floating-point division by zero. -/
def div : F64 → F64 → F64
  | fin a, fin b =>
    if b = 0 then (if a = 0 then nan else infOfSign a) else fin (a / b)
  | nan, _ => nan
  | _, nan => nan
  | fin _, posInf => fin 0
  | fin _, negInf => fin 0
  | posInf, fin b => if 0 ≤ b then posInf else negInf
  | negInf, fin b => if 0 ≤ b then negInf else posInf
  | posInf, posInf => nan
  | posInf, negInf => nan
  | negInf, posInf => nan
  | negInf, negInf => nan

/-- The comparison `x < y` of Go: false whenever an operand is `NaN`. -/
def lt : F64 → F64 → Bool
  | fin a, fin b => decide (a < b)
  | nan, _ => false
  | _, nan => false
  | negInf, negInf => false
  | negInf, _ => true
  | _, negInf => false
  | posInf, _ => false
  | fin _, posInf => true

/-- The comparison `x > y` of Go. -/
def gt (x y : F64) : Bool := lt y x

end F64

/-! ## Data model -/

/-- Sides of `common.Team` in the demo library. -/
inductive Team where
  | unassigned
  | spectators
  | terrorists
  | counterTerrorists
  deriving DecidableEq, Repr

/-- The fields of `common.Player` that the program reads. -/
structure Player where
  Name : String
  SteamID64 : Nat
  Team : Team
  deriving DecidableEq

/-- A Go map keyed by Steam id, as an association list. -/
abbrev IdMap (α : Type) := List (Nat × α)

/-- Lookup `m[k]` with the comma-ok result. -/
def mapGet {α : Type} : IdMap α → Nat → Option α
  | [], _ => none
  | (k', v) :: m, k => if k' = k then some v else mapGet m k

/-- Assignment `m[k] = v`. -/
def mapSet {α : Type} : IdMap α → Nat → α → IdMap α
  | [], k, v => [(k, v)]
  | (k', v') :: m, k, v => if k' = k then (k', v) :: m else (k', v') :: mapSet m k v

/-- In-place update of the value stored under `k` (a write through the stored pointer). -/
def mapModify {α : Type} : IdMap α → Nat → (α → α) → IdMap α
  | [], _, _ => []
  | (k', v') :: m, k, f => if k' = k then (k', f v') :: m else (k', v') :: mapModify m k f

/-- Record `PlayerStats`. -/
structure PlayerStats where
  Name : String
  SteamID : Nat
  Team : String
  Kills : Int
  Deaths : Int
  Assists : Int
  Headshots : Int
  Damage : Int
  DamageTaken : Int
  Utility : List String
  Plants : Int
  Defuses : Int
  Weapons : List (String × Int)
  Accuracy : F64
  HSPercent : F64
  KDRatio : F64
  Rating : F64
  deriving DecidableEq

/-- Record `KillEvent` of the kill history. -/
structure KillEvent where
  Tick : Int
  Victim : String
  Weapon : String
  Headshot : Bool
  deriving DecidableEq

/-- Record `DamageEvent` of the damage history. -/
structure DamageEvent where
  Tick : Int
  Attacker : String
  Victim : String
  Damage : Int
  deriving DecidableEq

/-- Record `PlayerHistory`. -/
structure PlayerHistory where
  SteamID : Nat
  Name : String
  Team : Team
  Kills : List KillEvent
  Damages : List DamageEvent
  deriving DecidableEq

/-- Function `getTeamName`. -/
def getTeamName (team : Team) : String :=
  if team = Team.counterTerrorists then "Counter-Terrorists"
  else if team = Team.terrorists then "Terrorists"
  else "Unknown"

/-- The mutable state of `main` during the reduction: the arena of allocated
`PlayerStats` records, the id map and the insertion-order slice (both holding
pointers into the arena), the history map, and the two match counters. -/
structure State where
  heap : List PlayerStats
  playerMap : IdMap Nat
  players : List Nat
  playerHistory : IdMap PlayerHistory
  totalKills : Int
  roundNum : Int
  deriving DecidableEq

/-- State at the start of `main`: empty maps, `TotalKills: 0`, `roundNum := 0`. -/
def State.init : State :=
  { heap := [], playerMap := [], players := [], playerHistory := [],
    totalKills := 0, roundNum := 0 }

/-- The record a fresh `&PlayerStats{Name, SteamID, Team, Weapons, Utility}` holds:
the remaining fields have Go zero values. -/
def newPlayerStats (p : Player) : PlayerStats :=
  { Name := p.Name, SteamID := p.SteamID64, Team := getTeamName p.Team,
    Kills := 0, Deaths := 0, Assists := 0, Headshots := 0, Damage := 0, DamageTaken := 0,
    Utility := [], Plants := 0, Defuses := 0, Weapons := [],
    Accuracy := F64.fin 0, HSPercent := F64.fin 0, KDRatio := F64.fin 0, Rating := F64.fin 0 }

/-- Function `getOrCreatePlayer`: the returned pointer is `none` for a nil player;
otherwise the pointer stored under the player id, or a fresh record that is
entered in the map and appended to the slice. -/
def getOrCreatePlayer (p : Option Player) (s : State) : Option Nat × State :=
  match p with
  | none => (none, s)
  | some p =>
    let steamID := p.SteamID64
    match mapGet s.playerMap steamID with
    | some player => (some player, s)
    | none =>
      let newPlayer := s.heap.length
      (some newPlayer,
        { s with heap := s.heap ++ [newPlayerStats p],
                 playerMap := mapSet s.playerMap steamID newPlayer,
                 players := s.players ++ [newPlayer] })

/-- The arena after a write through `ptr`.  Every call site of the handlers
passes the pointer returned by `getOrCreatePlayer` for a non-nil player, so the
pointer is never nil there; a nil pointer is carried as `none` and writes nothing. -/
def updateAt (heap : List PlayerStats) (ptr : Option Nat) (f : PlayerStats → PlayerStats) :
    List PlayerStats :=
  match ptr with
  | none => heap
  | some i => List.modify f i heap

/-- A write `ptr.field = ...` through a `*PlayerStats`. -/
def State.update (s : State) (ptr : Option Nat) (f : PlayerStats → PlayerStats) : State :=
  { s with heap := updateAt s.heap ptr f }

/-- Function `getOrCreateHistory`, on the history map. -/
def getOrCreateHistory (steamID : Nat) (history : IdMap PlayerHistory) : IdMap PlayerHistory :=
  match mapGet history steamID with
  | some _ => history
  | none =>
    mapSet history steamID
      { SteamID := steamID, Name := "", Team := Team.unassigned, Kills := [], Damages := [] }

/-- Increment `weapons[name]++` of the weapon tally `map[string]int`. -/
def tallyInc : List (String × Int) → String → List (String × Int)
  | [], w => [(w, 0 + 1)]
  | (w', n) :: m, w => if w' = w then (w', n + 1) :: m else (w', n) :: tallyInc m w

/-! ## Events and handlers of `cs2json_final_fixed.go` -/

/-- The fields of `events.Kill` read by the handler, with the tick of the game
state at the time of the event. -/
structure Kill where
  Killer : Option Player
  Victim : Option Player
  Assister : Option Player
  Weapon : Option String
  IsHeadshot : Bool
  Tick : Int
  deriving DecidableEq

/-- The fields of `events.PlayerHurt` read by the handler, with the tick of the
game state at the time of the event. -/
structure PlayerHurt where
  Player : Option Cs2.Player
  Attacker : Option Cs2.Player
  HealthDamage : Int
  ArmorDamage : Int
  Tick : Int
  deriving DecidableEq

/-- The events of the stream: the three kinds with a registered handler, and any
other event, which no handler sees. -/
inductive Event where
  | kill (e : Kill)
  | playerHurt (e : PlayerHurt)
  | roundStart
  | other
  deriving DecidableEq

/-- The handler of `events.Kill`. -/
def onKill (s : State) (e : Kill) : State :=
  let s := { s with totalKills := s.totalKills + 1 }
  let s :=
    match e.Killer with
    | none => s
    | some k =>
      let r := getOrCreatePlayer (some k) s
      let killer := r.1
      let s := r.2
      let s := s.update killer (fun p => { p with Kills := p.Kills + 1 })
      let s := s.update killer (fun p => { p with Team := getTeamName k.Team })
      let s := { s with playerHistory := getOrCreateHistory k.SteamID64 s.playerHistory }
      let victimName := match e.Victim with
        | some v => v.Name
        | none => "Unknown"
      let weaponName := match e.Weapon with
        | some w => w
        | none => "Unknown"
      let s := { s with playerHistory := mapModify s.playerHistory k.SteamID64 (fun (h : PlayerHistory) =>
        { h with Kills := h.Kills ++
            [{ Tick := e.Tick, Victim := victimName, Weapon := weaponName,
               Headshot := e.IsHeadshot }] }) }
      let s := if e.IsHeadshot then
          s.update killer (fun p => { p with Headshots := p.Headshots + 1 })
        else s
      let s := match e.Weapon with
        | some wepName => s.update killer (fun p => { p with Weapons := tallyInc p.Weapons wepName })
        | none => s
      match e.Assister with
      | some a =>
        let r := getOrCreatePlayer (some a) s
        r.2.update r.1 (fun p => { p with Assists := p.Assists + 1 })
      | none => s
  match e.Victim with
  | some v =>
    let r := getOrCreatePlayer (some v) s
    let victim := r.1
    let s := r.2
    let s := s.update victim (fun p => { p with Deaths := p.Deaths + 1 })
    s.update victim (fun p => { p with Team := getTeamName v.Team })
  | none => s

/-- The handler of `events.PlayerHurt`.  The sums are the exact ones; the `int`
values that the program holds are the sums wrapped to 64 bits (`wrapInt64`
below), which differ from the exact ones only when an addition overflows. -/
def onPlayerHurt (s : State) (e : PlayerHurt) : State :=
  match e.Player with
  | none => s
  | some pl =>
    let r := getOrCreatePlayer (some pl) s
    let player := r.1
    let s := r.2
    let healthDamage := e.HealthDamage
    let armorDamage := e.ArmorDamage
    let totalDamage := healthDamage + armorDamage
    let s := s.update player (fun p => { p with DamageTaken := p.DamageTaken + totalDamage })
    match e.Attacker with
    | none => s
    | some att =>
      if att.SteamID64 ≠ pl.SteamID64 then
        let r := getOrCreatePlayer (some att) s
        let attacker := r.1
        let s := r.2
        let s := s.update attacker (fun p => { p with Damage := p.Damage + totalDamage })
        let s := { s with playerHistory := getOrCreateHistory att.SteamID64 s.playerHistory }
        { s with playerHistory := mapModify s.playerHistory att.SteamID64 (fun (h : PlayerHistory) =>
            { h with Damages := h.Damages ++
                [{ Tick := e.Tick, Attacker := att.Name, Victim := pl.Name,
                   Damage := totalDamage }] }) }
      else s

/-- The handler of `events.RoundStart`. -/
def onRoundStart (s : State) : State :=
  { s with roundNum := s.roundNum + 1 }

/-- Dispatch of one event to its handler. -/
def step (s : State) : Event → State
  | Event.kill e => onKill s e
  | Event.playerHurt e => onPlayerHurt s e
  | Event.roundStart => onRoundStart s
  | Event.other => s

/-- Loop `parser.ParseToEnd()` on a stream that decodes without error: the
handlers run on the events in order. -/
def run (s : State) (events : List Event) : State :=
  events.foldl step s

/-- The reduction of a whole stream from the initial state. -/
def reduce (events : List Event) : State :=
  run State.init events

/-- Read `playerMap[id]` and follow the pointer. -/
def State.lookup (s : State) (id : Nat) : Option PlayerStats :=
  match mapGet s.playerMap id with
  | some ptr => s.heap[ptr]?
  | none => none

/-! ## Metric calculator -/

/-- Body of the loop "Calculate statistics" for one record. -/
def calcStats (p : PlayerStats) : PlayerStats :=
  let p :=
    if p.Deaths = 0 then { p with KDRatio := F64.ofInt p.Kills }
    else { p with KDRatio := F64.div (F64.ofInt p.Kills) (F64.ofInt p.Deaths) }
  let p :=
    if p.Kills = 0 then { p with HSPercent := F64.fin 0 }
    else
      { p with
        HSPercent := F64.mul (F64.div (F64.ofInt p.Headshots) (F64.ofInt p.Kills)) (F64.fin 100) }
  let killContribution := F64.mul (F64.ofInt p.Kills) (F64.fin (1 / 2))
  let deathPenalty := F64.mul (F64.ofInt p.Deaths) (F64.fin (3 / 10))
  let assistContribution := F64.mul (F64.ofInt p.Assists) (F64.fin (15 / 100))
  let rating :=
    F64.div (F64.sub (F64.add killContribution assistContribution) deathPenalty) (F64.fin 5)
  let p := { p with Rating := rating }
  let p := if F64.lt p.Rating (F64.fin (1 / 2)) then { p with Rating := F64.fin (1 / 2) } else p
  if 0 < p.Kills ∧ 0 < p.Damage then
    let estimatedShots := Int.tdiv p.Damage 25
    let accuracy := F64.mul (F64.div (F64.ofInt p.Kills) (F64.ofInt estimatedShots)) (F64.fin 100)
    let p := { p with Accuracy := accuracy }
    let p :=
      if F64.gt p.Accuracy (F64.fin 100) then { p with Accuracy := F64.fin 100 }
      else if F64.lt p.Accuracy (F64.fin 0) then { p with Accuracy := F64.fin 0 }
      else p
    { p with Accuracy := F64.div p.Accuracy (F64.fin 100) }
  else p

/-- The loop "Calculate statistics" over the slice `players`. -/
def calculate (s : State) : State :=
  s.players.foldl (fun s ptr => s.update (some ptr) calcStats) s

/-! ## Reading the state -/

/-- The value of a counter of the player `id`, read through the id map; a player
without a record has the counter of a fresh record, zero. -/
def State.stat (s : State) (id : Nat) (f : PlayerStats → Int) : Int :=
  match s.lookup id with
  | some p => f p
  | none => 0

/-- The damage history of the player `id`; empty when the player has no history. -/
def State.damages (s : State) (id : Nat) : List DamageEvent :=
  match mapGet s.playerHistory id with
  | some h => h.Damages
  | none => []

/-- The kill history of the player `id`; empty when the player has no history. -/
def State.kills (s : State) (id : Nat) : List KillEvent :=
  match mapGet s.playerHistory id with
  | some h => h.Kills
  | none => []

/-- The registry is well formed: the slice lists the allocated records in
allocation order, and the id map sends `k` to `p` exactly when the record at `p`
carries the id `k`. -/
structure State.WF (s : State) : Prop where
  players_range : s.players = List.range s.heap.length
  map_iff : ∀ k p, mapGet s.playerMap k = some p ↔ ∃ r, s.heap[p]? = some r ∧ r.SteamID = k

/-- The registry seen by player id. -/
abbrev View := Nat → Option PlayerStats

/-- Effect of `getOrCreatePlayer` on the view. -/
def View.create (v : View) (p : Player) : View :=
  fun id => if id = p.SteamID64 then some ((v id).getD (newPlayerStats p)) else v id

/-- Effect of a write through the pointer of player `k` on the view. -/
def View.update (v : View) (k : Nat) (f : PlayerStats → PlayerStats) : View :=
  fun id => if id = k then (v id).map f else v id

/-- The writes of the kill handler to the killer record, taken together. -/
def killerWrites (e : Kill) (k : Player) : PlayerStats → PlayerStats := fun p =>
  let p := { p with Kills := p.Kills + 1 }
  let p := { p with Team := getTeamName k.Team }
  let p := if e.IsHeadshot then { p with Headshots := p.Headshots + 1 } else p
  match e.Weapon with
  | some wepName => { p with Weapons := tallyInc p.Weapons wepName }
  | none => p

/-- The writes of the kill handler to the victim record, taken together. -/
def victimWrites (v : Player) : PlayerStats → PlayerStats := fun p =>
  { p with Deaths := p.Deaths + 1, Team := getTeamName v.Team }

/-- Effect of the kill handler on the view. -/
def View.onKill (v : View) (e : Kill) : View :=
  let v :=
    match e.Killer with
    | none => v
    | some k =>
      let v := (v.create k).update k.SteamID64 (killerWrites e k)
      match e.Assister with
      | some a => (v.create a).update a.SteamID64 (fun p => { p with Assists := p.Assists + 1 })
      | none => v
  match e.Victim with
  | some vi => (v.create vi).update vi.SteamID64 (victimWrites vi)
  | none => v

/-- Effect of the damage handler on the view. -/
def View.onPlayerHurt (v : View) (e : PlayerHurt) : View :=
  match e.Player with
  | none => v
  | some pl =>
    let total := e.HealthDamage + e.ArmorDamage
    let v := (v.create pl).update pl.SteamID64
      (fun p => { p with DamageTaken := p.DamageTaken + total })
    match e.Attacker with
    | none => v
    | some att =>
      if att.SteamID64 ≠ pl.SteamID64 then
        (v.create att).update att.SteamID64 (fun p => { p with Damage := p.Damage + total })
      else v

/-- Effect of one event on the view. -/
def View.step (v : View) : Event → View
  | Event.kill e => v.onKill e
  | Event.playerHurt e => v.onPlayerHurt e
  | Event.roundStart => v
  | Event.other => v

/-- The pair "get or create the record of `p`, then write through the returned
pointer", as it occurs in every handler. -/
def touch (s : State) (p : Player) (f : PlayerStats → PlayerStats) : State :=
  (getOrCreatePlayer (some p) s).2.update (getOrCreatePlayer (some p) s).1 f

/-- The history entry the kill handler appends for the killer. -/
def killEntry (e : Kill) : KillEvent :=
  { Tick := e.Tick,
    Victim := match e.Victim with
      | some v => v.Name
      | none => "Unknown",
    Weapon := match e.Weapon with
      | some w => w
      | none => "Unknown",
    Headshot := e.IsHeadshot }

/-- A counter of an optional record; the absent record counts as a fresh one. -/
def optStat (o : Option PlayerStats) (f : PlayerStats → Int) : Int :=
  match o with
  | some p => f p
  | none => 0

/-- The six event counters of the second record are at least those of the first. -/
def CountersLE (a b : Option PlayerStats) : Prop :=
  optStat a PlayerStats.Kills ≤ optStat b PlayerStats.Kills ∧
  optStat a PlayerStats.Deaths ≤ optStat b PlayerStats.Deaths ∧
  optStat a PlayerStats.Assists ≤ optStat b PlayerStats.Assists ∧
  optStat a PlayerStats.Headshots ≤ optStat b PlayerStats.Headshots ∧
  optStat a PlayerStats.Damage ≤ optStat b PlayerStats.Damage ∧
  optStat a PlayerStats.DamageTaken ≤ optStat b PlayerStats.DamageTaken

/-- The exact sum `HealthDamage + ArmorDamage` of the damage values an event
carries; zero for an event that is not a damage event.  The `int` that the
program holds for it is `Event.totalDamage64`, the wrapped sum. -/
def Event.totalDamage : Event → Int
  | Event.playerHurt e => e.HealthDamage + e.ArmorDamage
  | _ => 0

/-- Whether the event is a kill event. -/
def Event.isKill : Event → Bool
  | Event.kill _ => true
  | _ => false

/-- The state reached from the empty registry by a sequence of
`getOrCreatePlayer` calls. -/
def registerAll (ps : List (Option Player)) : State :=
  ps.foldl (fun s p => (getOrCreatePlayer p s).2) State.init

/-- The records the insertion-order slice points to, in order. -/
def State.records (s : State) : List PlayerStats :=
  s.players.filterMap (fun ptr => s.heap[ptr]?)

/-- The headshot counter of a record is between zero and its kill counter. -/
def HeadshotsOk (p : PlayerStats) : Prop :=
  0 ≤ p.Headshots ∧ p.Headshots ≤ p.Kills

/-! ## Round counting of `cs2json_final.go` -/

namespace Final

/-- Phases of `common.GamePhase` in the demo library. -/
inductive GamePhase where
  | init
  | pregame
  | startGamePhase
  | teamSideSwitch
  | gameHalfEnded
  | gameEnded
  | staleMate
  | gameOver
  deriving DecidableEq, Repr

/-- The events of the stream as far as the round counters are concerned: the two
kinds whose handlers write `roundNum` and `maxRoundNum`, and any other event,
whose handler (if any) leaves both alone. -/
inductive Event where
  | gamePhaseChanged (newPhase : GamePhase)
  | roundStart
  | other
  deriving DecidableEq

/-- The variables `roundNum` and `maxRoundNum` of `main`. -/
structure Rounds where
  roundNum : Int
  maxRoundNum : Int
  deriving DecidableEq

/-- Declarations `roundNum := 0` and `var maxRoundNum int`. -/
def Rounds.init : Rounds := { roundNum := 0, maxRoundNum := 0 }

/-- The handler of `events.GamePhaseChanged`. -/
def onGamePhaseChanged (s : Rounds) (newPhase : GamePhase) : Rounds :=
  if newPhase = GamePhase.teamSideSwitch then
    let s := { s with roundNum := s.roundNum + 1 }
    if s.roundNum > s.maxRoundNum then { s with maxRoundNum := s.roundNum } else s
  else s

/-- The handler of `events.RoundStart`. -/
def onRoundStart (s : Rounds) : Rounds :=
  let s := { s with roundNum := s.roundNum + 1 }
  if s.roundNum > s.maxRoundNum then { s with maxRoundNum := s.roundNum } else s

/-- Dispatch of one event. -/
def step (s : Rounds) : Event → Rounds
  | Event.gamePhaseChanged newPhase => onGamePhaseChanged s newPhase
  | Event.roundStart => onRoundStart s
  | Event.other => s

/-- The round counters after a whole stream. -/
def run (events : List Event) : Rounds :=
  events.foldl step Rounds.init

/-- The reported round count, `summary.Rounds = maxRoundNum`. -/
def rounds (events : List Event) : Int :=
  (run events).maxRoundNum

/-- The values the round counter `roundNum` takes while the stream is
processed: its initial value, and its value after each event. -/
def counterValues (events : List Event) : List Int :=
  (List.scanl step Rounds.init events).map Rounds.roundNum

/-- Whether the event is a round-start event. -/
def Event.isRoundStart : Event → Bool
  | Event.roundStart => true
  | _ => false

/-- Whether the event is a phase change to the side switch. -/
def Event.isSideSwitch : Event → Bool
  | Event.gamePhaseChanged GamePhase.teamSideSwitch => true
  | _ => false

end Final

/-! ## Anomaly detector -/

/-- Function `math.Min` of Go: `-Inf` if either argument is `-Inf`, else `NaN` if
either is `NaN`, else the smaller argument. -/
def F64.min : F64 → F64 → F64
  | F64.negInf, _ => F64.negInf
  | _, F64.negInf => F64.negInf
  | F64.nan, _ => F64.nan
  | _, F64.nan => F64.nan
  | F64.posInf, y => y
  | x, F64.posInf => x
  | F64.fin a, F64.fin b => if a < b then F64.fin a else F64.fin b

/-- The text of a finding, kept as the arguments of its `fmt.Sprintf` call: the
format string is fixed by the kind of finding. -/
inductive Description where
  | damageBurst (burstDamage ticks : Int)
  | headshotRate (percent : F64) (headshotCount kills : Int)
  | extremeKD (kdRatio : F64) (kills deaths : Int)
  | accuracy (percent : F64) (kills : Int)
  deriving DecidableEq

/-- Record `SuspiciousMoment`. -/
structure SuspiciousMoment where
  PlayerName : String
  Team : String
  SuspicionType : String
  Description : Description
  Confidence : F64
  TickStart : Int
  TickEnd : Int
  EstimatedDuration : Int
  deriving DecidableEq

/-- The inner loop `for j := i; j < len(damages) && damages[j].Tick-burstStart < 128; j++`
over the entries from index `i` on, with the accumulators `(burstDamage, burstEnd)`. -/
def burstWindow (burstStart : Int) : List DamageEvent → Int × Int → Int × Int
  | [], acc => acc
  | d :: ds, acc =>
    if d.Tick - burstStart < 128 then burstWindow burstStart ds (acc.1 + d.Damage, d.Tick)
    else acc

/-- The finding appended for a qualifying burst. -/
def burstMoment (playerStats : PlayerStats) (burstDamage burstStart burstEnd : Int) :
    SuspiciousMoment :=
  { PlayerName := playerStats.Name,
    Team := playerStats.Team,
    SuspicionType := "damage_burst",
    Description := Description.damageBurst burstDamage (burstEnd - burstStart),
    Confidence := F64.min (F64.fin (95 / 100)) (F64.div (F64.ofInt burstDamage) (F64.fin 300)),
    TickStart := burstStart,
    TickEnd := burstEnd,
    EstimatedDuration := Int.tdiv (burstEnd - burstStart) 64 }

/-- The outer loop `for i := 0; i < len(damages)-1; i++` with its `break`, on the
entries from index `i` on: the last index starts no window. -/
def burstScan (playerStats : PlayerStats) : List DamageEvent → List SuspiciousMoment
  | [] => []
  | [_] => []
  | d :: d' :: ds =>
    let burstStart := d.Tick
    let w := burstWindow burstStart (d :: d' :: ds) (0, d.Tick)
    let burstDamage := w.1
    let burstEnd := w.2
    if burstDamage > 150 ∧ burstEnd - burstStart > 10 then
      [burstMoment playerStats burstDamage burstStart burstEnd]
    else burstScan playerStats (d' :: ds)

/-- Block "Detect high damage bursts". -/
def detectDamageBurst (playerStats : PlayerStats) (playerHist : PlayerHistory) :
    List SuspiciousMoment :=
  if playerHist.Damages.length > 0 then burstScan playerStats playerHist.Damages else []

/-- Block "Detect high headshot rate". -/
def detectHeadshotRate (playerStats : PlayerStats) (playerHist : PlayerHistory) :
    List SuspiciousMoment :=
  if playerHist.Kills.length ≥ 3 then
    let headshotCount : Int :=
      playerHist.Kills.foldl (fun c kill => if kill.Headshot then c + 1 else c) 0
    let hsRate := F64.div (F64.ofInt headshotCount) (F64.ofInt (playerHist.Kills.length : Int))
    if F64.gt hsRate (F64.fin (1 / 2)) ∧ playerHist.Kills.length ≥ 5 then
      match playerHist.Kills.head?, playerHist.Kills.getLast? with
      | some first, some last =>
        [{ PlayerName := playerStats.Name,
           Team := playerStats.Team,
           SuspicionType := "unusual_headshot_rate",
           Description := Description.headshotRate (F64.mul hsRate (F64.fin 100)) headshotCount
             (playerHist.Kills.length : Int),
           Confidence := F64.min (F64.fin (92 / 100)) hsRate,
           TickStart := first.Tick,
           TickEnd := last.Tick,
           EstimatedDuration := 5 }]
      | _, _ => []
    else []
  else []

/-- Block "Detect extreme K/D ratio with many kills". -/
def detectExtremeKD (playerStats : PlayerStats) : List SuspiciousMoment :=
  if playerStats.Kills > 15 ∧ playerStats.Deaths < 5 then
    let kdRatio := playerStats.KDRatio
    if F64.gt kdRatio (F64.fin 3) then
      [{ PlayerName := playerStats.Name,
         Team := playerStats.Team,
         SuspicionType := "extreme_kd_ratio",
         Description := Description.extremeKD kdRatio playerStats.Kills playerStats.Deaths,
         Confidence := F64.min (F64.fin (88 / 100)) (F64.div kdRatio (F64.fin 5)),
         TickStart := 0,
         TickEnd := 1000,
         EstimatedDuration := 5 }]
    else []
  else []

/-- Block "Detect accuracy anomalies". -/
def detectAccuracy (playerStats : PlayerStats) : List SuspiciousMoment :=
  if F64.gt playerStats.Accuracy (F64.fin (55 / 100)) ∧ playerStats.Kills > 10 then
    [{ PlayerName := playerStats.Name,
       Team := playerStats.Team,
       SuspicionType := "unusual_accuracy",
       Description :=
         Description.accuracy (F64.mul playerStats.Accuracy (F64.fin 100)) playerStats.Kills,
       Confidence := F64.min (F64.fin (85 / 100)) (F64.div playerStats.Accuracy (F64.fin (75 / 100))),
       TickStart := 0,
       TickEnd := 1000,
       EstimatedDuration := 4 }]
  else []

/-- The findings one iteration of the loop over `history` appends, in order. -/
def playerMoments (playerStats : PlayerStats) (playerHist : PlayerHistory) :
    List SuspiciousMoment :=
  detectDamageBurst playerStats playerHist ++ detectHeadshotRate playerStats playerHist ++
    detectExtremeKD playerStats ++ detectAccuracy playerStats

/-- The loop `for steamID, playerHist := range history`: the list `history` gives
the entries in the order the iteration visits them (Go leaves that order open);
an id without a record in `playerMap` is skipped. -/
def collectMoments (history : IdMap PlayerHistory) (playerMap : IdMap Nat)
    (heap : List PlayerStats) : List SuspiciousMoment :=
  history.foldl (fun moments entry =>
    match mapGet playerMap entry.1 with
    | none => moments
    | some ptr =>
      match heap[ptr]? with
      | none => moments
      | some playerStats => moments ++ playerMoments playerStats entry.2) []

/-- The contract of `sort.Slice(moments, func(i, j) bool { return
moments[i].Confidence > moments[j].Confidence })`: the result holds the same
findings, and no finding stands behind one of smaller confidence.  The sort is
not stable, so the order of findings of equal confidence is left open. -/
def SortedByConfidence (sorted moments : List SuspiciousMoment) : Prop :=
  sorted.Perm moments ∧
  sorted.Pairwise (fun a b => F64.gt b.Confidence a.Confidence = false)

/-- Block "Return top 15 moments max". -/
def truncateMoments (moments : List SuspiciousMoment) : List SuspiciousMoment :=
  if moments.length > 15 then moments.take 15 else moments

/-- Function `detectSuspiciousMoments`, as the relation between its arguments
and a value it can return: the collected findings, sorted by `sort.Slice` and
truncated. -/
def detectSuspiciousMoments (history : IdMap PlayerHistory) (playerMap : IdMap Nat)
    (heap : List PlayerStats) (result : List SuspiciousMoment) : Prop :=
  ∃ sorted, SortedByConfidence sorted (collectMoments history playerMap heap) ∧
    result = truncateMoments sorted

/-! ## Damage windows, in the words of the specification -/

/-- The tick of the history entry at index `i`. -/
def tickAt (damages : List DamageEvent) (i : Nat) : Int :=
  match damages[i]? with
  | some d => d.Tick
  | none => 0

/-- All entries at index `≥ i` whose tick is less than `tick(i) + 128`. -/
def windowByTick (damages : List DamageEvent) (i : Nat) : List DamageEvent :=
  (damages.drop i).filter (fun d => decide (d.Tick < tickAt damages i + 128))

/-- The entries accumulated for the starting index `i`: the entries from index
`i` on, up to the first one that is 128 ticks or more after `tick(i)`. -/
def windowAccumulated (damages : List DamageEvent) (i : Nat) : List DamageEvent :=
  (damages.drop i).takeWhile (fun d => decide (d.Tick - tickAt damages i < 128))

/-- The sum of the damage of the entries of a window. -/
def windowDamage (window : List DamageEvent) : Int :=
  (window.map DamageEvent.Damage).sum

/-- The tick of the last entry of a window that starts at tick `start`. -/
def windowEnd (window : List DamageEvent) (start : Int) : Int :=
  match window.getLast? with
  | some d => d.Tick
  | none => start

/-- Index `i` is a qualifying starting index: the window of all entries within
128 ticks holds more than 150 damage and ends more than 10 ticks after its start. -/
def QualifiesByTick (damages : List DamageEvent) (i : Nat) : Prop :=
  i < damages.length ∧ 150 < windowDamage (windowByTick damages i) ∧
    10 < windowEnd (windowByTick damages i) (tickAt damages i) - tickAt damages i

/-- Index `i` is a qualifying starting index for the accumulated window. -/
def QualifiesAccumulated (damages : List DamageEvent) (i : Nat) : Prop :=
  i < damages.length ∧ 150 < windowDamage (windowAccumulated damages i) ∧
    10 < windowEnd (windowAccumulated damages i) (tickAt damages i) - tickAt damages i

/-- The damage history is ordered by non-decreasing tick. -/
def TickOrdered (damages : List DamageEvent) : Prop :=
  damages.Pairwise (fun a b => a.Tick ≤ b.Tick)

/-- The number of kill-history entries flagged as headshots. -/
def headshotCount (kills : List KillEvent) : Nat :=
  (kills.filter (fun k => k.Headshot)).length

/-- The headshot rate of a kill history: headshot entries over entries. -/
def headshotRate (kills : List KillEvent) : ℚ :=
  (headshotCount kills : ℚ) / (kills.length : ℚ)

/-- A finding is well formed: its confidence is a finite value in `[0, 1]` and
its category tag is one of the four heuristic kinds. -/
def MomentOk (m : SuspiciousMoment) : Prop :=
  (∃ q : ℚ, m.Confidence = F64.fin q ∧ 0 ≤ q ∧ q ≤ 1) ∧
  (m.SuspicionType = "damage_burst" ∨ m.SuspicionType = "unusual_headshot_rate" ∨
    m.SuspicionType = "extreme_kd_ratio" ∨ m.SuspicionType = "unusual_accuracy")

/-- The confidence of `b` is at most the confidence of `a`, both finite. -/
def ConfidenceLE (b a : SuspiciousMoment) : Prop :=
  ∃ qa qb : ℚ, a.Confidence = F64.fin qa ∧ b.Confidence = F64.fin qb ∧ qb ≤ qa

/-- An example input of the detector: player 1, who dealt 100 damage at tick 0
and 100 damage at tick 20, with a fresh record in the arena. -/
def exampleHistory : IdMap PlayerHistory :=
  [(1, { SteamID := 1, Name := "", Team := Team.unassigned, Kills := [],
         Damages := [⟨0, "K", "V", 100⟩, ⟨20, "K", "V", 100⟩] })]

/-- The id map of the example input. -/
def examplePlayerMap : IdMap Nat := [(1, 0)]

/-- The arena of the example input. -/
def exampleHeap : List PlayerStats := [newPlayerStats ⟨"K", 1, Team.terrorists⟩]

/-! ## Score fallback -/

/-- The loop over `summary.Players` that sums the kills of the two sides: a
record with the team label "Counter-Terrorists" counts for side A, every other
record for side B. -/
def teamKills (players : List PlayerStats) : Int × Int :=
  players.foldl (fun acc p =>
    if p.Team = "Counter-Terrorists" then (acc.1 + p.Kills, acc.2)
    else (acc.1, acc.2 + p.Kills)) (0, 0)

/-- Block "Ensure valid scores" of `main`, from the two scores of the decoder and
`summary.Players` to the final scores; `none` stands for the run-time panic of an
integer division by zero. -/
def ensureValidScores (scoreA scoreB : Int) (players : List PlayerStats) : Option (Int × Int) :=
  if scoreA = 0 ∧ scoreB = 0 then
    let teamAKills := (teamKills players).1
    let teamBKills := (teamKills players).2
    if teamAKills > 0 ∨ teamBKills > 0 then
      let total := teamAKills + teamBKills
      if total = 0 then none
      else
        let scoreA := Int.tdiv (teamAKills * 16) total
        let scoreB := Int.tdiv (teamBKills * 16) total
        if scoreA > scoreB then
          if scoreB < 13 then some (scoreA, 13) else some (scoreA, scoreB)
        else if scoreB > scoreA then
          if scoreA < 13 then some (13, scoreB) else some (scoreA, scoreB)
        else some (scoreA, scoreB)
    else some (scoreA, scoreB)
  else some (scoreA, scoreB)

/-- The proportional estimate `floor(16 * teamXKills / totalKills)`. -/
def computedScore (kills total : Int) : Int :=
  ⌊((16 * kills : ℤ) : ℚ) / (total : ℚ)⌋

/-- The adjustment of a computed score: the strictly smaller of the two computed
scores is raised to 13 if it is below 13. -/
def raisedScore (own other : Int) : Int :=
  if own < other ∧ own < 13 then 13 else own

/-! ## Map names

Go strings are modelled as lists of characters.  The functions below agree with
`strings.TrimSpace`, `strings.TrimPrefix`, `strings.ToUpper` and
`strings.ToLower` on ASCII strings, where a character is a byte; the white space
of `TrimSpace` and the letter cases outside ASCII are not modelled. -/

/-- The ASCII white space that `strings.TrimSpace` removes. -/
def isSpace (c : Char) : Bool :=
  c = ' ' || c = '\t' || c = '\n' || c = '\r' || c = Char.ofNat 11 || c = Char.ofNat 12

/-- Function `strings.TrimSpace`. -/
def trimSpace (s : List Char) : List Char :=
  ((s.dropWhile isSpace).reverse.dropWhile isSpace).reverse

/-- Function `strings.TrimPrefix`. -/
def trimPrefix (s pre : List Char) : List Char :=
  if pre.isPrefixOf s then s.drop pre.length else s

/-- The expression `strings.ToUpper(string(mapName[0])) + strings.ToLower(mapName[1:])`
for a non-empty name; the empty name stays empty. -/
def capitalize : List Char → List Char
  | [] => []
  | c :: rest => c.toUpper :: rest.map Char.toLower

/-- Function `cleanMapName`, on the characters of the name. -/
def cleanMapNameChars (mapName : List Char) : List Char :=
  let mapName := trimSpace mapName
  let mapName := trimPrefix mapName "de_".toList
  let mapName := trimPrefix mapName "cs_".toList
  let mapName := trimPrefix mapName "aim_".toList
  let mapName := trimPrefix mapName "fy_".toList
  if mapName.length > 0 then capitalize mapName else mapName

/-- Function `cleanMapName`. -/
def cleanMapName (mapName : String) : String :=
  String.mk (cleanMapNameChars mapName.toList)

/-- The four recognised prefixes, in the order the code tries them. -/
def recognisedPrefixes : List (List Char) :=
  ["de_".toList, "cs_".toList, "aim_".toList, "fy_".toList]

/-- Every character of the string is an ASCII character. -/
def IsAscii (s : List Char) : Prop :=
  ∀ c, c ∈ s → c.toNat < 128

/-- The confidence of a finding as a rational; zero when it is not finite. -/
def confKey (m : SuspiciousMoment) : ℚ :=
  match m.Confidence with
  | F64.fin q => q
  | _ => 0

/-! ## Team labels of `cs2json_final.go` -/

/-- Function `strings.ToLower`, on ASCII strings. -/
def toLower (s : List Char) : List Char :=
  s.map Char.toLower

/-- Function `strings.Contains`: whether `substr` occurs in `s`. -/
def containsChars : List Char → List Char → Bool
  | [], substr => substr.isEmpty
  | c :: cs, substr => substr.isPrefixOf (c :: cs) || containsChars cs substr

/-- Function `formatTeam`, on the characters of the team string. -/
def formatTeamChars (team : List Char) : List Char :=
  let team := trimSpace team
  if containsChars (toLower team) "ct".toList || containsChars (toLower team) "counter".toList then
    "Counter-Terrorists".toList
  else if containsChars (toLower team) "t".toList ||
      containsChars (toLower team) "terrorist".toList then
    "Terrorists".toList
  else team

/-- Function `formatTeam`. -/
def formatTeam (team : String) : String :=
  String.mk (formatTeamChars team.toList)

/-! ## The registry of `cs2json_final.go` -/

namespace Final

/-- The values of `common.EquipmentType` that are keys of `grenadeTypes`; any
other piece of equipment is `other`. -/
inductive EquipmentType where
  | EqDecoy
  | EqFlash
  | EqHE
  | EqIncendiary
  | EqMolotov
  | EqSmoke
  | other
  deriving DecidableEq, Repr

/-- Map `grenadeTypes`, read with the comma-ok form. -/
def grenadeTypes : EquipmentType → Option String
  | EquipmentType.EqDecoy => some "Decoy"
  | EquipmentType.EqFlash => some "Flash"
  | EquipmentType.EqHE => some "HE Grenade"
  | EquipmentType.EqIncendiary => some "Incendiary"
  | EquipmentType.EqMolotov => some "Molotov"
  | EquipmentType.EqSmoke => some "Smoke"
  | EquipmentType.other => none

/-- The fields of `common.Player` that `cs2json_final.go` reads; `TeamString`
is the value of `p.Team.String()`. -/
structure Player where
  Name : String
  SteamID64 : Nat
  TeamString : String
  deriving DecidableEq

/-- The mutable state of `main` in `cs2json_final.go`: the arena of allocated
`PlayerStats` records, the id map and the insertion-order slice (both holding
pointers into the arena), `summary.TotalKills` and the round counters. -/
structure State where
  heap : List PlayerStats
  playerMap : IdMap Nat
  players : List Nat
  totalKills : Int
  rounds : Rounds
  deriving DecidableEq

/-- State at the start of `main`. -/
def State.init : State :=
  { heap := [], playerMap := [], players := [], totalKills := 0, rounds := Rounds.init }

/-- The record a fresh `&PlayerStats{Name, SteamID, Team, Weapons, Utility}` holds. -/
def newPlayerStats (p : Player) : PlayerStats :=
  { Name := p.Name, SteamID := p.SteamID64, Team := formatTeam p.TeamString,
    Kills := 0, Deaths := 0, Assists := 0, Headshots := 0, Damage := 0, DamageTaken := 0,
    Utility := [], Plants := 0, Defuses := 0, Weapons := [],
    Accuracy := F64.fin 0, HSPercent := F64.fin 0, KDRatio := F64.fin 0, Rating := F64.fin 0 }

/-- The statements that enter a new record in `playerMap` and append it to
`players`; the result is the pointer to the record and the new state. -/
def register (p : Player) (s : State) : Nat × State :=
  let newPlayer := s.heap.length
  (newPlayer,
    { s with heap := s.heap ++ [newPlayerStats p],
             playerMap := mapSet s.playerMap p.SteamID64 newPlayer,
             players := s.players ++ [newPlayer] })

/-- Function `getOrCreatePlayer` of `cs2json_final.go`.  It has no nil check;
every call passes a player that the handler has compared with nil. -/
def getOrCreatePlayer (p : Player) (s : State) : Nat × State :=
  match mapGet s.playerMap p.SteamID64 with
  | some player => (player, s)
  | none => register p s

/-- A write `ptr.field = ...` through a `*PlayerStats`. -/
def State.update (s : State) (ptr : Nat) (f : PlayerStats → PlayerStats) : State :=
  { s with heap := List.modify f ptr s.heap }

/-- The fields of `events.Kill` read by the handler. -/
structure Kill where
  Killer : Option Player
  Victim : Option Player
  Assister : Option Player
  Weapon : Option String
  IsHeadshot : Bool
  deriving DecidableEq

/-- The fields of `events.PlayerHurt` read by the handler. -/
structure PlayerHurt where
  Player : Option Final.Player
  Attacker : Option Final.Player
  HealthDamage : Int
  ArmorDamage : Int
  deriving DecidableEq

/-- The fields of `events.GrenadeThrown` read by the handler. -/
structure GrenadeThrown where
  Thrower : Option Player
  Grenade : EquipmentType
  deriving DecidableEq

/-- The events of the stream: the eight kinds with a registered handler, and any
other event, which no handler sees. -/
inductive GameEvent where
  | gamePhaseChanged (newPhase : GamePhase)
  | roundStart
  | playerConnect (player : Option Player)
  | kill (e : Kill)
  | playerHurt (e : PlayerHurt)
  | grenadeThrown (e : GrenadeThrown)
  | bombPlanted (player : Option Player)
  | bombDefused (player : Option Player)
  | other
  deriving DecidableEq

/-- The handler of `events.PlayerConnect`.  It reads `e.Player.SteamID64`
without a nil check: the result is `none` when that dereference panics. -/
def onPlayerConnect (s : State) (player : Option Player) : Option State :=
  match player with
  | none => none
  | some p =>
    match mapGet s.playerMap p.SteamID64 with
    | some _ => some s
    | none => some (register p s).2

/-- The handler of `events.Kill`. -/
def onKill (s : State) (e : Kill) : State :=
  let s := { s with totalKills := s.totalKills + 1 }
  let s :=
    match e.Killer with
    | none => s
    | some k =>
      let (killer, s) := getOrCreatePlayer k s
      let s := s.update killer (fun p => { p with Kills := p.Kills + 1 })
      let s := s.update killer (fun p => { p with Team := formatTeam k.TeamString })
      let s := if e.IsHeadshot then s.update killer (fun p => { p with Headshots := p.Headshots + 1 })
        else s
      let s :=
        match e.Weapon with
        | none => s
        | some wepName => s.update killer (fun p => { p with Weapons := tallyInc p.Weapons wepName })
      match e.Assister with
      | none => s
      | some a =>
        let (assister, s) := getOrCreatePlayer a s
        s.update assister (fun p => { p with Assists := p.Assists + 1 })
  match e.Victim with
  | none => s
  | some v =>
    let (victim, s) := getOrCreatePlayer v s
    let s := s.update victim (fun p => { p with Deaths := p.Deaths + 1 })
    s.update victim (fun p => { p with Team := formatTeam v.TeamString })

/-- The handler of `events.PlayerHurt`. -/
def onPlayerHurt (s : State) (e : PlayerHurt) : State :=
  match e.Player with
  | none => s
  | some pl =>
    let (player, s) := getOrCreatePlayer pl s
    let totalDamage := e.HealthDamage + e.ArmorDamage
    let s := s.update player (fun p => { p with DamageTaken := p.DamageTaken + totalDamage })
    match e.Attacker with
    | none => s
    | some a =>
      if a.SteamID64 ≠ pl.SteamID64 then
        let (attacker, s) := getOrCreatePlayer a s
        s.update attacker (fun p => { p with Damage := p.Damage + totalDamage })
      else s

/-- The loop `for _, u := range player.Utility` of the grenade handler: whether
`grenadeType` is already an entry of the list. -/
def found (utility : List String) (grenadeType : String) : Bool :=
  utility.any (fun u => u == grenadeType)

/-- The handler of `events.GrenadeThrown`. -/
def onGrenadeThrown (s : State) (e : GrenadeThrown) : State :=
  match e.Thrower with
  | none => s
  | some thrower =>
    let (player, s) := getOrCreatePlayer thrower s
    match grenadeTypes e.Grenade with
    | none => s
    | some grenadeType =>
      let utility := match s.heap[player]? with
        | some p => p.Utility
        | none => []
      if !found utility grenadeType then
        s.update player (fun p => { p with Utility := p.Utility ++ [grenadeType] })
      else s

/-- The handler of `events.BombPlanted`. -/
def onBombPlanted (s : State) (player : Option Player) : State :=
  match player with
  | none => s
  | some pl =>
    let (player, s) := getOrCreatePlayer pl s
    s.update player (fun p => { p with Plants := p.Plants + 1 })

/-- The handler of `events.BombDefused`. -/
def onBombDefused (s : State) (player : Option Player) : State :=
  match player with
  | none => s
  | some pl =>
    let (player, s) := getOrCreatePlayer pl s
    s.update player (fun p => { p with Defuses := p.Defuses + 1 })

/-- Dispatch of one event to its handler; `none` when the handler panics. -/
def handle (s : State) : GameEvent → Option State
  | GameEvent.gamePhaseChanged newPhase =>
    some { s with rounds := onGamePhaseChanged s.rounds newPhase }
  | GameEvent.roundStart => some { s with rounds := onRoundStart s.rounds }
  | GameEvent.playerConnect player => onPlayerConnect s player
  | GameEvent.kill e => some (onKill s e)
  | GameEvent.playerHurt e => some (onPlayerHurt s e)
  | GameEvent.grenadeThrown e => some (onGrenadeThrown s e)
  | GameEvent.bombPlanted player => some (onBombPlanted s player)
  | GameEvent.bombDefused player => some (onBombDefused s player)
  | GameEvent.other => some s

/-- Function `parser.ParseToEnd` with the handlers of `cs2json_final.go`, from
state `s`: the events are handled in order, and a panic ends the run. -/
def runFrom (s : State) : List GameEvent → Option State
  | [] => some s
  | e :: events =>
    match handle s e with
    | none => none
    | some s => runFrom s events

/-- The state after the whole stream, from the empty registry. -/
def reduce (events : List GameEvent) : Option State :=
  runFrom State.init events

/-- Read `playerMap[id]` and follow the pointer. -/
def State.lookup (s : State) (id : Nat) : Option PlayerStats :=
  match mapGet s.playerMap id with
  | some ptr => s.heap[ptr]?
  | none => none

/-- The records the slice `players` points to, in order. -/
def State.records (s : State) : List PlayerStats :=
  s.players.filterMap (fun ptr => s.heap[ptr]?)

/-- The utility list of the player with the given id; empty when the id has no
record. -/
def State.utility (s : State) (id : Nat) : List String :=
  match s.lookup id with
  | some p => p.Utility
  | none => []

/-- The six names of the utility categories. -/
def grenadeNames : List String :=
  ["Decoy", "Flash", "HE Grenade", "Incendiary", "Molotov", "Smoke"]

/-- The utility list of a record has no duplicate entry and holds category
names only. -/
def UtilityOk (p : PlayerStats) : Prop :=
  p.Utility.Nodup ∧ ∀ u, u ∈ p.Utility → u ∈ grenadeNames

/-- A stream in which one player throws a flash grenade twice, a piece of
equipment that is no grenade, and a smoke grenade. -/
def exampleThrows : List GameEvent :=
  [GameEvent.grenadeThrown ⟨some ⟨"A", 7, "CT"⟩, EquipmentType.EqFlash⟩,
   GameEvent.grenadeThrown ⟨some ⟨"A", 7, "CT"⟩, EquipmentType.EqFlash⟩,
   GameEvent.grenadeThrown ⟨some ⟨"A", 7, "CT"⟩, EquipmentType.other⟩,
   GameEvent.grenadeThrown ⟨some ⟨"A", 7, "CT"⟩, EquipmentType.EqSmoke⟩]

/-- The state after `exampleThrows`. -/
def exampleThrown : State :=
  { heap := [{ newPlayerStats ⟨"A", 7, "CT"⟩ with Utility := ["Flash", "Smoke"] }],
    playerMap := [(7, 0)], players := [0], totalKills := 0, rounds := Rounds.init }

end Final

/-! ## The players of the summary -/

/-- The kill counter read through a pointer of the slice `players`, as the
comparison function of the sort reads it. -/
def killsAt (heap : List PlayerStats) (ptr : Nat) : Int :=
  match heap[ptr]? with
  | some p => p.Kills
  | none => 0

/-- The contract of `sort.Slice(players, func(i, j int) bool { return
players[i].Kills > players[j].Kills })`: afterwards the slice holds the same
pointers, and no pointer stands behind one whose record has more kills.  The
library documents that this sort is not guaranteed to be stable, so the order
of pointers to records of equal kills is left open. -/
def SortedByKills (heap : List PlayerStats) (sorted players : List Nat) : Prop :=
  sorted.Perm players ∧ sorted.Pairwise (fun a b => ¬ (killsAt heap b > killsAt heap a))

/-- Blocks "Sort players" and "Add players to summary", as the relation between
the state after the calculation and a value that `summary.Players` can take: the
records that the sorted slice points to, in order. -/
def summaryPlayers (s : State) (result : List PlayerStats) : Prop :=
  ∃ sorted, SortedByKills s.heap sorted s.players ∧
    result = sorted.filterMap (fun ptr => s.heap[ptr]?)

/-- A stream of two kills: player 1 kills player 2, then player 2 kills
player 1.  Player 1 is registered first, and both end with one kill. -/
def exampleTie : List Event :=
  [Event.kill ⟨some ⟨"A", 1, Team.terrorists⟩, some ⟨"B", 2, Team.counterTerrorists⟩,
     none, none, false, 10⟩,
   Event.kill ⟨some ⟨"B", 2, Team.counterTerrorists⟩, some ⟨"A", 1, Team.terrorists⟩,
     none, none, false, 20⟩]

/-- The record of player 1 after `exampleTie`. -/
def exampleTieA : PlayerStats :=
  { newPlayerStats ⟨"A", 1, Team.terrorists⟩ with Kills := 1, Deaths := 1 }

/-- The record of player 2 after `exampleTie`. -/
def exampleTieB : PlayerStats :=
  { newPlayerStats ⟨"B", 2, Team.counterTerrorists⟩ with Kills := 1, Deaths := 1 }

/-! ## Display names -/

/-- The players an event makes its handler pass to `getOrCreatePlayer`, in the
order of the calls. -/
def Event.registered : Event → List Player
  | Event.kill e =>
    (match e.Killer with
      | none => []
      | some k =>
        k :: (match e.Assister with
          | some a => [a]
          | none => [])) ++
    (match e.Victim with
      | some v => [v]
      | none => [])
  | Event.playerHurt e =>
    match e.Player with
    | none => []
    | some pl =>
      pl :: (match e.Attacker with
        | none => []
        | some att => if att.SteamID64 ≠ pl.SteamID64 then [att] else [])
  | _ => []

/-- The name that the first player with the given id carries in a list of
players. -/
def nameFrom (ps : List Player) (id : Nat) : Option String :=
  (ps.find? (fun p => decide (p.SteamID64 = id))).map Player.Name

/-- The name carried by the first call of `getOrCreatePlayer` for the id that
the stream gives rise to. -/
def firstName (events : List Event) (id : Nat) : Option String :=
  nameFrom (events.flatMap Event.registered) id

/-- The name carried by the last call of `getOrCreatePlayer` for the id that
the stream gives rise to. -/
def lastName (events : List Event) (id : Nat) : Option String :=
  nameFrom (events.flatMap Event.registered).reverse id

/-- A stream in which player 1 makes a kill under the name "Old" and then a
second kill under the name "New". -/
def exampleRename : List Event :=
  [Event.kill ⟨some ⟨"Old", 1, Team.terrorists⟩, none, none, none, false, 10⟩,
   Event.kill ⟨some ⟨"New", 1, Team.terrorists⟩, none, none, none, false, 20⟩]

/-! ## Histories and counters -/

/-- The sum of the damage amounts of a damage history. -/
def historyDamage (damages : List DamageEvent) : Int :=
  (damages.map DamageEvent.Damage).sum

/-- The kill history of an optional history entry; empty when there is none. -/
def histKills (h : Option PlayerHistory) : List KillEvent :=
  match h with
  | some h => h.Kills
  | none => []

/-- The damage history of an optional history entry; empty when there is none. -/
def histDamages (h : Option PlayerHistory) : List DamageEvent :=
  match h with
  | some h => h.Damages
  | none => []

/-- A record and a history entry of one player agree: the kill counter is the
number of kill entries, the headshot counter is the number of kill entries
flagged headshot, and the damage counter is the sum of the damage entries.  An
absent record counts as a fresh one and an absent entry as an empty one. -/
def Agrees (o : Option PlayerStats) (h : Option PlayerHistory) : Prop :=
  optStat o PlayerStats.Kills = ((histKills h).length : Int) ∧
  optStat o PlayerStats.Headshots = (headshotCount (histKills h) : Int) ∧
  optStat o PlayerStats.Damage = historyDamage (histDamages h)

/-- The headshot rate as the detector computes it from a kill history:
`float64(headshotCount) / float64(len(playerHist.Kills))`. -/
def hsRate (kills : List KillEvent) : F64 :=
  F64.div (F64.ofInt (kills.foldl (fun c kill => if kill.Headshot then c + 1 else c) 0))
    (F64.ofInt (kills.length : Int))

/-! ## Scanning every registered player -/

/-- The history that a player without a history entry is scanned with: no kill
entry and no damage entry. -/
def emptyHistory (steamID : Nat) : PlayerHistory :=
  { SteamID := steamID, Name := "", Team := Team.unassigned, Kills := [], Damages := [] }

/-- The alternative scan that the loop over the history is compared with: the
body of the loop of `detectSuspiciousMoments`, run for every record of the
slice `players` with the history entry of the record's id, or with an empty
history where the id has none. -/
def collectMomentsAll (players : List Nat) (history : IdMap PlayerHistory)
    (heap : List PlayerStats) : List SuspiciousMoment :=
  players.foldl (fun moments ptr =>
    match heap[ptr]? with
    | none => moments
    | some playerStats =>
      moments ++ playerMoments playerStats
        ((mapGet history playerStats.SteamID).getD (emptyHistory playerStats.SteamID))) []

/-- A record with 20 kills and 2 deaths. -/
def exampleExtremeKD : PlayerStats :=
  { newPlayerStats ⟨"K", 1, Team.terrorists⟩ with Kills := 20, Deaths := 2 }

/-- The players of a match in which the Counter-Terrorist side has 48 kills and
the Terrorist side 16. -/
def exampleScorePlayers : List PlayerStats :=
  [{ newPlayerStats ⟨"A", 1, Team.counterTerrorists⟩ with Kills := 48 },
   { newPlayerStats ⟨"B", 2, Team.terrorists⟩ with Kills := 16 }]

/-! ## The range of the Go `int` -/

/-- The value a 64-bit Go `int` holds for the exact result `x` of an integer
operation: `x` reduced modulo 2^64 into the range from -2^63 to 2^63 - 1. -/
def wrapInt64 (x : Int) : Int :=
  (x + 9223372036854775808) % 18446744073709551616 - 9223372036854775808

/-- The exact value `x` is in the range of `int`: holding it does not wrap. -/
abbrev FitsInt64 (x : Int) : Prop :=
  wrapInt64 x = x

/-- The total damage of an event as the program holds it: the sum
`HealthDamage + ArmorDamage` of two `int` values, wrapped. -/
def Event.totalDamage64 (e : Event) : Int :=
  wrapInt64 e.totalDamage

/-- A counter of the player `id` as the program holds it.  The handlers only add
to the counters and wrapping commutes with addition, so the `int` of the program
is the wrapped value of the exact counter of the model. -/
def State.stat64 (s : State) (id : Nat) (f : PlayerStats → Int) : Int :=
  wrapInt64 (s.stat id f)

/-- The exact values of the six event counters of the player `id` are in the
range of `int`. -/
abbrev State.CountersFit (s : State) (id : Nat) : Prop :=
  FitsInt64 (s.stat id PlayerStats.Kills) ∧ FitsInt64 (s.stat id PlayerStats.Deaths) ∧
  FitsInt64 (s.stat id PlayerStats.Assists) ∧ FitsInt64 (s.stat id PlayerStats.Headshots) ∧
  FitsInt64 (s.stat id PlayerStats.Damage) ∧ FitsInt64 (s.stat id PlayerStats.DamageTaken)

/-! ## float64 with rounding

The type `F64` above carries exact values.  Where the rounding of `float64`
decides a question, the operations are modelled here with the rounding of IEEE
754 binary64 (round to nearest, ties to even) on non-negative values; the
exponent range (overflow, subnormal numbers) is not modelled. -/

/-- A non-negative finite `float64` value `mant * 2 ^ exp`.  The operations
below return the normal form: `2 ^ 52 ≤ mant < 2 ^ 53`, or `mant = 0` and
`exp = 0` for zero. -/
structure Binary64 where
  mant : Nat
  exp : Int
  deriving DecidableEq, Repr

/-- Scale the fraction `n / d` of two positive numbers by powers of two, keeping
`(n / d) * 2 ^ e`, until `2 ^ 52 ≤ n / d < 2 ^ 53` (4503599627370496 is 2 ^ 52
and 9007199254740992 is 2 ^ 53); the first argument bounds the number of steps. -/
def scale64 : Nat → Nat → Nat → Int → Nat × Nat × Int
  | 0, n, d, e => (n, d, e)
  | fuel + 1, n, d, e =>
    if n < d * 4503599627370496 then scale64 fuel (2 * n) d (e - 1)
    else if d * 9007199254740992 ≤ n then scale64 fuel n (2 * d) (e + 1)
    else (n, d, e)

/-- The integer nearest to `n / d`, a tie going to the even one. -/
def roundHalfEven (n d : Nat) : Nat :=
  if 2 * (n % d) < d then n / d
  else if d < 2 * (n % d) then n / d + 1
  else if (n / d) % 2 = 0 then n / d
  else n / d + 1

/-- The `float64` nearest to `(n / d) * 2 ^ e`, for `d > 0`. -/
def round64 (n d : Nat) (e : Int) : Binary64 :=
  if n = 0 then ⟨0, 0⟩
  else
    let r := scale64 (n + d + 64) n d e
    let m := roundHalfEven r.1 r.2.1
    if m = 9007199254740992 then ⟨4503599627370496, r.2.2 + 1⟩ else ⟨m, r.2.2⟩

/-- Conversion `float64(k)` of a non-negative `int`. -/
def Binary64.ofNat (k : Nat) : Binary64 :=
  round64 k 1 0

/-- The `float64` quotient `x / y`; `none` for the divisor zero, whose quotient
is no finite value. -/
def Binary64.div (x y : Binary64) : Option Binary64 :=
  if y.mant = 0 then none else some (round64 x.mant y.mant (x.exp - y.exp))

/-- The `float64` product `x * y`. -/
def Binary64.mul (x y : Binary64) : Binary64 :=
  round64 (x.mant * y.mant) 1 (x.exp + y.exp)

/-- The headshot rate of the detector in `float64` arithmetic:
`float64(headshotCount) / float64(len(playerHist.Kills))`. -/
def hsRate64 (kills : List KillEvent) : Option Binary64 :=
  Binary64.div (Binary64.ofNat (headshotCount kills)) (Binary64.ofNat kills.length)

/-- The headshot percentage of the calculator in `float64` arithmetic, for a
record with non-negative counters: 0 if `p.Kills == 0`, else
`(float64(p.Headshots) / float64(p.Kills)) * 100`. -/
def hsPercent64 (p : PlayerStats) : Option Binary64 :=
  if p.Kills = 0 then some ⟨0, 0⟩
  else
    (Binary64.div (Binary64.ofNat p.Headshots.toNat) (Binary64.ofNat p.Kills.toNat)).map
      (fun rate => Binary64.mul rate (Binary64.ofNat 100))

/-- A stream of six kills by player 1, the first four of them headshots. -/
def exampleSixKills : List Event :=
  [Event.kill ⟨some ⟨"K", 1, Team.terrorists⟩, none, none, none, true, 1⟩,
   Event.kill ⟨some ⟨"K", 1, Team.terrorists⟩, none, none, none, true, 2⟩,
   Event.kill ⟨some ⟨"K", 1, Team.terrorists⟩, none, none, none, true, 3⟩,
   Event.kill ⟨some ⟨"K", 1, Team.terrorists⟩, none, none, none, true, 4⟩,
   Event.kill ⟨some ⟨"K", 1, Team.terrorists⟩, none, none, none, false, 5⟩,
   Event.kill ⟨some ⟨"K", 1, Team.terrorists⟩, none, none, none, false, 6⟩]

/-- The record of player 1 after `exampleSixKills`. -/
def exampleSixKillsRecord : PlayerStats :=
  { newPlayerStats ⟨"K", 1, Team.terrorists⟩ with Kills := 6, Headshots := 4 }

/-! ## The sort of the Go library

Function `sort.Slice` of the Go standard library, as far as the program's calls
reach into it: `sort.Slice(x, less)` runs `pdqsort_func(data, 0, n, limit)` of
package `sort`, with `limit` the bit length of `n`. -/

/-- Inner loop `for j := i; j > a && data.Less(j, j-1); j-- { data.Swap(j, j-1) }`
of `insertionSort_func`, on the sorted elements before index `i`, held nearest
first: the element `x` of index `i` moves towards the front past every element
that it is less than. -/
def insertBack {α : Type} (less : α → α → Bool) (x : α) : List α → List α
  | [] => [x]
  | y :: ys => if less x y then y :: insertBack less x ys else x :: y :: ys

/-- Function `insertionSort_func` of package `sort`, on the whole range. -/
def insertionSortFunc {α : Type} (less : α → α → Bool) (data : List α) : List α :=
  (data.foldl (fun sorted x => insertBack less x sorted) []).reverse

/-- Call `data.Less(i, j)`. -/
def lessAt {α : Type} (less : α → α → Bool) (data : List α) (i j : Nat) : Bool :=
  match data[i]?, data[j]? with
  | some x, some y => less x y
  | _, _ => false

/-- Call `data.Swap(i, j)`. -/
def swapAt {α : Type} (data : List α) (i j : Nat) : List α :=
  match data[i]?, data[j]? with
  | some x, some y => (data.set i y).set j x
  | _, _ => data

/-- Function `order2_func`: the two indices in the order of their elements, and
the count of swaps. -/
def order2Func {α : Type} (less : α → α → Bool) (data : List α) (a b swaps : Nat) :
    Nat × Nat × Nat :=
  if lessAt less data b a then (b, a, swaps + 1) else (a, b, swaps)

/-- Function `median_func`: the index of the median of three elements, and the
count of swaps. -/
def medianFunc {α : Type} (less : α → α → Bool) (data : List α) (a b c swaps : Nat) :
    Nat × Nat :=
  let r1 := order2Func less data a b swaps
  let r2 := order2Func less data r1.2.1 c r1.2.2
  let r3 := order2Func less data r1.1 r2.1 r2.2.2
  (r3.2.1, r3.2.2)

/-- Function `choosePivot_func` on the whole range of a slice of 8 to 49
elements, where it takes the median of the elements at one, two and three
quarters: the pivot index and the count of swaps (zero swaps is the hint
"increasing"). -/
def choosePivotFunc {α : Type} (less : α → α → Bool) (data : List α) : Nat × Nat :=
  let l := data.length
  medianFunc less data (l / 4 * 1) (l / 4 * 2) (l / 4 * 3) 0

/-- Function `partialInsertionSort_func` on a slice of fewer than 50 elements:
it changes nothing there, and returns whether no element is less than the one
before it. -/
def partialInsertionSortFunc {α : Type} (less : α → α → Bool) : List α → Bool
  | x :: y :: rest => !less y x && partialInsertionSortFunc less (y :: rest)
  | _ => true

/-- Loop `for i <= j && data.Less(i, a) { i++ }` of `partition_func`. -/
def scanUp {α : Type} (less : α → α → Bool) (data : List α) (a j : Nat) : Nat → Nat → Nat
  | 0, i => i
  | fuel + 1, i => if i ≤ j ∧ lessAt less data i a then scanUp less data a j fuel (i + 1) else i

/-- Loop `for i <= j && !data.Less(j, a) { j-- }` of `partition_func`. -/
def scanDown {α : Type} (less : α → α → Bool) (data : List α) (a i : Nat) : Nat → Nat → Nat
  | 0, j => j
  | fuel + 1, j =>
    if i ≤ j ∧ !lessAt less data j a then scanDown less data a i fuel (j - 1) else j

/-- The final loop `for { ... }` of `partition_func`, from the indices `i` and
`j`: the slice and the index `j` at the `break`. -/
def partitionLoop {α : Type} (less : α → α → Bool) (a : Nat) :
    Nat → List α → Nat → Nat → List α × Nat
  | 0, data, _, j => (data, j)
  | fuel + 1, data, i, j =>
    let i := scanUp less data a j data.length i
    let j := scanDown less data a i data.length j
    if i > j then (data, j)
    else partitionLoop less a fuel (swapAt data i j) (i + 1) (j - 1)

/-- Function `partition_func` on the range from `a` to `b`: the slice, the new
index of the pivot, and whether the range was already partitioned. -/
def partitionFunc {α : Type} (less : α → α → Bool) (data : List α) (a b pivot : Nat) :
    List α × Nat × Bool :=
  let data := swapAt data a pivot
  let i := scanUp less data a (b - 1) data.length (a + 1)
  let j := scanDown less data a i data.length (b - 1)
  if i > j then (swapAt data j a, j, true)
  else
    let data := swapAt data i j
    let r := partitionLoop less a data.length data (i + 1) (j - 1)
    (swapAt r.1 r.2 a, r.2, false)

/-- Function `sort.Slice`, that is `pdqsort_func(data, 0, n, limit)`.  A slice
of at most 12 elements is sorted by insertion.  A longer slice of fewer than 50
elements gets a pivot; if the pivot hint is "increasing" and the slice is in
order already, it is left as it is; otherwise it is partitioned, and each part
of at most 12 elements is sorted by insertion.  The result is `none` where the
run goes on into the parts of `pdqsort_func` that are not modelled (a slice of
50 or more elements, a part of more than 12 elements). -/
def sortSlice {α : Type} (less : α → α → Bool) (data : List α) : Option (List α) :=
  if data.length ≤ 12 then some (insertionSortFunc less data)
  else if 50 ≤ data.length then none
  else
    let c := choosePivotFunc less data
    if c.2 = 0 ∧ partialInsertionSortFunc less data then some data
    else
      let r := partitionFunc less data 0 data.length c.1
      let mid := r.2.1
      if mid ≤ 12 ∧ r.1.length - (mid + 1) ≤ 12 then
        some (insertionSortFunc less (r.1.take mid) ++ (r.1.drop mid).take 1 ++
          insertionSortFunc less (r.1.drop (mid + 1)))
      else none

/-- Statement "Sort players": the slice `players` after
`sort.Slice(players, func(i, j int) bool { return players[i].Kills > players[j].Kills })`. -/
def sortPlayers (s : State) : Option (List Nat) :=
  sortSlice (fun a b => decide (killsAt s.heap a > killsAt s.heap b)) s.players

/-- Statements "Sort players" and "Add players to summary": the value of
`summary.Players`, the records that the sorted slice points to, in order. -/
def summarySorted (s : State) : Option (List PlayerStats) :=
  (sortPlayers s).map (fun sorted => sorted.filterMap (fun ptr => s.heap[ptr]?))

/-- A stream that registers thirteen players with the ids 1 to 13, in this
order; the player with id 2 makes one kill, the others none. -/
def exampleThirteen : List Event :=
  [Event.playerHurt ⟨some ⟨"P1", 1, Team.terrorists⟩, none, 0, 0, 1⟩,
   Event.kill ⟨some ⟨"P2", 2, Team.terrorists⟩, none, none, none, false, 2⟩,
   Event.playerHurt ⟨some ⟨"P3", 3, Team.terrorists⟩, none, 0, 0, 3⟩,
   Event.playerHurt ⟨some ⟨"P4", 4, Team.terrorists⟩, none, 0, 0, 4⟩,
   Event.playerHurt ⟨some ⟨"P5", 5, Team.terrorists⟩, none, 0, 0, 5⟩,
   Event.playerHurt ⟨some ⟨"P6", 6, Team.terrorists⟩, none, 0, 0, 6⟩,
   Event.playerHurt ⟨some ⟨"P7", 7, Team.terrorists⟩, none, 0, 0, 7⟩,
   Event.playerHurt ⟨some ⟨"P8", 8, Team.counterTerrorists⟩, none, 0, 0, 8⟩,
   Event.playerHurt ⟨some ⟨"P9", 9, Team.counterTerrorists⟩, none, 0, 0, 9⟩,
   Event.playerHurt ⟨some ⟨"P10", 10, Team.counterTerrorists⟩, none, 0, 0, 10⟩,
   Event.playerHurt ⟨some ⟨"P11", 11, Team.counterTerrorists⟩, none, 0, 0, 11⟩,
   Event.playerHurt ⟨some ⟨"P12", 12, Team.counterTerrorists⟩, none, 0, 0, 12⟩,
   Event.playerHurt ⟨some ⟨"P13", 13, Team.counterTerrorists⟩, none, 0, 0, 13⟩]

/-! ## Lemmas on maps and the arena -/

theorem mapGet_mapSet {α : Type} (m : IdMap α) (k k' : Nat) (v : α) :
    mapGet (mapSet m k v) k' = if k = k' then some v else mapGet m k' := by
  induction m with
  | nil => simp [mapSet, mapGet]
  | cons hd tl ih =>
    obtain ⟨a, b⟩ := hd
    by_cases h1 : a = k
    · subst h1
      by_cases h2 : a = k' <;> simp [mapSet, mapGet, h2]
    · by_cases h3 : a = k'
      · subst h3
        have h4 : ¬ k = a := fun h => h1 h.symm
        simp [mapSet, mapGet, h1, h4]
      · simp [mapSet, mapGet, h1, h3, ih]

theorem mapGet_mapModify {α : Type} (m : IdMap α) (k k' : Nat) (f : α → α) :
    mapGet (mapModify m k f) k' = if k = k' then (mapGet m k').map f else mapGet m k' := by
  induction m with
  | nil => simp [mapModify, mapGet]
  | cons hd tl ih =>
    obtain ⟨a, b⟩ := hd
    by_cases h1 : a = k
    · subst h1
      by_cases h2 : a = k' <;> simp [mapModify, mapGet, h2]
    · by_cases h3 : a = k'
      · subst h3
        have h4 : ¬ k = a := fun h => h1 h.symm
        simp [mapModify, mapGet, h1, h4]
      · simp [mapModify, mapGet, h1, h3, ih]

theorem init_WF : State.init.WF := by
  constructor
  · simp [State.init]
  · intro k p
    simp [State.init, mapGet]

/-! ## The primitives on a well-formed registry -/

theorem State.WF.ptr_lt {s : State} (hs : s.WF) {k p : Nat}
    (h : mapGet s.playerMap k = some p) : p < s.heap.length := by
  obtain ⟨r, hr, _⟩ := (hs.map_iff k p).1 h
  exact (List.getElem?_eq_some.1 hr).1

theorem lookup_eq_some_of_mapGet {s : State} (hs : s.WF) {k p : Nat}
    (h : mapGet s.playerMap k = some p) : ∃ r, s.lookup k = some r ∧ s.heap[p]? = some r := by
  obtain ⟨r, hr, _⟩ := (hs.map_iff k p).1 h
  exact ⟨r, by simp [State.lookup, h, hr], hr⟩

/-- On a well-formed registry `getOrCreatePlayer` returns a pointer owned by the
player id, keeps the registry well formed, and acts on the view as `View.create`. -/
theorem getOrCreatePlayer_spec (s : State) (hs : s.WF) (p : Player) :
    ∃ ptr, (getOrCreatePlayer (some p) s).1 = some ptr ∧
      (getOrCreatePlayer (some p) s).2.WF ∧
      mapGet (getOrCreatePlayer (some p) s).2.playerMap p.SteamID64 = some ptr ∧
      (getOrCreatePlayer (some p) s).2.lookup = View.create s.lookup p := by
  cases hg : mapGet s.playerMap p.SteamID64 with
  | some ptr =>
    refine ⟨ptr, ?_, ?_, ?_, ?_⟩
    · simp [getOrCreatePlayer, hg]
    · simpa [getOrCreatePlayer, hg] using hs
    · simp [getOrCreatePlayer, hg]
    · obtain ⟨r, hr, _⟩ := lookup_eq_some_of_mapGet hs hg
      funext id
      by_cases hid : id = p.SteamID64
      · subst hid
        simp [getOrCreatePlayer, hg, View.create, hr]
      · simp [getOrCreatePlayer, hg, View.create, hid]
  | none =>
    have hfresh : ∀ (q : Nat) (r : PlayerStats), s.heap[q]? = some r → r.SteamID ≠ p.SteamID64 := by
      intro q r hq hid
      have := (hs.map_iff p.SteamID64 q).2 ⟨r, hq, hid⟩
      rw [hg] at this
      cases this
    refine ⟨s.heap.length, ?_, ?_, ?_, ?_⟩
    · simp [getOrCreatePlayer, hg]
    · constructor
      · simp [getOrCreatePlayer, hg, hs.players_range, List.range_succ]
      · intro k q
        simp only [getOrCreatePlayer, hg, mapGet_mapSet]
        by_cases hk : p.SteamID64 = k
        · subst hk
          simp only [if_true]
          constructor
          · intro h
            cases h
            exact ⟨newPlayerStats p, by simp, rfl⟩
          · rintro ⟨r, hr, hid⟩
            rcases Nat.lt_or_ge q s.heap.length with hlt | hge
            · rw [List.getElem?_append_left hlt] at hr
              exact absurd hid (hfresh q r hr)
            · rw [List.getElem?_append_right hge] at hr
              have hq : q - s.heap.length = 0 := by
                by_contra hne
                cases hq' : q - s.heap.length with
                | zero => exact hne hq'
                | succ n => rw [hq'] at hr; simp at hr
              have : q = s.heap.length := by omega
              rw [this]
        · simp only [if_neg hk]
          rw [hs.map_iff k q]
          constructor
          · rintro ⟨r, hr, hid⟩
            have hlt : q < s.heap.length := (List.getElem?_eq_some.1 hr).1
            exact ⟨r, by rw [List.getElem?_append_left hlt]; exact hr, hid⟩
          · rintro ⟨r, hr, hid⟩
            rcases Nat.lt_or_ge q s.heap.length with hlt | hge
            · rw [List.getElem?_append_left hlt] at hr
              exact ⟨r, hr, hid⟩
            · rw [List.getElem?_append_right hge] at hr
              cases hq' : q - s.heap.length with
              | zero =>
                rw [hq'] at hr
                simp at hr
                subst hr
                exact absurd hid hk
              | succ n => rw [hq'] at hr; simp at hr
    · simp [getOrCreatePlayer, hg, mapGet_mapSet]
    · funext id
      by_cases hid : id = p.SteamID64
      · subst hid
        simp [getOrCreatePlayer, hg, View.create, State.lookup, mapGet_mapSet]
      · have hid' : ¬ p.SteamID64 = id := fun h => hid h.symm
        simp only [getOrCreatePlayer, hg, View.create, State.lookup, mapGet_mapSet, if_neg hid,
          if_neg hid']
        cases hm : mapGet s.playerMap id with
        | none => rfl
        | some q =>
          simp only []
          rw [List.getElem?_append_left (hs.ptr_lt hm)]

@[simp] theorem getOrCreatePlayer_playerHistory (p : Option Player) (s : State) :
    (getOrCreatePlayer p s).2.playerHistory = s.playerHistory := by
  cases p with
  | none => rfl
  | some p =>
    cases hg : mapGet s.playerMap p.SteamID64 <;> simp [getOrCreatePlayer, hg]

@[simp] theorem getOrCreatePlayer_totalKills (p : Option Player) (s : State) :
    (getOrCreatePlayer p s).2.totalKills = s.totalKills := by
  cases p with
  | none => rfl
  | some p =>
    cases hg : mapGet s.playerMap p.SteamID64 <;> simp [getOrCreatePlayer, hg]

@[simp] theorem getOrCreatePlayer_roundNum (p : Option Player) (s : State) :
    (getOrCreatePlayer p s).2.roundNum = s.roundNum := by
  cases p with
  | none => rfl
  | some p =>
    cases hg : mapGet s.playerMap p.SteamID64 <;> simp [getOrCreatePlayer, hg]

@[simp] theorem update_playerHistory (s : State) (ptr : Option Nat) (f : PlayerStats → PlayerStats) :
    (s.update ptr f).playerHistory = s.playerHistory := rfl

@[simp] theorem update_totalKills (s : State) (ptr : Option Nat) (f : PlayerStats → PlayerStats) :
    (s.update ptr f).totalKills = s.totalKills := rfl

@[simp] theorem update_roundNum (s : State) (ptr : Option Nat) (f : PlayerStats → PlayerStats) :
    (s.update ptr f).roundNum = s.roundNum := rfl

@[simp] theorem update_playerMap (s : State) (ptr : Option Nat) (f : PlayerStats → PlayerStats) :
    (s.update ptr f).playerMap = s.playerMap := rfl

@[simp] theorem update_players (s : State) (ptr : Option Nat) (f : PlayerStats → PlayerStats) :
    (s.update ptr f).players = s.players := rfl

theorem updateAt_updateAt (heap : List PlayerStats) (ptr : Option Nat)
    (f g : PlayerStats → PlayerStats) :
    updateAt (updateAt heap ptr f) ptr g = updateAt heap ptr (fun p => g (f p)) := by
  cases ptr with
  | none => rfl
  | some i =>
    simp only [updateAt]
    apply List.ext_getElem?
    intro n
    rw [List.getElem?_modify, List.getElem?_modify, List.getElem?_modify]
    cases heap[n]? with
    | none => rfl
    | some a => by_cases hn : i = n <;> simp [hn]

/-- Two writes through the same pointer are one write of the composed change. -/
theorem update_update (s : State) (ptr : Option Nat) (f g : PlayerStats → PlayerStats) :
    (s.update ptr f).update ptr g = s.update ptr (fun p => g (f p)) := by
  simp [State.update, updateAt_updateAt]

/-- A write through the pointer owned by `k` keeps the registry well formed and
acts on the view as `View.update`, when the write leaves the Steam id alone. -/
theorem update_spec (s : State) (hs : s.WF) (k ptr : Nat)
    (hk : mapGet s.playerMap k = some ptr) (f : PlayerStats → PlayerStats)
    (hf : ∀ r, (f r).SteamID = r.SteamID) :
    (s.update (some ptr) f).WF ∧ (s.update (some ptr) f).lookup = View.update s.lookup k f := by
  have hget : ∀ n : Nat, (List.modify f ptr s.heap)[n]? =
      (fun a => if ptr = n then f a else a) <$> s.heap[n]? := fun n =>
    List.getElem?_modify f ptr s.heap n
  constructor
  · constructor
    · simp [State.update, updateAt, hs.players_range]
    · intro k' q
      simp only [State.update, updateAt]
      rw [hs.map_iff k' q, hget q]
      constructor
      · rintro ⟨r, hr, hid⟩
        refine ⟨if ptr = q then f r else r, by simp [hr], ?_⟩
        by_cases hq : ptr = q <;> simp [hq, hf, hid]
      · rintro ⟨r, hr, hid⟩
        cases hh : s.heap[q]? with
        | none => rw [hh] at hr; simp at hr
        | some a =>
          rw [hh] at hr
          refine ⟨a, rfl, ?_⟩
          simp at hr
          rw [← hid, ← hr]
          by_cases hq : ptr = q <;> simp [hq, hf]
  · funext id
    simp only [State.lookup, State.update, updateAt, View.update]
    by_cases hid : id = k
    · subst hid
      simp only [hk, if_true]
      rw [hget ptr]
      cases s.heap[ptr]? <;> simp
    · simp only [if_neg hid]
      cases hm : mapGet s.playerMap id with
      | none => rfl
      | some q =>
        simp only []
        rw [hget q]
        have hne : ptr ≠ q := by
          intro h
          subst h
          obtain ⟨r, hr, hid1⟩ := (hs.map_iff k ptr).1 hk
          obtain ⟨r', hr', hid2⟩ := (hs.map_iff id ptr).1 hm
          rw [hr] at hr'
          cases hr'
          exact hid (hid2.symm.trans hid1)
        cases s.heap[q]? <;> simp [hne]

/-- The pair "get or create the record of `p`, then write `f` to it" keeps the
registry well formed and acts on the view as a creation followed by an update. -/
theorem touch_spec (s : State) (hs : s.WF) (p : Player) (f : PlayerStats → PlayerStats)
    (hf : ∀ r, (f r).SteamID = r.SteamID) :
    (touch s p f).WF ∧ (touch s p f).lookup = (View.create s.lookup p).update p.SteamID64 f := by
  obtain ⟨ptr, h1, h2, h3, h4⟩ := getOrCreatePlayer_spec s hs p
  unfold touch
  rw [h1]
  have := update_spec _ h2 p.SteamID64 ptr h3 f hf
  rw [h4] at this
  exact this

/-- Replacing the history map does not touch the registry. -/
theorem withHistory_WF (s : State) (h : IdMap PlayerHistory) :
    ({ s with playerHistory := h } : State).WF ↔ s.WF := by
  constructor
  · intro hs
    exact ⟨hs.players_range, hs.map_iff⟩
  · intro hs
    exact ⟨hs.players_range, hs.map_iff⟩

@[simp] theorem withHistory_lookup (s : State) (h : IdMap PlayerHistory) :
    ({ s with playerHistory := h } : State).lookup = s.lookup := rfl

theorem killerWrites_def (e : Kill) (k : Player) :
    killerWrites e k = fun p =>
      let p := { p with Kills := p.Kills + 1 }
      let p := { p with Team := getTeamName k.Team }
      let p := if e.IsHeadshot then { p with Headshots := p.Headshots + 1 } else p
      match e.Weapon with
      | some wepName => { p with Weapons := tallyInc p.Weapons wepName }
      | none => p := rfl

theorem victimWrites_def (v : Player) :
    victimWrites v = fun p => { p with Deaths := p.Deaths + 1, Team := getTeamName v.Team } := rfl

/-- The kill handler with the writes to each record taken together. -/
theorem onKill_eq (s : State) (e : Kill) :
    onKill s e =
      let s0 : State := { s with totalKills := s.totalKills + 1 }
      let s1 : State :=
        match e.Killer with
        | none => s0
        | some k =>
          let s2 : State :=
            { touch s0 k (killerWrites e k) with
              playerHistory :=
                mapModify (getOrCreateHistory k.SteamID64 s.playerHistory) k.SteamID64
                  (fun h => { h with Kills := h.Kills ++ [killEntry e] }) }
          match e.Assister with
          | some a => touch s2 a (fun p => { p with Assists := p.Assists + 1 })
          | none => s2
      match e.Victim with
      | some v => touch s1 v (victimWrites v)
      | none => s1 := by
  obtain ⟨K, V, A, W, hs, tick⟩ := e
  cases K <;> cases V <;> cases A <;> cases W <;> cases hs <;>
    simp [onKill, touch, State.update, updateAt_updateAt, killEntry, killerWrites_def,
      victimWrites_def]

/-- The damage handler in terms of `touch`. -/
theorem onPlayerHurt_eq (s : State) (e : PlayerHurt) :
    onPlayerHurt s e =
      match e.Player with
      | none => s
      | some pl =>
        let s1 : State := touch s pl
          (fun p => { p with DamageTaken := p.DamageTaken + (e.HealthDamage + e.ArmorDamage) })
        match e.Attacker with
        | none => s1
        | some att =>
          if att.SteamID64 ≠ pl.SteamID64 then
            { touch s1 att
                (fun p => { p with Damage := p.Damage + (e.HealthDamage + e.ArmorDamage) }) with
              playerHistory :=
                mapModify (getOrCreateHistory att.SteamID64 s.playerHistory) att.SteamID64
                  (fun h => { h with Damages := h.Damages ++
                    [{ Tick := e.Tick, Attacker := att.Name, Victim := pl.Name,
                       Damage := e.HealthDamage + e.ArmorDamage }] }) }
          else s1 := by
  obtain ⟨P, A, hd, ad, tick⟩ := e
  cases P with
  | none => rfl
  | some pl =>
    cases A with
    | none => rfl
    | some att =>
      by_cases h : att.SteamID64 = pl.SteamID64 <;> simp [onPlayerHurt, touch, h, State.update]

@[simp] theorem touch_playerHistory (s : State) (p : Player) (f : PlayerStats → PlayerStats) :
    (touch s p f).playerHistory = s.playerHistory := by
  simp [touch]

@[simp] theorem touch_totalKills (s : State) (p : Player) (f : PlayerStats → PlayerStats) :
    (touch s p f).totalKills = s.totalKills := by
  simp [touch]

@[simp] theorem touch_roundNum (s : State) (p : Player) (f : PlayerStats → PlayerStats) :
    (touch s p f).roundNum = s.roundNum := by
  simp [touch]

/-- The writes of the handlers leave the Steam id of a record alone. -/
theorem killerWrites_SteamID (e : Kill) (k : Player) (r : PlayerStats) :
    (killerWrites e k r).SteamID = r.SteamID := by
  obtain ⟨K, V, A, W, hs, tick⟩ := e
  cases W <;> cases hs <;> rfl

/-- On a well-formed registry the kill handler keeps the registry well formed
and acts on the view as `View.onKill`. -/
theorem onKill_sim (s : State) (hs : s.WF) (e : Kill) :
    (onKill s e).WF ∧ (onKill s e).lookup = View.onKill s.lookup e := by
  rw [onKill_eq]
  have h0 : ({ s with totalKills := s.totalKills + 1 } : State).WF :=
    ⟨hs.players_range, hs.map_iff⟩
  have hkiller : ∀ s1 : State,
      s1 = (match e.Killer with
        | none => ({ s with totalKills := s.totalKills + 1 } : State)
        | some k =>
          match e.Assister with
          | some a =>
            touch
              { touch { s with totalKills := s.totalKills + 1 } k (killerWrites e k) with
                playerHistory :=
                  mapModify (getOrCreateHistory k.SteamID64 s.playerHistory) k.SteamID64
                    (fun h => { h with Kills := h.Kills ++ [killEntry e] }) }
              a (fun p => { p with Assists := p.Assists + 1 })
          | none =>
            { touch { s with totalKills := s.totalKills + 1 } k (killerWrites e k) with
              playerHistory :=
                mapModify (getOrCreateHistory k.SteamID64 s.playerHistory) k.SteamID64
                  (fun h => { h with Kills := h.Kills ++ [killEntry e] }) }) →
      s1.WF ∧ s1.lookup =
        (match e.Killer with
          | none => s.lookup
          | some k =>
            match e.Assister with
            | some a =>
              (View.create ((View.create s.lookup k).update k.SteamID64 (killerWrites e k)) a).update
                a.SteamID64 (fun p => { p with Assists := p.Assists + 1 })
            | none => (View.create s.lookup k).update k.SteamID64 (killerWrites e k)) := by
    intro s1 h1
    cases hK : e.Killer with
    | none =>
      rw [hK] at h1
      subst h1
      exact ⟨h0, rfl⟩
    | some k =>
      rw [hK] at h1
      obtain ⟨hw2, hl2⟩ := touch_spec _ h0 k (killerWrites e k) (killerWrites_SteamID e k)
      have hw3 := (withHistory_WF (touch { s with totalKills := s.totalKills + 1 } k
          (killerWrites e k))
        (mapModify (getOrCreateHistory k.SteamID64 s.playerHistory) k.SteamID64
          (fun h => { h with Kills := h.Kills ++ [killEntry e] }))).2 hw2
      cases hA : e.Assister with
      | none =>
        rw [hA] at h1
        subst h1
        exact ⟨hw3, hl2⟩
      | some a =>
        rw [hA] at h1
        subst h1
        obtain ⟨hw4, hl4⟩ := touch_spec _ hw3 a (fun p => { p with Assists := p.Assists + 1 })
          (fun _ => rfl)
        refine ⟨hw4, ?_⟩
        rw [hl4]
        simp only [withHistory_lookup]
        rw [hl2]
        rfl
  obtain ⟨hw1, hl1⟩ := hkiller _ rfl
  cases hV : e.Victim with
  | none =>
    refine ⟨hw1, ?_⟩
    simp only [View.onKill, hV]
    exact hl1
  | some v =>
    obtain ⟨hw5, hl5⟩ := touch_spec _ hw1 v (victimWrites v) (fun _ => rfl)
    refine ⟨hw5, ?_⟩
    simp only [View.onKill, hV]
    rw [hl5, hl1]

/-- On a well-formed registry the damage handler keeps the registry well formed
and acts on the view as `View.onPlayerHurt`. -/
theorem onPlayerHurt_sim (s : State) (hs : s.WF) (e : PlayerHurt) :
    (onPlayerHurt s e).WF ∧ (onPlayerHurt s e).lookup = View.onPlayerHurt s.lookup e := by
  rw [onPlayerHurt_eq]
  cases hP : e.Player with
  | none => exact ⟨hs, by simp [View.onPlayerHurt, hP]⟩
  | some pl =>
    obtain ⟨hw1, hl1⟩ := touch_spec s hs pl
      (fun p => { p with DamageTaken := p.DamageTaken + (e.HealthDamage + e.ArmorDamage) })
      (fun _ => rfl)
    cases hA : e.Attacker with
    | none => exact ⟨hw1, by simp [View.onPlayerHurt, hP, hA, hl1]⟩
    | some att =>
      by_cases h : att.SteamID64 = pl.SteamID64
      · refine ⟨?_, ?_⟩
        · simpa [h] using hw1
        · simp [View.onPlayerHurt, hP, hA, h, hl1]
      · obtain ⟨hw2, hl2⟩ := touch_spec _ hw1 att
          (fun p => { p with Damage := p.Damage + (e.HealthDamage + e.ArmorDamage) })
          (fun _ => rfl)
        refine ⟨?_, ?_⟩
        · simp only [ne_eq, h, not_false_eq_true, if_true]
          exact (withHistory_WF _ _).2 hw2
        · simp only [ne_eq, h, not_false_eq_true, if_true, View.onPlayerHurt, hP, hA]
          rw [withHistory_lookup, hl2, hl1]

/-- One event keeps the registry well formed and acts on the view as `View.step`. -/
theorem step_sim (s : State) (hs : s.WF) (e : Event) :
    (step s e).WF ∧ (step s e).lookup = View.step s.lookup e := by
  cases e with
  | kill e => exact onKill_sim s hs e
  | playerHurt e => exact onPlayerHurt_sim s hs e
  | roundStart => exact ⟨⟨hs.players_range, hs.map_iff⟩, rfl⟩
  | other => exact ⟨hs, rfl⟩

theorem run_WF (s : State) (hs : s.WF) (events : List Event) : (run s events).WF := by
  induction events generalizing s with
  | nil => exact hs
  | cons e es ih => exact ih (step s e) (step_sim s hs e).1

theorem reduce_WF (events : List Event) : (reduce events).WF :=
  run_WF State.init init_WF events

theorem mapGet_getOrCreateHistory (h : IdMap PlayerHistory) (k k' : Nat) :
    mapGet (getOrCreateHistory k h) k' =
      if k = k' then
        some ((mapGet h k').getD
          { SteamID := k, Name := "", Team := Team.unassigned, Kills := [], Damages := [] })
      else mapGet h k' := by
  unfold getOrCreateHistory
  cases hg : mapGet h k with
  | some v =>
    by_cases hk : k = k'
    · subst hk; simp [hg]
    · simp [hk]
  | none =>
    simp only [mapGet_mapSet]
    by_cases hk : k = k'
    · subst hk; simp [hg]
    · simp [hk]

/-- The history map after the damage handler. -/
theorem onPlayerHurt_playerHistory (s : State) (e : PlayerHurt) :
    (onPlayerHurt s e).playerHistory =
      match e.Player, e.Attacker with
      | some pl, some att =>
        if att.SteamID64 ≠ pl.SteamID64 then
          mapModify (getOrCreateHistory att.SteamID64 s.playerHistory) att.SteamID64
            (fun h => { h with Damages := h.Damages ++
              [{ Tick := e.Tick, Attacker := att.Name, Victim := pl.Name,
                 Damage := e.HealthDamage + e.ArmorDamage }] })
        else s.playerHistory
      | _, _ => s.playerHistory := by
  rw [onPlayerHurt_eq]
  obtain ⟨P, A, hd, ad, tick⟩ := e
  cases P with
  | none => rfl
  | some pl =>
    cases A with
    | none => simp
    | some att => by_cases h : att.SteamID64 = pl.SteamID64 <;> simp [h]

/-- C1. For every damage event with a victim present, processed after any event
stream: the victim's damage-taken counter grows by health-damage + armor-damage.
When an attacker is present and its id differs from the victim's id, the
attacker's damage-dealt counter grows by the same amount, exactly one entry is
appended to the attacker's damage history, and no other player's damage-dealt
counter or damage history changes.  Otherwise (no attacker, or the attacker is
the victim) no player's damage-dealt counter and no damage history changes. -/
theorem playerHurt_damage_accounting (events : List Event) (victim : Player)
    (attacker : Option Player) (healthDamage armorDamage tick : Int) :
    (step (reduce events)
        (Event.playerHurt ⟨some victim, attacker, healthDamage, armorDamage, tick⟩)).stat
        victim.SteamID64 PlayerStats.DamageTaken =
      (reduce events).stat victim.SteamID64 PlayerStats.DamageTaken +
        (healthDamage + armorDamage) ∧
    (match attacker with
      | some att =>
        if att.SteamID64 ≠ victim.SteamID64 then
          (step (reduce events)
              (Event.playerHurt ⟨some victim, attacker, healthDamage, armorDamage, tick⟩)).stat
              att.SteamID64 PlayerStats.Damage =
            (reduce events).stat att.SteamID64 PlayerStats.Damage +
              (healthDamage + armorDamage) ∧
          (step (reduce events)
              (Event.playerHurt ⟨some victim, attacker, healthDamage, armorDamage, tick⟩)).damages
              att.SteamID64 =
            (reduce events).damages att.SteamID64 ++
              [{ Tick := tick, Attacker := att.Name, Victim := victim.Name,
                 Damage := healthDamage + armorDamage }] ∧
          ∀ id, id ≠ att.SteamID64 →
            (step (reduce events)
              (Event.playerHurt ⟨some victim, attacker, healthDamage, armorDamage, tick⟩)).stat
              id PlayerStats.Damage = (reduce events).stat id PlayerStats.Damage ∧
            (step (reduce events)
              (Event.playerHurt ⟨some victim, attacker, healthDamage, armorDamage, tick⟩)).damages
              id = (reduce events).damages id
        else
          ∀ id,
            (step (reduce events)
              (Event.playerHurt ⟨some victim, attacker, healthDamage, armorDamage, tick⟩)).stat
              id PlayerStats.Damage = (reduce events).stat id PlayerStats.Damage ∧
            (step (reduce events)
              (Event.playerHurt ⟨some victim, attacker, healthDamage, armorDamage, tick⟩)).damages
              id = (reduce events).damages id
      | none =>
        ∀ id,
          (step (reduce events)
            (Event.playerHurt ⟨some victim, attacker, healthDamage, armorDamage, tick⟩)).stat
            id PlayerStats.Damage = (reduce events).stat id PlayerStats.Damage ∧
          (step (reduce events)
            (Event.playerHurt ⟨some victim, attacker, healthDamage, armorDamage, tick⟩)).damages
            id = (reduce events).damages id) := by
  have hs := reduce_WF events
  generalize reduce events = s at hs ⊢
  have hl := (onPlayerHurt_sim s hs ⟨some victim, attacker, healthDamage, armorDamage, tick⟩).2
  have hh := onPlayerHurt_playerHistory s ⟨some victim, attacker, healthDamage, armorDamage, tick⟩
  simp only [step, State.stat, State.damages, hl, hh]
  cases attacker with
  | none =>
    refine ⟨?_, ?_⟩
    · simp only [View.onPlayerHurt, View.update, View.create, if_true]
      cases s.lookup victim.SteamID64 <;> simp [newPlayerStats]
    · intro id
      refine ⟨?_, rfl⟩
      simp only [View.onPlayerHurt, View.update, View.create]
      by_cases hid : id = victim.SteamID64
      · simp only [hid, if_true]
        cases s.lookup victim.SteamID64 <;> simp [newPlayerStats]
      · simp only [hid, if_false]
  | some att =>
    by_cases hne : att.SteamID64 = victim.SteamID64
    · simp only [hne, ne_eq, not_true_eq_false, if_false]
      refine ⟨?_, ?_⟩
      · simp only [View.onPlayerHurt, View.update, View.create, hne, ne_eq, not_true_eq_false,
          if_false, if_true]
        cases s.lookup victim.SteamID64 <;> simp [newPlayerStats]
      · intro id
        refine ⟨?_, trivial⟩
        simp only [View.onPlayerHurt, View.update, View.create, hne, ne_eq, not_true_eq_false,
          if_false]
        by_cases hid : id = victim.SteamID64
        · simp only [hid, if_true]
          cases s.lookup victim.SteamID64 <;> simp [newPlayerStats]
        · simp only [hid, if_false]
    · have hne' : ¬ victim.SteamID64 = att.SteamID64 := fun h => hne h.symm
      simp only [hne, ne_eq, not_false_eq_true, if_true]
      refine ⟨?_, ?_, ?_, ?_⟩
      · simp only [View.onPlayerHurt, View.update, View.create, hne, hne', ne_eq,
          not_false_eq_true, if_false, if_true]
        cases s.lookup victim.SteamID64 <;> simp [newPlayerStats]
      · simp only [View.onPlayerHurt, View.update, View.create, hne, ne_eq,
          not_false_eq_true, if_false, if_true]
        cases s.lookup att.SteamID64 <;> simp [newPlayerStats]
      · simp only [mapGet_mapModify, mapGet_getOrCreateHistory, if_true]
        cases mapGet s.playerHistory att.SteamID64 <;> simp
      · intro id hid
        have hid' : ¬ att.SteamID64 = id := fun h => hid h.symm
        refine ⟨?_, ?_⟩
        · simp only [View.onPlayerHurt, View.update, View.create, hne, hid, ne_eq,
            not_false_eq_true, if_false, if_true]
          by_cases hv : id = victim.SteamID64
          · simp only [hv, if_true]
            cases s.lookup victim.SteamID64 <;> simp [newPlayerStats]
          · simp only [hv, if_false]
        · simp only [mapGet_mapModify, mapGet_getOrCreateHistory, hid', if_false]

/-! ## Monotone counters -/

theorem stat_eq_optStat (s : State) (id : Nat) (f : PlayerStats → Int) :
    s.stat id f = optStat (s.lookup id) f := rfl

theorem CountersLE.refl (a : Option PlayerStats) : CountersLE a a := by
  simp [CountersLE]

theorem CountersLE.trans {a b c : Option PlayerStats} (h1 : CountersLE a b)
    (h2 : CountersLE b c) : CountersLE a c := by
  obtain ⟨a1, a2, a3, a4, a5, a6⟩ := h1
  obtain ⟨b1, b2, b3, b4, b5, b6⟩ := h2
  exact ⟨le_trans a1 b1, le_trans a2 b2, le_trans a3 b3, le_trans a4 b4, le_trans a5 b5,
    le_trans a6 b6⟩

theorem countersLE_create (v : View) (p : Player) (id : Nat) :
    CountersLE (v id) (View.create v p id) := by
  by_cases h : id = p.SteamID64
  · simp only [View.create, h, if_true]
    cases v p.SteamID64 <;> simp [CountersLE, optStat, newPlayerStats]
  · simp only [View.create, h, if_false]
    exact CountersLE.refl _

theorem countersLE_update (v : View) (k : Nat) (g : PlayerStats → PlayerStats)
    (hg : ∀ r, CountersLE (some r) (some (g r))) (id : Nat) :
    CountersLE (v id) (View.update v k g id) := by
  by_cases h : id = k
  · simp only [View.update, h, if_true]
    cases hv : v k with
    | none => exact CountersLE.refl _
    | some r => exact hg r
  · simp only [View.update, h, if_false]
    exact CountersLE.refl _

theorem countersLE_touch (v : View) (p : Player) (g : PlayerStats → PlayerStats)
    (hg : ∀ r, CountersLE (some r) (some (g r))) (id : Nat) :
    CountersLE (v id) (View.update (View.create v p) p.SteamID64 g id) :=
  (countersLE_create v p id).trans (countersLE_update _ _ g hg id)

theorem countersLE_killerWrites (e : Kill) (k : Player) (r : PlayerStats) :
    CountersLE (some r) (some (killerWrites e k r)) := by
  obtain ⟨K, V, A, W, hs, tick⟩ := e
  cases W <;> cases hs <;> simp [CountersLE, optStat, killerWrites_def]

theorem countersLE_onKill (v : View) (e : Kill) (id : Nat) :
    CountersLE (v id) (View.onKill v e id) := by
  have hassist : ∀ r : PlayerStats,
      CountersLE (some r) (some { r with Assists := r.Assists + 1 }) := by
    intro r; simp [CountersLE, optStat]
  have hvictim : ∀ (vi : Player) (r : PlayerStats),
      CountersLE (some r) (some (victimWrites vi r)) := by
    intro vi r; simp [CountersLE, optStat, victimWrites_def]
  obtain ⟨K, V, A, W, hs, tick⟩ := e
  cases K with
  | none =>
    cases V with
    | none => exact CountersLE.refl _
    | some vi => exact countersLE_touch v vi _ (hvictim vi) id
  | some k =>
    have h1 := countersLE_touch v k _ (countersLE_killerWrites ⟨some k, V, A, W, hs, tick⟩ k) id
    cases A with
    | none =>
      cases V with
      | none => exact h1
      | some vi => exact h1.trans (countersLE_touch _ vi _ (hvictim vi) id)
    | some a =>
      have h2 := h1.trans (countersLE_touch _ a _ hassist id)
      cases V with
      | none => exact h2
      | some vi => exact h2.trans (countersLE_touch _ vi _ (hvictim vi) id)

theorem countersLE_onPlayerHurt (v : View) (e : PlayerHurt)
    (hd : 0 ≤ e.HealthDamage + e.ArmorDamage) (id : Nat) :
    CountersLE (v id) (View.onPlayerHurt v e id) := by
  have htaken : ∀ r : PlayerStats, CountersLE (some r)
      (some { r with DamageTaken := r.DamageTaken + (e.HealthDamage + e.ArmorDamage) }) := by
    intro r; simp [CountersLE, optStat, hd]
  have hdealt : ∀ r : PlayerStats, CountersLE (some r)
      (some { r with Damage := r.Damage + (e.HealthDamage + e.ArmorDamage) }) := by
    intro r; simp [CountersLE, optStat, hd]
  cases hP : e.Player with
  | none => simp only [View.onPlayerHurt, hP]; exact CountersLE.refl _
  | some pl =>
    have h1 := countersLE_touch v pl _ htaken id
    cases hA : e.Attacker with
    | none => simp only [View.onPlayerHurt, hP, hA]; exact h1
    | some att =>
      by_cases h : att.SteamID64 = pl.SteamID64
      · simp only [View.onPlayerHurt, hP, hA, h, ne_eq, not_true_eq_false, if_false]
        exact h1
      · simp only [View.onPlayerHurt, hP, hA, h, ne_eq, not_false_eq_true, if_true]
        exact h1.trans (countersLE_touch _ att _ hdealt id)

/-- Wrapping commutes with addition: the wrapped sum of two wrapped values is the
wrapped exact sum. -/
theorem wrapInt64_add (x y : Int) :
    wrapInt64 (wrapInt64 x + wrapInt64 y) = wrapInt64 (x + y) := by
  unfold wrapInt64
  omega

/-- A value is in the range of `int` exactly when it lies between -2^63 and
2^63 - 1. -/
theorem fitsInt64_iff (x : Int) :
    FitsInt64 x ↔ -9223372036854775808 ≤ x ∧ x ≤ 9223372036854775807 := by
  unfold FitsInt64 wrapInt64
  constructor <;> intro h <;> omega

/-- C2 (as amended). For every event, processed after any event stream, and for
every player: when the total damage `HealthDamage + ArmorDamage` of the event is
not negative (always so for a kill event) and no addition wraps, that is, the
sum and the exact values of the player's counters before and after the event
are in the range of the 64-bit `int`, each of kills, deaths, assists, headshots,
damage dealt and damage taken, as the program holds it, is afterwards at least
its value before. -/
theorem counters_monotone_of_nonneg_damage (events : List Event) (e : Event) (id : Nat)
    (hpre : (reduce events).CountersFit id)
    (hsum : FitsInt64 e.totalDamage) (hd : 0 ≤ e.totalDamage64)
    (hpost : (step (reduce events) e).CountersFit id) :
    (reduce events).stat64 id PlayerStats.Kills ≤
      (step (reduce events) e).stat64 id PlayerStats.Kills ∧
    (reduce events).stat64 id PlayerStats.Deaths ≤
      (step (reduce events) e).stat64 id PlayerStats.Deaths ∧
    (reduce events).stat64 id PlayerStats.Assists ≤
      (step (reduce events) e).stat64 id PlayerStats.Assists ∧
    (reduce events).stat64 id PlayerStats.Headshots ≤
      (step (reduce events) e).stat64 id PlayerStats.Headshots ∧
    (reduce events).stat64 id PlayerStats.Damage ≤
      (step (reduce events) e).stat64 id PlayerStats.Damage ∧
    (reduce events).stat64 id PlayerStats.DamageTaken ≤
      (step (reduce events) e).stat64 id PlayerStats.DamageTaken := by
  have hd0 : 0 ≤ e.totalDamage := by
    have h : e.totalDamage64 = e.totalDamage := hsum
    rw [h] at hd
    exact hd
  obtain ⟨a1, a2, a3, a4, a5, a6⟩ := hpre
  obtain ⟨b1, b2, b3, b4, b5, b6⟩ := hpost
  unfold State.stat64
  rw [a1, a2, a3, a4, a5, a6, b1, b2, b3, b4, b5, b6]
  have hs := reduce_WF events
  generalize reduce events = s at hs ⊢
  have hl := (step_sim s hs e).2
  simp only [stat_eq_optStat, hl]
  cases e with
  | kill k => exact countersLE_onKill s.lookup k id
  | playerHurt d => exact countersLE_onPlayerHurt s.lookup d hd0 id
  | roundStart => exact CountersLE.refl _
  | other => exact CountersLE.refl _

/-- C2, witness: a damage event of 10 health damage after a first damage event. -/
theorem counters_monotone_of_nonneg_damage_witness :
    (reduce [Event.playerHurt ⟨some ⟨"A", 1, Team.terrorists⟩,
      some ⟨"B", 2, Team.counterTerrorists⟩, 10, 0, 5⟩]).CountersFit 1 ∧
    FitsInt64 (Event.playerHurt ⟨some ⟨"A", 1, Team.terrorists⟩,
      some ⟨"B", 2, Team.counterTerrorists⟩, 10, 0, 6⟩).totalDamage ∧
    (0 : Int) ≤ (Event.playerHurt ⟨some ⟨"A", 1, Team.terrorists⟩,
      some ⟨"B", 2, Team.counterTerrorists⟩, 10, 0, 6⟩).totalDamage64 ∧
    (step (reduce [Event.playerHurt ⟨some ⟨"A", 1, Team.terrorists⟩,
      some ⟨"B", 2, Team.counterTerrorists⟩, 10, 0, 5⟩])
      (Event.playerHurt ⟨some ⟨"A", 1, Team.terrorists⟩,
        some ⟨"B", 2, Team.counterTerrorists⟩, 10, 0, 6⟩)).CountersFit 1 ∧
    (reduce [Event.playerHurt ⟨some ⟨"A", 1, Team.terrorists⟩,
      some ⟨"B", 2, Team.counterTerrorists⟩, 10, 0, 5⟩]).stat64 1 PlayerStats.DamageTaken ≤
    (step (reduce [Event.playerHurt ⟨some ⟨"A", 1, Team.terrorists⟩,
      some ⟨"B", 2, Team.counterTerrorists⟩, 10, 0, 5⟩])
      (Event.playerHurt ⟨some ⟨"A", 1, Team.terrorists⟩,
        some ⟨"B", 2, Team.counterTerrorists⟩, 10, 0, 6⟩)).stat64 1 PlayerStats.DamageTaken :=
  ⟨by decide, by decide, by decide, by decide,
   (counters_monotone_of_nonneg_damage
      [Event.playerHurt ⟨some ⟨"A", 1, Team.terrorists⟩,
        some ⟨"B", 2, Team.counterTerrorists⟩, 10, 0, 5⟩]
      (Event.playerHurt ⟨some ⟨"A", 1, Team.terrorists⟩,
        some ⟨"B", 2, Team.counterTerrorists⟩, 10, 0, 6⟩) 1
      (by decide) (by decide) (by decide) (by decide)).2.2.2.2.2⟩

/-- The range conditions of C2 are needed: the sum of the health damage
2^63 - 1 and the armor damage 1 wraps to -2^63, and a damage-taken counter of
2^62 to which 2^62 is added wraps to -2^63. -/
theorem damage_sums_wrap :
    (Event.playerHurt ⟨some ⟨"A", 1, Team.terrorists⟩, none,
      9223372036854775807, 1, 5⟩).totalDamage64 = -9223372036854775808 ∧
    (reduce [Event.playerHurt ⟨some ⟨"A", 1, Team.terrorists⟩, none,
      4611686018427387904, 0, 5⟩]).stat64 1 PlayerStats.DamageTaken = 4611686018427387904 ∧
    (reduce [Event.playerHurt ⟨some ⟨"A", 1, Team.terrorists⟩, none,
        4611686018427387904, 0, 5⟩,
      Event.playerHurt ⟨some ⟨"A", 1, Team.terrorists⟩, none,
        4611686018427387904, 0, 6⟩]).stat64 1 PlayerStats.DamageTaken =
      -9223372036854775808 := by
  decide

/-- C2, counterexample: negative damage is not clamped.  After a damage event of
10 the victim has damage taken 10; a following damage event with health damage
-5 and armor damage 0 lowers the counter to 5. -/
theorem negative_damage_lowers_damageTaken :
    (reduce [Event.playerHurt ⟨some ⟨"A", 1, Team.terrorists⟩,
      some ⟨"B", 2, Team.counterTerrorists⟩, 10, 0, 5⟩]).stat 1 PlayerStats.DamageTaken = 10 ∧
    (step (reduce [Event.playerHurt ⟨some ⟨"A", 1, Team.terrorists⟩,
      some ⟨"B", 2, Team.counterTerrorists⟩, 10, 0, 5⟩])
      (Event.playerHurt ⟨some ⟨"A", 1, Team.terrorists⟩,
        some ⟨"B", 2, Team.counterTerrorists⟩, -5, 0, 6⟩)).stat 1 PlayerStats.DamageTaken = 5 ∧
    ¬ ((reduce [Event.playerHurt ⟨some ⟨"A", 1, Team.terrorists⟩,
      some ⟨"B", 2, Team.counterTerrorists⟩, 10, 0, 5⟩]).stat 1 PlayerStats.DamageTaken ≤
      (step (reduce [Event.playerHurt ⟨some ⟨"A", 1, Team.terrorists⟩,
        some ⟨"B", 2, Team.counterTerrorists⟩, 10, 0, 5⟩])
        (Event.playerHurt ⟨some ⟨"A", 1, Team.terrorists⟩,
          some ⟨"B", 2, Team.counterTerrorists⟩, -5, 0, 6⟩)).stat 1 PlayerStats.DamageTaken) := by
  decide

/-! ## Assists, total kills, headshots -/

/-- C3 (as amended). For every kill event that carries both a killer and an
assister, processed after any event stream, the assister's assist counter is
incremented by one; when the event carries an assister but no killer, no
player's assist counter changes. -/
theorem kill_assist_needs_killer (events : List Event) (killer assister : Player)
    (victim : Option Player) (weapon : Option String) (isHeadshot : Bool) (tick : Int) :
    (step (reduce events)
        (Event.kill ⟨some killer, victim, some assister, weapon, isHeadshot, tick⟩)).stat
        assister.SteamID64 PlayerStats.Assists =
      (reduce events).stat assister.SteamID64 PlayerStats.Assists + 1 ∧
    ∀ id,
      (step (reduce events)
        (Event.kill ⟨none, victim, some assister, weapon, isHeadshot, tick⟩)).stat
        id PlayerStats.Assists = (reduce events).stat id PlayerStats.Assists := by
  have hs := reduce_WF events
  generalize reduce events = s at hs ⊢
  have hcreate : ∀ (v : View) (p : Player) (id : Nat),
      optStat (View.create v p id) PlayerStats.Assists = optStat (v id) PlayerStats.Assists := by
    intro v p id
    by_cases h : id = p.SteamID64
    · simp only [View.create, h, if_true]
      cases v p.SteamID64 <;> simp [optStat, newPlayerStats]
    · simp only [View.create, h, if_false]
  have hupdate : ∀ (v : View) (k : Nat) (g : PlayerStats → PlayerStats) (id : Nat),
      (∀ r, (g r).Assists = r.Assists) →
      optStat (View.update v k g id) PlayerStats.Assists = optStat (v id) PlayerStats.Assists := by
    intro v k g id hg
    by_cases h : id = k
    · simp only [View.update, h, if_true]
      cases v k <;> simp [optStat, hg]
    · simp only [View.update, h, if_false]
  have hkw : ∀ (e : Kill) (k : Player) (r : PlayerStats),
      (killerWrites e k r).Assists = r.Assists := by
    intro e k r
    obtain ⟨K, V, A, W, hs, tick⟩ := e
    cases W <;> cases hs <;> rfl
  have hvw : ∀ (vi : Player) (r : PlayerStats), (victimWrites vi r).Assists = r.Assists :=
    fun _ _ => rfl
  constructor
  · have hl := (step_sim s hs
      (Event.kill ⟨some killer, victim, some assister, weapon, isHeadshot, tick⟩)).2
    simp only [stat_eq_optStat, hl, View.step, View.onKill]
    have hmid : optStat
        (View.update (View.create (View.update (View.create s.lookup killer) killer.SteamID64
            (killerWrites ⟨some killer, victim, some assister, weapon, isHeadshot, tick⟩ killer))
          assister) assister.SteamID64 (fun p => { p with Assists := p.Assists + 1 })
          assister.SteamID64) PlayerStats.Assists =
        optStat (s.lookup assister.SteamID64) PlayerStats.Assists + 1 := by
      have h1 := hcreate s.lookup killer assister.SteamID64
      have h2 := hupdate (View.create s.lookup killer) killer.SteamID64
        (killerWrites ⟨some killer, victim, some assister, weapon, isHeadshot, tick⟩ killer)
        assister.SteamID64 (hkw _ _)
      have h3 := hcreate (View.update (View.create s.lookup killer) killer.SteamID64
        (killerWrites ⟨some killer, victim, some assister, weapon, isHeadshot, tick⟩ killer))
        assister assister.SteamID64
      rw [← h1, ← h2, ← h3]
      simp only [View.update, if_true]
      simp only [View.create, if_true]
      simp [optStat]
    cases victim with
    | none => exact hmid
    | some vi =>
      simp only []
      rw [hupdate _ _ _ _ (hvw vi), hcreate]
      exact hmid
  · intro id
    have hl := (step_sim s hs
      (Event.kill ⟨none, victim, some assister, weapon, isHeadshot, tick⟩)).2
    simp only [stat_eq_optStat, hl, View.step, View.onKill]
    cases victim with
    | none => rfl
    | some vi =>
      simp only []
      rw [hupdate _ _ _ _ (hvw vi), hcreate]

/-- C3, counterexample: a kill event with an assister and no killer, as the first
event of a stream, leaves the assister's assist counter at 0, not at 1. -/
theorem assist_without_killer_not_counted :
    (reduce []).stat 1 PlayerStats.Assists = 0 ∧
    (step (reduce []) (Event.kill ⟨none, some ⟨"V", 3, Team.counterTerrorists⟩,
      some ⟨"A", 1, Team.terrorists⟩, none, false, 7⟩)).stat 1 PlayerStats.Assists = 0 ∧
    ¬ ((step (reduce []) (Event.kill ⟨none, some ⟨"V", 3, Team.counterTerrorists⟩,
        some ⟨"A", 1, Team.terrorists⟩, none, false, 7⟩)).stat 1 PlayerStats.Assists =
      (reduce []).stat 1 PlayerStats.Assists + 1) := by
  decide

@[simp] theorem onKill_totalKills (s : State) (e : Kill) :
    (onKill s e).totalKills = s.totalKills + 1 := by
  rw [onKill_eq]
  obtain ⟨K, V, A, W, hs, tick⟩ := e
  cases K <;> cases V <;> cases A <;> simp

@[simp] theorem onPlayerHurt_totalKills (s : State) (e : PlayerHurt) :
    (onPlayerHurt s e).totalKills = s.totalKills := by
  rw [onPlayerHurt_eq]
  obtain ⟨P, A, hd, ad, tick⟩ := e
  cases P with
  | none => rfl
  | some pl =>
    cases A with
    | none => simp
    | some att => by_cases h : att.SteamID64 = pl.SteamID64 <;> simp [h]

theorem run_totalKills (s : State) (events : List Event) :
    (run s events).totalKills = s.totalKills + ((events.filter Event.isKill).length : Int) := by
  induction events generalizing s with
  | nil => simp [run]
  | cons e es ih =>
    have h := ih (step s e)
    simp only [run, List.foldl_cons] at h ⊢
    rw [h]
    cases e with
    | kill k => simp [step, Event.isKill]; ring
    | playerHurt d => simp [step, Event.isKill]
    | roundStart => simp [step, Event.isKill, onRoundStart]
    | other => simp [step, Event.isKill]

/-- C4. For every event stream, after the reduction the match-level total-kill
counter equals the number of kill events in the stream, whatever killer and
victim each of them carries; in particular a kill event with neither killer nor
victim adds one to the counter. -/
theorem totalKills_eq_kill_events (events : List Event) :
    (reduce events).totalKills = ((events.filter Event.isKill).length : Int) ∧
    ∀ (assister : Option Player) (weapon : Option String) (isHeadshot : Bool) (tick : Int),
      (reduce (events ++ [Event.kill ⟨none, none, assister, weapon, isHeadshot, tick⟩])).totalKills =
        (reduce events).totalKills + 1 := by
  constructor
  · simp [reduce, run_totalKills, State.init]
  · intro assister weapon isHeadshot tick
    simp [reduce, run_totalKills, State.init, Event.isKill]

theorem headshotsOk_create (v : View) (p : Player)
    (hv : ∀ id r, v id = some r → HeadshotsOk r) :
    ∀ id r, View.create v p id = some r → HeadshotsOk r := by
  intro id r h
  by_cases hid : id = p.SteamID64
  · simp only [View.create, hid, if_true] at h
    cases hv' : v p.SteamID64 with
    | none =>
      rw [hv'] at h
      simp at h
      subst h
      simp [HeadshotsOk, newPlayerStats]
    | some r' =>
      rw [hv'] at h
      simp at h
      subst h
      exact hv _ _ hv'
  · simp only [View.create, hid, if_false] at h
    exact hv id r h

theorem headshotsOk_update (v : View) (k : Nat) (g : PlayerStats → PlayerStats)
    (hg : ∀ r, HeadshotsOk r → HeadshotsOk (g r))
    (hv : ∀ id r, v id = some r → HeadshotsOk r) :
    ∀ id r, View.update v k g id = some r → HeadshotsOk r := by
  intro id r h
  by_cases hid : id = k
  · simp only [View.update, hid, if_true] at h
    cases hv' : v k with
    | none => rw [hv'] at h; simp at h
    | some r' =>
      rw [hv'] at h
      simp at h
      subst h
      exact hg _ (hv _ _ hv')
  · simp only [View.update, hid, if_false] at h
    exact hv id r h

theorem headshotsOk_touch (v : View) (p : Player) (g : PlayerStats → PlayerStats)
    (hg : ∀ r, HeadshotsOk r → HeadshotsOk (g r))
    (hv : ∀ id r, v id = some r → HeadshotsOk r) :
    ∀ id r, View.update (View.create v p) p.SteamID64 g id = some r → HeadshotsOk r :=
  headshotsOk_update _ _ g hg (headshotsOk_create v p hv)

theorem headshotsOk_killerWrites (e : Kill) (k : Player) (r : PlayerStats)
    (h : HeadshotsOk r) : HeadshotsOk (killerWrites e k r) := by
  obtain ⟨K, V, A, W, hs, tick⟩ := e
  obtain ⟨h1, h2⟩ := h
  cases W <;> cases hs <;> simp [HeadshotsOk, killerWrites_def] <;> omega

theorem headshotsOk_step (v : View) (e : Event)
    (hv : ∀ id r, v id = some r → HeadshotsOk r) :
    ∀ id r, View.step v e id = some r → HeadshotsOk r := by
  have hsame : ∀ g : PlayerStats → PlayerStats,
      (∀ r, (g r).Headshots = r.Headshots ∧ (g r).Kills = r.Kills) →
      ∀ r, HeadshotsOk r → HeadshotsOk (g r) := by
    intro g hg r hr
    obtain ⟨h1, h2⟩ := hg r
    simp only [HeadshotsOk, h1, h2]
    exact hr
  cases e with
  | kill e =>
    obtain ⟨K, V, A, W, hs, tick⟩ := e
    have hassist := hsame (fun p => { p with Assists := p.Assists + 1 }) (fun _ => ⟨rfl, rfl⟩)
    cases K with
    | none =>
      cases V with
      | none => exact hv
      | some vi => exact headshotsOk_touch v vi _ (hsame _ (fun _ => ⟨rfl, rfl⟩)) hv
    | some k =>
      have h1 := headshotsOk_touch v k _
        (headshotsOk_killerWrites ⟨some k, V, A, W, hs, tick⟩ k) hv
      cases A with
      | none =>
        cases V with
        | none => exact h1
        | some vi => exact headshotsOk_touch _ vi _ (hsame _ (fun _ => ⟨rfl, rfl⟩)) h1
      | some a =>
        have h2 := headshotsOk_touch _ a _ hassist h1
        cases V with
        | none => exact h2
        | some vi => exact headshotsOk_touch _ vi _ (hsame _ (fun _ => ⟨rfl, rfl⟩)) h2
  | playerHurt e =>
    cases hP : e.Player with
    | none => simp only [View.step, View.onPlayerHurt, hP]; exact hv
    | some pl =>
      have h1 := headshotsOk_touch v pl
        (fun p => { p with DamageTaken := p.DamageTaken + (e.HealthDamage + e.ArmorDamage) })
        (hsame _ (fun _ => ⟨rfl, rfl⟩)) hv
      cases hA : e.Attacker with
      | none => simp only [View.step, View.onPlayerHurt, hP, hA]; exact h1
      | some att =>
        by_cases h : att.SteamID64 = pl.SteamID64
        · simp only [View.step, View.onPlayerHurt, hP, hA, h, ne_eq, not_true_eq_false,
            if_false]
          exact h1
        · simp only [View.step, View.onPlayerHurt, hP, hA, h, ne_eq, not_false_eq_true,
            if_true]
          exact headshotsOk_touch _ att
            (fun p => { p with Damage := p.Damage + (e.HealthDamage + e.ArmorDamage) })
            (hsame _ (fun _ => ⟨rfl, rfl⟩)) h1
  | roundStart => exact hv
  | other => exact hv

theorem headshotsOk_run (s : State) (hs : s.WF) (events : List Event)
    (hv : ∀ id r, s.lookup id = some r → HeadshotsOk r) :
    ∀ id r, (run s events).lookup id = some r → HeadshotsOk r := by
  induction events generalizing s with
  | nil => exact hv
  | cons e es ih =>
    obtain ⟨hw, hl⟩ := step_sim s hs e
    apply ih (step s e) hw
    rw [hl]
    exact headshotsOk_step s.lookup e hv

/-- C5. For every event stream and every player in the registry after reducing
it, headshots ≤ kills and kills ≥ 0. -/
theorem headshots_le_kills (events : List Event) (id : Nat) (p : PlayerStats)
    (hp : (reduce events).lookup id = some p) :
    p.Headshots ≤ p.Kills ∧ 0 ≤ p.Kills := by
  have h := headshotsOk_run State.init init_WF events
    (by intro id r hr; simp [State.lookup, State.init, mapGet] at hr) id p hp
  exact ⟨h.2, le_trans h.1 h.2⟩

/-- C5, witness: after one headshot kill the killer's record, found under id 1,
has one headshot and one kill. -/
theorem headshots_le_kills_witness :
    (reduce [Event.kill ⟨some ⟨"K", 1, Team.terrorists⟩,
        some ⟨"V", 2, Team.counterTerrorists⟩, none, some "AK-47", true, 10⟩]).lookup 1 =
      some { newPlayerStats ⟨"K", 1, Team.terrorists⟩ with
        Kills := 1, Headshots := 1, Weapons := [("AK-47", 1)] } ∧
    ((1 : Int) ≤ 1 ∧ (0 : Int) ≤ 1) :=
  ⟨by decide,
   headshots_le_kills
    [Event.kill ⟨some ⟨"K", 1, Team.terrorists⟩, some ⟨"V", 2, Team.counterTerrorists⟩, none,
      some "AK-47", true, 10⟩]
    1
    { newPlayerStats ⟨"K", 1, Team.terrorists⟩ with
      Kills := 1, Headshots := 1, Weapons := [("AK-47", 1)] }
    (by decide)⟩

/-! ## The registry -/

theorem filterMap_getElem?_range {α : Type} (l : List α) :
    (List.range l.length).filterMap (fun i => l[i]?) = l := by
  induction l using List.reverseRecOn with
  | nil => rfl
  | append_singleton l a ih =>
    rw [List.length_append, List.length_singleton, List.range_succ, List.filterMap_append]
    have h1 : List.filterMap (fun i => (l ++ [a])[i]?) (List.range l.length) =
        List.filterMap (fun i => l[i]?) (List.range l.length) := by
      apply List.filterMap_congr
      intro x hx
      exact List.getElem?_append_left (List.mem_range.1 hx)
    rw [h1, ih]
    simp

theorem State.WF.records_eq {s : State} (hs : s.WF) : s.records = s.heap := by
  unfold State.records
  rw [hs.players_range]
  exact filterMap_getElem?_range s.heap

theorem State.WF.ids_nodup {s : State} (hs : s.WF) :
    (s.heap.map PlayerStats.SteamID).Nodup := by
  rw [List.nodup_iff_getElem?_ne_getElem?]
  intro i j hij hj heq
  rw [List.length_map] at hj
  have hi : i < s.heap.length := lt_trans hij hj
  rw [List.getElem?_map, List.getElem?_map, List.getElem?_eq_getElem hi,
    List.getElem?_eq_getElem hj] at heq
  simp only [Option.map_some', Option.some.injEq] at heq
  have h1 := (hs.map_iff (s.heap[i]).SteamID i).2 ⟨s.heap[i], List.getElem?_eq_getElem hi, rfl⟩
  have h2 := (hs.map_iff (s.heap[i]).SteamID j).2
    ⟨s.heap[j], List.getElem?_eq_getElem hj, heq.symm⟩
  rw [h1] at h2
  simp only [Option.some.injEq] at h2
  omega

theorem State.WF.mem_players {s : State} (hs : s.WF) (ptr : Nat) :
    ptr ∈ s.players ↔ ∃ k, mapGet s.playerMap k = some ptr := by
  rw [hs.players_range, List.mem_range]
  constructor
  · intro h
    exact ⟨(s.heap[ptr]).SteamID,
      (hs.map_iff _ ptr).2 ⟨s.heap[ptr], List.getElem?_eq_getElem h, rfl⟩⟩
  · rintro ⟨k, hk⟩
    exact hs.ptr_lt hk

theorem registerAll_WF (ps : List (Option Player)) : (registerAll ps).WF := by
  have h : ∀ (s : State), s.WF →
      (ps.foldl (fun s p => (getOrCreatePlayer p s).2) s).WF := by
    induction ps with
    | nil => intro s hs; exact hs
    | cons p ps ih =>
      intro s hs
      apply ih
      cases p with
      | none => exact hs
      | some p =>
        obtain ⟨_, _, hw, _, _⟩ := getOrCreatePlayer_spec s hs p
        exact hw
  exact h State.init init_WF

/-- C6. Starting from an empty registry, after any sequence of
`getOrCreatePlayer` calls: the records of the insertion-order list carry pairwise
different player ids, every pointer of the list is live, and the list holds
exactly the pointers stored in the id map.  A further call for an id that is
present returns the pointer stored under that id, whose record carries the id,
and leaves the state (map, list and records) unchanged; a call for a new id
appends exactly one record, carrying the id and name of the player, with all
counters zero, an empty weapon tally and an empty utility list, and returns the
pointer to it, now stored under the id. -/
theorem getOrCreatePlayer_registry (ps : List (Option Player)) (p : Player) :
    ((registerAll ps).records.map PlayerStats.SteamID).Nodup ∧
    (registerAll ps).records.length = (registerAll ps).players.length ∧
    (∀ ptr, ptr ∈ (registerAll ps).players ↔
      ∃ k, mapGet (registerAll ps).playerMap k = some ptr) ∧
    (match mapGet (registerAll ps).playerMap p.SteamID64 with
      | some ptr =>
        getOrCreatePlayer (some p) (registerAll ps) = (some ptr, registerAll ps) ∧
        ∃ r, (registerAll ps).heap[ptr]? = some r ∧ r.SteamID = p.SteamID64
      | none =>
        ∃ ptr r,
          (getOrCreatePlayer (some p) (registerAll ps)).1 = some ptr ∧
          (getOrCreatePlayer (some p) (registerAll ps)).2.heap[ptr]? = some r ∧
          mapGet (getOrCreatePlayer (some p) (registerAll ps)).2.playerMap p.SteamID64 =
            some ptr ∧
          (getOrCreatePlayer (some p) (registerAll ps)).2.players =
            (registerAll ps).players ++ [ptr] ∧
          (getOrCreatePlayer (some p) (registerAll ps)).2.records =
            (registerAll ps).records ++ [r] ∧
          r.SteamID = p.SteamID64 ∧ r.Name = p.Name ∧
          r.Kills = 0 ∧ r.Deaths = 0 ∧ r.Assists = 0 ∧ r.Headshots = 0 ∧
          r.Damage = 0 ∧ r.DamageTaken = 0 ∧ r.Plants = 0 ∧ r.Defuses = 0 ∧
          r.Weapons = [] ∧ r.Utility = []) := by
  have hs := registerAll_WF ps
  generalize registerAll ps = s at hs ⊢
  refine ⟨?_, ?_, hs.mem_players, ?_⟩
  · rw [hs.records_eq]
    exact hs.ids_nodup
  · rw [hs.records_eq, hs.players_range, List.length_range]
  · cases hg : mapGet s.playerMap p.SteamID64 with
    | some ptr =>
      refine ⟨by simp [getOrCreatePlayer, hg], ?_⟩
      exact (hs.map_iff _ _).1 hg
    | none =>
      obtain ⟨ptr', h1, hw, h3, _⟩ := getOrCreatePlayer_spec s hs p
      refine ⟨s.heap.length, newPlayerStats p, ?_, ?_, ?_, ?_, ?_, rfl, rfl, rfl, rfl, rfl, rfl,
        rfl, rfl, rfl, rfl, rfl, rfl⟩
      · simp [getOrCreatePlayer, hg]
      · simp [getOrCreatePlayer, hg]
      · simp [getOrCreatePlayer, hg, mapGet_mapSet]
      · simp [getOrCreatePlayer, hg]
      · rw [hw.records_eq, hs.records_eq]
        simp [getOrCreatePlayer, hg]

/-! ## Round counting -/

namespace Final

theorem step_roundNum (s : Rounds) (e : Event) :
    (step s e).roundNum =
      s.roundNum + (if e.isRoundStart then 1 else 0) + (if e.isSideSwitch then 1 else 0) := by
  cases e with
  | gamePhaseChanged ph =>
    cases ph <;> simp [step, onGamePhaseChanged, Event.isRoundStart, Event.isSideSwitch]
    split <;> simp
  | roundStart =>
    simp only [step, onRoundStart, Event.isRoundStart, Event.isSideSwitch]
    split <;> simp
  | other => simp [step, Event.isRoundStart, Event.isSideSwitch]

theorem step_maxRoundNum (s : Rounds) (e : Event) (h : s.maxRoundNum = s.roundNum) :
    (step s e).maxRoundNum = (step s e).roundNum := by
  cases e with
  | gamePhaseChanged ph =>
    cases ph <;> simp [step, onGamePhaseChanged, h]
  | roundStart => simp [step, onRoundStart, h]
  | other => simpa [step] using h

theorem foldl_step_spec (events : List Event) (s : Rounds) (h : s.maxRoundNum = s.roundNum) :
    (events.foldl step s).maxRoundNum = (events.foldl step s).roundNum ∧
    (events.foldl step s).roundNum =
      s.roundNum + ((events.filter Event.isRoundStart).length : Int) +
        ((events.filter Event.isSideSwitch).length : Int) ∧
    (events.foldl step s).roundNum ∈ (List.scanl step s events).map Rounds.roundNum ∧
    ∀ v ∈ (List.scanl step s events).map Rounds.roundNum, v ≤ (events.foldl step s).roundNum := by
  induction events generalizing s with
  | nil => simp [h]
  | cons e es ih =>
    obtain ⟨h1, h2, h3, h4⟩ := ih (step s e) (step_maxRoundNum s e h)
    have hstep := step_roundNum s e
    refine ⟨h1, ?_, ?_, ?_⟩
    · simp only [List.foldl_cons, h2, hstep, List.filter_cons]
      cases e.isRoundStart <;> cases e.isSideSwitch <;> simp <;> ring
    · simp only [List.foldl_cons, List.scanl_cons, List.singleton_append, List.map_cons,
        List.mem_cons]
      exact Or.inr h3
    · intro v hv
      simp only [List.scanl_cons, List.singleton_append, List.map_cons, List.mem_cons] at hv
      simp only [List.foldl_cons]
      rcases hv with hv | hv
      · subst hv
        have h6 : (step s e).roundNum ≤ (List.foldl step (step s e) es).roundNum :=
          h4 _ (by cases es <;> simp [List.scanl])
        have h5 : s.roundNum ≤ (step s e).roundNum := by
          rw [hstep]
          split <;> split <;> omega
        exact le_trans h5 h6
      · exact h4 v hv

/-- C7 (as amended). For every event stream, the reported round count is the
maximum value the round counter reached while the stream was processed (it is
one of the values the counter took, and no value the counter took exceeds it),
and it equals the number of round-start events plus the number of side-switch
phase changes: each boundary event of either kind adds one to the shared
counter. -/
theorem rounds_eq_max_counter (events : List Event) :
    rounds events ∈ counterValues events ∧
    (∀ v ∈ counterValues events, v ≤ rounds events) ∧
    rounds events =
      ((events.filter Event.isRoundStart).length : Int) +
        ((events.filter Event.isSideSwitch).length : Int) := by
  obtain ⟨h1, h2, h3, h4⟩ := foldl_step_spec events Rounds.init rfl
  unfold rounds run counterValues
  rw [h1]
  refine ⟨h3, h4, ?_⟩
  rw [h2]
  simp [Rounds.init]

/-- C7, counterexample: a side-switch phase change followed by the round-start
event of the same boundary is counted twice; the reported round count is 2, the
sum of one increment of each kind, not 1. -/
theorem boundary_of_both_kinds_counted_twice :
    rounds [Event.gamePhaseChanged GamePhase.teamSideSwitch, Event.roundStart] = 2 ∧
    rounds [Event.gamePhaseChanged GamePhase.teamSideSwitch] = 1 ∧
    rounds [Event.roundStart] = 1 ∧
    ¬ (rounds [Event.gamePhaseChanged GamePhase.teamSideSwitch, Event.roundStart] = 1) := by
  decide

end Final

/-! ## Metric calculator -/

/-- The K/D ratio written by the calculator. -/
theorem calcStats_KDRatio (p : PlayerStats) :
    (calcStats p).KDRatio =
      if p.Deaths = 0 then F64.ofInt p.Kills
      else F64.div (F64.ofInt p.Kills) (F64.ofInt p.Deaths) := by
  unfold calcStats
  simp only []
  split_ifs <;> rfl

/-- The headshot percentage written by the calculator. -/
theorem calcStats_HSPercent (p : PlayerStats) :
    (calcStats p).HSPercent =
      if p.Kills = 0 then F64.fin 0
      else F64.mul (F64.div (F64.ofInt p.Headshots) (F64.ofInt p.Kills)) (F64.fin 100) := by
  unfold calcStats
  simp only []
  split_ifs <;> rfl

/-- The rating before the floor, as a rational. -/
theorem rawRating_eq (p : PlayerStats) :
    F64.div (F64.sub (F64.add (F64.mul (F64.ofInt p.Kills) (F64.fin (1 / 2)))
        (F64.mul (F64.ofInt p.Assists) (F64.fin (15 / 100))))
        (F64.mul (F64.ofInt p.Deaths) (F64.fin (3 / 10)))) (F64.fin 5) =
      F64.fin (((p.Kills : ℚ) * (1 / 2) + (p.Assists : ℚ) * (15 / 100) -
          (p.Deaths : ℚ) * (3 / 10)) / 5) := by
  simp only [F64.ofInt, F64.mul, F64.add, F64.sub, F64.neg, F64.div]
  rw [if_neg (by norm_num)]
  congr 1
  ring

/-- The rating written by the calculator. -/
theorem calcStats_Rating (p : PlayerStats) :
    (calcStats p).Rating =
      if F64.lt (F64.div (F64.sub (F64.add (F64.mul (F64.ofInt p.Kills) (F64.fin (1 / 2)))
          (F64.mul (F64.ofInt p.Assists) (F64.fin (15 / 100))))
          (F64.mul (F64.ofInt p.Deaths) (F64.fin (3 / 10)))) (F64.fin 5)) (F64.fin (1 / 2))
      then F64.fin (1 / 2)
      else F64.div (F64.sub (F64.add (F64.mul (F64.ofInt p.Kills) (F64.fin (1 / 2)))
          (F64.mul (F64.ofInt p.Assists) (F64.fin (15 / 100))))
          (F64.mul (F64.ofInt p.Deaths) (F64.fin (3 / 10)))) (F64.fin 5) := by
  unfold calcStats
  simp only []
  split_ifs <;> rfl

/-- The accuracy written by the calculator. -/
theorem calcStats_Accuracy (p : PlayerStats) :
    (calcStats p).Accuracy =
      if 0 < p.Kills ∧ 0 < p.Damage then
        F64.div
          (if F64.gt (F64.mul (F64.div (F64.ofInt p.Kills) (F64.ofInt (Int.tdiv p.Damage 25)))
              (F64.fin 100)) (F64.fin 100) then F64.fin 100
            else if F64.lt (F64.mul (F64.div (F64.ofInt p.Kills)
              (F64.ofInt (Int.tdiv p.Damage 25))) (F64.fin 100)) (F64.fin 0) then F64.fin 0
            else F64.mul (F64.div (F64.ofInt p.Kills) (F64.ofInt (Int.tdiv p.Damage 25)))
              (F64.fin 100))
          (F64.fin 100)
      else p.Accuracy := by
  unfold calcStats
  simp only []
  split_ifs <;> rfl

/-- C8 (the code departs from the claim). For every record with kills > 0 and
0 < damage dealt < 25 the estimated number of shots `Damage / 25` is 0, the
quotient `float64(Kills) / float64(0)` is `+Inf`, the clamp to 100 applies, and
the calculator sets the accuracy to 1, not 0. -/
theorem accuracy_is_one_without_estimated_shots (p : PlayerStats)
    (hk : 0 < p.Kills) (hd0 : 0 < p.Damage) (hd : p.Damage < 25) :
    Int.tdiv p.Damage 25 = 0 ∧ (calcStats p).Accuracy = F64.fin 1 := by
  have hshots : Int.tdiv p.Damage 25 = 0 := Int.tdiv_eq_zero_of_lt (le_of_lt hd0) hd
  refine ⟨hshots, ?_⟩
  have hkq : (0 : ℚ) < (p.Kills : ℚ) := by exact_mod_cast hk
  have hkne : ¬ ((p.Kills : ℚ) = 0) := ne_of_gt hkq
  rw [calcStats_Accuracy, if_pos ⟨hk, hd0⟩, hshots]
  simp [F64.ofInt, F64.div, F64.mul, F64.gt, F64.lt, F64.infOfSign, hkq, hkne]

/-- C8, witness: a stream in which player 1 deals 10 damage and then makes one
kill leaves a record with one kill and 10 damage dealt; the calculator gives it
accuracy 1. -/
theorem accuracy_is_one_without_estimated_shots_witness :
    (reduce [Event.playerHurt ⟨some ⟨"V", 2, Team.counterTerrorists⟩,
        some ⟨"K", 1, Team.terrorists⟩, 10, 0, 5⟩,
      Event.kill ⟨some ⟨"K", 1, Team.terrorists⟩, some ⟨"V", 2, Team.counterTerrorists⟩,
        none, none, false, 6⟩]).lookup 1 =
      some { newPlayerStats ⟨"K", 1, Team.terrorists⟩ with Kills := 1, Damage := 10 } ∧
    Int.tdiv (10 : Int) 25 = 0 ∧
    (calcStats { newPlayerStats ⟨"K", 1, Team.terrorists⟩ with
      Kills := 1, Damage := 10 }).Accuracy = F64.fin 1 :=
  ⟨by decide,
   accuracy_is_one_without_estimated_shots
    { newPlayerStats ⟨"K", 1, Team.terrorists⟩ with Kills := 1, Damage := 10 }
    (by decide) (by decide) (by decide)⟩

/-- C9. For every record with 0 ≤ headshots ≤ kills and accuracy initially 0,
the calculator yields finite values with 0 ≤ headshotPercent ≤ 100,
0 ≤ accuracy ≤ 1 and rating ≥ 0.5, where headshotPercent is
100 * headshots / kills if kills > 0 and 0 otherwise. -/
theorem calcStats_bounds (p : PlayerStats) (h0 : 0 ≤ p.Headshots)
    (h1 : p.Headshots ≤ p.Kills) (hacc : p.Accuracy = F64.fin 0) :
    ∃ hsPercent accuracy rating : ℚ,
      (calcStats p).HSPercent = F64.fin hsPercent ∧
      (calcStats p).Accuracy = F64.fin accuracy ∧
      (calcStats p).Rating = F64.fin rating ∧
      0 ≤ hsPercent ∧ hsPercent ≤ 100 ∧
      hsPercent = (if 0 < p.Kills then 100 * (p.Headshots : ℚ) / (p.Kills : ℚ) else 0) ∧
      0 ≤ accuracy ∧ accuracy ≤ 1 ∧
      1 / 2 ≤ rating := by
  -- headshot percentage
  have hHS : ∃ x : ℚ, (calcStats p).HSPercent = F64.fin x ∧ 0 ≤ x ∧ x ≤ 100 ∧
      x = (if 0 < p.Kills then 100 * (p.Headshots : ℚ) / (p.Kills : ℚ) else 0) := by
    rw [calcStats_HSPercent]
    by_cases hk : p.Kills = 0
    · refine ⟨0, by simp [hk], le_refl _, by norm_num, by simp [hk]⟩
    · have hkpos : 0 < p.Kills := by omega
      have hkq : (0 : ℚ) < (p.Kills : ℚ) := by exact_mod_cast hkpos
      have hhq : (0 : ℚ) ≤ (p.Headshots : ℚ) := by exact_mod_cast h0
      have hle : (p.Headshots : ℚ) ≤ (p.Kills : ℚ) := by exact_mod_cast h1
      refine ⟨(p.Headshots : ℚ) / (p.Kills : ℚ) * 100, ?_, ?_, ?_, ?_⟩
      · simp [hk, F64.ofInt, F64.div, F64.mul, ne_of_gt hkq]
      · exact mul_nonneg (div_nonneg hhq (le_of_lt hkq)) (by norm_num)
      · have : (p.Headshots : ℚ) / (p.Kills : ℚ) ≤ 1 := (div_le_one hkq).2 hle
        linarith
      · rw [if_pos hkpos]
        ring
  -- accuracy
  have hAcc : ∃ x : ℚ, (calcStats p).Accuracy = F64.fin x ∧ 0 ≤ x ∧ x ≤ 1 := by
    rw [calcStats_Accuracy]
    by_cases hc : 0 < p.Kills ∧ 0 < p.Damage
    · rw [if_pos hc]
      obtain ⟨hk, hd⟩ := hc
      have hkq : (0 : ℚ) < (p.Kills : ℚ) := by exact_mod_cast hk
      have hkne : ¬ ((p.Kills : ℚ) = 0) := ne_of_gt hkq
      by_cases hs : Int.tdiv p.Damage 25 = 0
      · refine ⟨1, ?_, by norm_num, le_refl _⟩
        rw [hs]
        simp [F64.ofInt, F64.div, F64.mul, F64.gt, F64.lt, F64.infOfSign, hkq, hkne]
      · have hsnn : 0 ≤ Int.tdiv p.Damage 25 := Int.tdiv_nonneg (le_of_lt hd) (by decide)
        have hspos : 0 < Int.tdiv p.Damage 25 := by omega
        have hsq : (0 : ℚ) < ((Int.tdiv p.Damage 25 : Int) : ℚ) := by exact_mod_cast hspos
        have hsne : ¬ (((Int.tdiv p.Damage 25 : Int) : ℚ) = 0) := ne_of_gt hsq
        have hx : (0 : ℚ) < (p.Kills : ℚ) / ((Int.tdiv p.Damage 25 : Int) : ℚ) * 100 :=
          mul_pos (div_pos hkq hsq) (by norm_num)
        have hval : F64.mul (F64.div (F64.ofInt p.Kills) (F64.ofInt (Int.tdiv p.Damage 25)))
            (F64.fin 100) =
            F64.fin ((p.Kills : ℚ) / ((Int.tdiv p.Damage 25 : Int) : ℚ) * 100) := by
          simp [F64.ofInt, F64.div, F64.mul, hsne]
        rw [hval]
        by_cases hgt : (100 : ℚ) < (p.Kills : ℚ) / ((Int.tdiv p.Damage 25 : Int) : ℚ) * 100
        · refine ⟨1, ?_, by norm_num, le_refl _⟩
          simp [F64.gt, F64.lt, F64.div, hgt]
        · refine ⟨(p.Kills : ℚ) / ((Int.tdiv p.Damage 25 : Int) : ℚ) * 100 / 100, ?_, ?_, ?_⟩
          · have hnlt : ¬ ((p.Kills : ℚ) / ((Int.tdiv p.Damage 25 : Int) : ℚ) * 100 < 0) :=
              not_lt.2 (le_of_lt hx)
            simp only [F64.gt, F64.lt, hgt, hnlt, decide_False, Bool.false_eq_true, if_false,
              F64.div]
            rw [if_neg (by norm_num)]
          · exact div_nonneg (le_of_lt hx) (by norm_num)
          · rw [div_le_one (by norm_num)]
            exact not_lt.1 hgt
    · rw [if_neg hc]
      exact ⟨0, hacc, le_refl _, by norm_num⟩
  -- rating
  have hR : ∃ x : ℚ, (calcStats p).Rating = F64.fin x ∧ 1 / 2 ≤ x := by
    rw [calcStats_Rating, rawRating_eq]
    by_cases hlt : ((p.Kills : ℚ) * (1 / 2) + (p.Assists : ℚ) * (15 / 100) -
          (p.Deaths : ℚ) * (3 / 10)) / 5 < 1 / 2
    · refine ⟨1 / 2, ?_, le_refl _⟩
      simp only [F64.lt, hlt, decide_True, if_true]
    · refine ⟨_, ?_, not_lt.1 hlt⟩
      simp only [F64.lt, hlt, decide_False, Bool.false_eq_true, if_false]
  obtain ⟨x, hx1, hx2, hx3, hx4⟩ := hHS
  obtain ⟨y, hy1, hy2, hy3⟩ := hAcc
  obtain ⟨z, hz1, hz2⟩ := hR
  exact ⟨x, y, z, hx1, hy1, hz1, hx2, hx3, hx4, hy2, hy3, hz2⟩

/-- C9, witness: the record of 20 kills, 18 headshots, 2 deaths and 1000 damage
dealt. -/
theorem calcStats_bounds_witness :
    ∃ hsPercent accuracy rating : ℚ,
      (calcStats { newPlayerStats ⟨"K", 1, Team.terrorists⟩ with
        Kills := 20, Headshots := 18, Deaths := 2, Damage := 1000 }).HSPercent =
        F64.fin hsPercent ∧
      (calcStats { newPlayerStats ⟨"K", 1, Team.terrorists⟩ with
        Kills := 20, Headshots := 18, Deaths := 2, Damage := 1000 }).Accuracy =
        F64.fin accuracy ∧
      (calcStats { newPlayerStats ⟨"K", 1, Team.terrorists⟩ with
        Kills := 20, Headshots := 18, Deaths := 2, Damage := 1000 }).Rating =
        F64.fin rating ∧
      0 ≤ hsPercent ∧ hsPercent ≤ 100 ∧
      hsPercent = (if (0 : Int) < 20 then 100 * ((18 : Int) : ℚ) / ((20 : Int) : ℚ) else 0) ∧
      0 ≤ accuracy ∧ accuracy ≤ 1 ∧
      1 / 2 ≤ rating :=
  calcStats_bounds
    { newPlayerStats ⟨"K", 1, Team.terrorists⟩ with
      Kills := 20, Headshots := 18, Deaths := 2, Damage := 1000 }
    (by decide) (by decide) rfl

/-- C10. For every record the calculator sets kdRatio to the exact quotient
kills / deaths when deaths > 0 and to kills when deaths = 0; for 20 kills and
2 deaths the result is 10. -/
theorem calcStats_kdRatio (p : PlayerStats) :
    (0 < p.Deaths → (calcStats p).KDRatio = F64.fin ((p.Kills : ℚ) / (p.Deaths : ℚ))) ∧
    (p.Deaths = 0 → (calcStats p).KDRatio = F64.fin (p.Kills : ℚ)) ∧
    (p.Kills = 20 → p.Deaths = 2 → (calcStats p).KDRatio = F64.fin 10) := by
  refine ⟨?_, ?_, ?_⟩
  · intro hd
    have hdq : ¬ ((p.Deaths : ℚ) = 0) := by
      have : (0 : ℚ) < (p.Deaths : ℚ) := by exact_mod_cast hd
      exact ne_of_gt this
    rw [calcStats_KDRatio, if_neg (by omega)]
    simp [F64.ofInt, F64.div, hdq]
  · intro hd
    rw [calcStats_KDRatio, if_pos hd]
    rfl
  · intro hk hd
    rw [calcStats_KDRatio, if_neg (by omega), hk, hd]
    simp only [F64.ofInt, F64.div]
    rw [if_neg (by norm_num)]
    congr 1
    norm_num

/-- C10, an instance: the record of 20 kills and 2 deaths gets kdRatio 10. -/
theorem calcStats_kdRatio_witness :
    (calcStats { newPlayerStats ⟨"K", 1, Team.terrorists⟩ with
      Kills := 20, Deaths := 2 }).KDRatio = F64.fin 10 :=
  (calcStats_kdRatio { newPlayerStats ⟨"K", 1, Team.terrorists⟩ with
      Kills := 20, Deaths := 2 }).2.2 rfl rfl

/-! ## Idempotence of the metric calculator -/

/-- The calculator writes the four derived metrics and nothing else. -/
theorem calcStats_eq (p : PlayerStats) :
    calcStats p =
      { p with
        KDRatio := (calcStats p).KDRatio, HSPercent := (calcStats p).HSPercent,
        Rating := (calcStats p).Rating, Accuracy := (calcStats p).Accuracy } := by
  unfold calcStats
  simp only []
  split_ifs <;> rfl

/-- C11. Running the metric calculator a second time on a record yields the same
record as the first run: kdRatio, headshotPercent, rating and accuracy (and every
other field) of `calcStats (calcStats p)` are those of `calcStats p`, for every
record `p`. -/
theorem calcStats_idempotent (p : PlayerStats) :
    calcStats (calcStats p) = calcStats p ∧
    (calcStats (calcStats p)).KDRatio = (calcStats p).KDRatio ∧
    (calcStats (calcStats p)).HSPercent = (calcStats p).HSPercent ∧
    (calcStats (calcStats p)).Rating = (calcStats p).Rating ∧
    (calcStats (calcStats p)).Accuracy = (calcStats p).Accuracy := by
  have hK : (calcStats p).Kills = p.Kills := by rw [calcStats_eq]
  have hD : (calcStats p).Deaths = p.Deaths := by rw [calcStats_eq]
  have hA : (calcStats p).Assists = p.Assists := by rw [calcStats_eq]
  have hH : (calcStats p).Headshots = p.Headshots := by rw [calcStats_eq]
  have hDm : (calcStats p).Damage = p.Damage := by rw [calcStats_eq]
  have h1 : (calcStats (calcStats p)).KDRatio = (calcStats p).KDRatio := by
    rw [calcStats_KDRatio (calcStats p), calcStats_KDRatio p, hK, hD]
  have h2 : (calcStats (calcStats p)).HSPercent = (calcStats p).HSPercent := by
    rw [calcStats_HSPercent (calcStats p), calcStats_HSPercent p, hK, hH]
  have h3 : (calcStats (calcStats p)).Rating = (calcStats p).Rating := by
    rw [calcStats_Rating (calcStats p), calcStats_Rating p, hK, hD, hA]
  have h4 : (calcStats (calcStats p)).Accuracy = (calcStats p).Accuracy := by
    rw [calcStats_Accuracy (calcStats p), hK, hDm]
    by_cases hc : 0 < p.Kills ∧ 0 < p.Damage
    · rw [if_pos hc, calcStats_Accuracy p, if_pos hc]
    · rw [if_neg hc]
  refine ⟨?_, h1, h2, h3, h4⟩
  rw [calcStats_eq (calcStats p), h1, h2, h3, h4]

/-! ## Damage bursts -/

theorem burstWindow_eq (start : Int) (l : List DamageEvent) (acc : Int × Int) :
    burstWindow start l acc =
      (acc.1 + windowDamage (l.takeWhile (fun d => decide (d.Tick - start < 128))),
        windowEnd (l.takeWhile (fun d => decide (d.Tick - start < 128))) acc.2) := by
  induction l generalizing acc with
  | nil => simp [burstWindow, windowDamage, windowEnd]
  | cons d ds ih =>
    by_cases h : d.Tick - start < 128
    · simp only [burstWindow, h, if_true, ih, List.takeWhile_cons, decide_True]
      refine Prod.ext ?_ ?_
      · simp only [windowDamage, List.map_cons, List.sum_cons]
        ring
      · simp only [windowEnd]
        cases hl : List.takeWhile (fun d => decide (d.Tick - start < 128)) ds with
        | nil => simp
        | cons x xs =>
          cases hg : (x :: xs).getLast? with
          | none => simp at hg
          | some y => simp [List.getLast?_cons_cons, hg]
    · simp [burstWindow, h, windowDamage, windowEnd]

theorem tickAt_zero (d : DamageEvent) (l : List DamageEvent) : tickAt (d :: l) 0 = d.Tick := by
  simp [tickAt]

theorem tickAt_succ (d : DamageEvent) (l : List DamageEvent) (i : Nat) :
    tickAt (d :: l) (i + 1) = tickAt l i := by
  simp [tickAt]

theorem qualifiesAccumulated_succ (d : DamageEvent) (l : List DamageEvent) (i : Nat) :
    QualifiesAccumulated (d :: l) (i + 1) ↔ QualifiesAccumulated l i := by
  simp [QualifiesAccumulated, windowAccumulated, tickAt_succ]

theorem qualifiesAccumulated_zero (d : DamageEvent) (l : List DamageEvent) :
    QualifiesAccumulated (d :: l) 0 ↔
      150 < (burstWindow d.Tick (d :: l) (0, d.Tick)).1 ∧
        10 < (burstWindow d.Tick (d :: l) (0, d.Tick)).2 - d.Tick := by
  rw [burstWindow_eq]
  simp [QualifiesAccumulated, windowAccumulated, tickAt_zero]

/-- The last index starts a window of one entry, which ends where it starts. -/
theorem not_qualifiesAccumulated_singleton (d : DamageEvent) (i : Nat) :
    ¬ QualifiesAccumulated [d] i := by
  cases i with
  | zero =>
    rw [qualifiesAccumulated_zero]
    simp [burstWindow]
  | succ n => simp [QualifiesAccumulated]

/-- The scan returns nothing when no index qualifies, and otherwise the finding of
the smallest qualifying index. -/
theorem burstScan_spec (playerStats : PlayerStats) (l : List DamageEvent) :
    (burstScan playerStats l = [] ∧ ∀ i, ¬ QualifiesAccumulated l i) ∨
    ∃ i, QualifiesAccumulated l i ∧ (∀ j, j < i → ¬ QualifiesAccumulated l j) ∧
      burstScan playerStats l =
        [burstMoment playerStats (windowDamage (windowAccumulated l i)) (tickAt l i)
          (windowEnd (windowAccumulated l i) (tickAt l i))] := by
  induction l with
  | nil =>
    left
    exact ⟨rfl, fun i h => by simp [QualifiesAccumulated] at h⟩
  | cons d l ih =>
    cases l with
    | nil =>
      left
      exact ⟨rfl, not_qualifiesAccumulated_singleton d⟩
    | cons d' ds =>
      by_cases hq : QualifiesAccumulated (d :: d' :: ds) 0
      · right
        refine ⟨0, hq, fun j hj => absurd hj (Nat.not_lt_zero j), ?_⟩
        have hq' := (qualifiesAccumulated_zero d (d' :: ds)).1 hq
        have hw := burstWindow_eq d.Tick (d :: d' :: ds) (0, d.Tick)
        simp only [burstScan, hq'.1, hq'.2, and_self, if_true, gt_iff_lt]
        rw [hw]
        simp [windowAccumulated, tickAt_zero]
      · have hq' : ¬ (150 < (burstWindow d.Tick (d :: d' :: ds) (0, d.Tick)).1 ∧
            10 < (burstWindow d.Tick (d :: d' :: ds) (0, d.Tick)).2 - d.Tick) :=
          fun h => hq ((qualifiesAccumulated_zero d (d' :: ds)).2 h)
        have hscan : burstScan playerStats (d :: d' :: ds) = burstScan playerStats (d' :: ds) := by
          simp only [burstScan, gt_iff_lt, hq', if_false]
        rcases ih with ⟨h1, h2⟩ | ⟨i, h1, h2, h3⟩
        · left
          refine ⟨hscan.trans h1, ?_⟩
          intro i
          cases i with
          | zero => exact hq
          | succ n => rw [qualifiesAccumulated_succ]; exact h2 n
        · right
          refine ⟨i + 1, (qualifiesAccumulated_succ d _ i).2 h1, ?_, ?_⟩
          · intro j hj
            cases j with
            | zero => exact hq
            | succ n =>
              rw [qualifiesAccumulated_succ]
              exact h2 n (by omega)
          · rw [hscan, h3]
            simp [windowAccumulated, tickAt_succ]

theorem filter_eq_takeWhile_of_tickOrdered (c : Int) (l : List DamageEvent)
    (h : TickOrdered l) :
    l.filter (fun d => decide (d.Tick < c)) = l.takeWhile (fun d => decide (d.Tick < c)) := by
  induction l with
  | nil => rfl
  | cons d ds ih =>
    have hp := List.pairwise_cons.1 h
    by_cases hd : d.Tick < c
    · simp only [List.filter_cons, List.takeWhile_cons, hd, decide_True, if_true]
      rw [ih hp.2]
    · simp only [List.filter_cons, List.takeWhile_cons, hd, decide_False, Bool.false_eq_true,
        if_false]
      rw [List.filter_eq_nil_iff]
      intro a ha
      have := hp.1 a ha
      simp only [decide_eq_true_eq, not_lt]
      omega

theorem windowByTick_eq_accumulated (damages : List DamageEvent) (h : TickOrdered damages)
    (i : Nat) : windowByTick damages i = windowAccumulated damages i := by
  unfold windowByTick windowAccumulated
  have hd : TickOrdered (damages.drop i) := List.Pairwise.sublist (List.drop_sublist i damages) h
  rw [filter_eq_takeWhile_of_tickOrdered _ _ hd]
  congr 1
  funext d
  have : (d.Tick < tickAt damages i + 128) ↔ (d.Tick - tickAt damages i < 128) := by
    constructor <;> intro h <;> omega
  simp only [this]

theorem qualifiesByTick_iff (damages : List DamageEvent) (h : TickOrdered damages) (i : Nat) :
    QualifiesByTick damages i ↔ QualifiesAccumulated damages i := by
  unfold QualifiesByTick QualifiesAccumulated
  rw [windowByTick_eq_accumulated damages h i]

theorem burstScan_tag (playerStats : PlayerStats) (l : List DamageEvent) :
    ∀ m ∈ burstScan playerStats l, m.SuspicionType = "damage_burst" := by
  intro m hm
  rcases burstScan_spec playerStats l with ⟨h1, _⟩ | ⟨i, _, _, h3⟩
  · rw [h1] at hm; cases hm
  · rw [h3] at hm
    simp only [List.mem_singleton] at hm
    rw [hm]
    rfl

theorem detectDamageBurst_eq (playerStats : PlayerStats) (playerHist : PlayerHistory) :
    detectDamageBurst playerStats playerHist = burstScan playerStats playerHist.Damages := by
  unfold detectDamageBurst
  cases h : playerHist.Damages with
  | nil => rfl
  | cons d ds => simp

theorem detectHeadshotRate_tag (playerStats : PlayerStats) (playerHist : PlayerHistory) :
    ∀ m ∈ detectHeadshotRate playerStats playerHist,
      m.SuspicionType = "unusual_headshot_rate" := by
  intro m hm
  unfold detectHeadshotRate at hm
  split at hm
  · simp only [] at hm
    split at hm
    · split at hm
      · simp only [List.mem_singleton] at hm
        rw [hm]
      · cases hm
    · cases hm
  · cases hm

theorem detectExtremeKD_tag (playerStats : PlayerStats) :
    ∀ m ∈ detectExtremeKD playerStats, m.SuspicionType = "extreme_kd_ratio" := by
  intro m hm
  unfold detectExtremeKD at hm
  split at hm
  · simp only [] at hm
    split at hm
    · simp only [List.mem_singleton] at hm
      rw [hm]
    · cases hm
  · cases hm

theorem detectAccuracy_tag (playerStats : PlayerStats) :
    ∀ m ∈ detectAccuracy playerStats, m.SuspicionType = "unusual_accuracy" := by
  intro m hm
  unfold detectAccuracy at hm
  split at hm
  · simp only [List.mem_singleton] at hm
    rw [hm]
  · cases hm

/-- The findings of a player with a given tag are those of the block that writes
the tag. -/
theorem mem_playerMoments_burst (playerStats : PlayerStats) (playerHist : PlayerHistory)
    (m : SuspiciousMoment) :
    (m ∈ playerMoments playerStats playerHist ∧ m.SuspicionType = "damage_burst") ↔
      m ∈ burstScan playerStats playerHist.Damages := by
  unfold playerMoments
  rw [detectDamageBurst_eq]
  simp only [List.mem_append]
  constructor
  · rintro ⟨((h | h) | h) | h, ht⟩
    · exact h
    · rw [detectHeadshotRate_tag _ _ m h] at ht; exact absurd ht (by decide)
    · rw [detectExtremeKD_tag _ m h] at ht; exact absurd ht (by decide)
    · rw [detectAccuracy_tag _ m h] at ht; exact absurd ht (by decide)
  · intro h
    exact ⟨Or.inl (Or.inl (Or.inl h)), burstScan_tag _ _ m h⟩

/-- C12. For every player whose damage history is ordered by non-decreasing
tick, the detector emits a damage_burst finding for that player if and only if
there is a starting index `i` of the history (the last one included) such that
the damage of all entries at index `≥ i` with tick below `tick(i) + 128` sums to
more than 150 and the last such entry is more than 10 ticks after `tick(i)`.  In
particular no damage_burst finding is emitted when no such window holds more than
150 damage. -/
theorem damage_burst_iff_window (playerStats : PlayerStats) (playerHist : PlayerHistory)
    (hsorted : TickOrdered playerHist.Damages) :
    ((∃ m, m ∈ playerMoments playerStats playerHist ∧ m.SuspicionType = "damage_burst") ↔
      ∃ i, QualifiesByTick playerHist.Damages i) ∧
    ((∀ i, windowDamage (windowByTick playerHist.Damages i) ≤ 150) →
      ¬ ∃ m, m ∈ playerMoments playerStats playerHist ∧ m.SuspicionType = "damage_burst") := by
  have hiff : (∃ m, m ∈ playerMoments playerStats playerHist ∧
      m.SuspicionType = "damage_burst") ↔ ∃ i, QualifiesByTick playerHist.Damages i := by
    simp only [mem_playerMoments_burst, qualifiesByTick_iff _ hsorted]
    rcases burstScan_spec playerStats playerHist.Damages with ⟨h1, h2⟩ | ⟨i, h1, _, h3⟩
    · rw [h1]
      constructor
      · rintro ⟨m, hm⟩; cases hm
      · rintro ⟨i, hi⟩; exact absurd hi (h2 i)
    · rw [h3]
      exact ⟨fun _ => ⟨i, h1⟩, fun _ => ⟨_, List.mem_singleton.2 rfl⟩⟩
  refine ⟨hiff, ?_⟩
  intro hno hex
  obtain ⟨i, _, hi, _⟩ := hiff.1 hex
  have := hno i
  omega

/-- C12, witness: two hits of 100 damage, 20 ticks apart, form a qualifying
window at index 0, and the detector emits the finding. -/
theorem damage_burst_iff_window_witness :
    TickOrdered [⟨0, "K", "V", 100⟩, ⟨20, "K", "V", 100⟩] ∧
    QualifiesByTick [⟨0, "K", "V", 100⟩, ⟨20, "K", "V", 100⟩] 0 ∧
    ((∃ m, m ∈ playerMoments (newPlayerStats ⟨"K", 1, Team.terrorists⟩)
          ⟨1, "", Team.unassigned, [], [⟨0, "K", "V", 100⟩, ⟨20, "K", "V", 100⟩]⟩ ∧
        m.SuspicionType = "damage_burst") ↔
      ∃ i, QualifiesByTick [⟨0, "K", "V", 100⟩, ⟨20, "K", "V", 100⟩] i) :=
  ⟨by unfold TickOrdered; decide,
   by unfold QualifiesByTick windowByTick windowDamage windowEnd tickAt; decide,
   (damage_burst_iff_window (newPlayerStats ⟨"K", 1, Team.terrorists⟩)
      ⟨1, "", Team.unassigned, [], [⟨0, "K", "V", 100⟩, ⟨20, "K", "V", 100⟩]⟩
      (by unfold TickOrdered; decide)).1⟩

/-- C13. For every player at most one damage_burst finding is emitted, and an
emitted one describes the window accumulated for the smallest qualifying
starting index `i`: tick_start = tick(i), tick_end = tick of the last entry
accumulated, confidence = min(0.95, burstDamage / 300) with burstDamage the damage
accumulated in that window, and estimated duration = (tick_end - tick_start) / 64
as an integer quotient. -/
theorem damage_burst_first_window (playerStats : PlayerStats) (playerHist : PlayerHistory) :
    ((playerMoments playerStats playerHist).filter
      (fun m => decide (m.SuspicionType = "damage_burst"))).length ≤ 1 ∧
    ∀ m, m ∈ playerMoments playerStats playerHist ∧ m.SuspicionType = "damage_burst" →
      ∃ i, QualifiesAccumulated playerHist.Damages i ∧
        (∀ j, j < i → ¬ QualifiesAccumulated playerHist.Damages j) ∧
        m.TickStart = tickAt playerHist.Damages i ∧
        m.TickEnd = windowEnd (windowAccumulated playerHist.Damages i)
          (tickAt playerHist.Damages i) ∧
        m.Confidence = F64.min (F64.fin (95 / 100))
          (F64.fin ((windowDamage (windowAccumulated playerHist.Damages i) : ℚ) / 300)) ∧
        m.EstimatedDuration = (m.TickEnd - m.TickStart) / 64 ∧
        m.EstimatedDuration = Int.tdiv (m.TickEnd - m.TickStart) 64 := by
  constructor
  · have hfilter : (playerMoments playerStats playerHist).filter
        (fun m => decide (m.SuspicionType = "damage_burst")) =
        burstScan playerStats playerHist.Damages := by
      unfold playerMoments
      rw [detectDamageBurst_eq]
      simp only [List.filter_append]
      have h1 : (burstScan playerStats playerHist.Damages).filter
          (fun m => decide (m.SuspicionType = "damage_burst")) =
          burstScan playerStats playerHist.Damages := by
        rw [List.filter_eq_self]
        intro m hm
        simp [burstScan_tag _ _ m hm]
      have h2 : (detectHeadshotRate playerStats playerHist).filter
          (fun m => decide (m.SuspicionType = "damage_burst")) = [] := by
        rw [List.filter_eq_nil_iff]
        intro m hm
        rw [detectHeadshotRate_tag _ _ m hm]
        decide
      have h3 : (detectExtremeKD playerStats).filter
          (fun m => decide (m.SuspicionType = "damage_burst")) = [] := by
        rw [List.filter_eq_nil_iff]
        intro m hm
        rw [detectExtremeKD_tag _ m hm]
        decide
      have h4 : (detectAccuracy playerStats).filter
          (fun m => decide (m.SuspicionType = "damage_burst")) = [] := by
        rw [List.filter_eq_nil_iff]
        intro m hm
        rw [detectAccuracy_tag _ m hm]
        decide
      rw [h1, h2, h3, h4]
      simp
    rw [hfilter]
    rcases burstScan_spec playerStats playerHist.Damages with ⟨h1, _⟩ | ⟨i, _, _, h3⟩
    · rw [h1]; simp
    · rw [h3]; simp
  · intro m hm
    rw [mem_playerMoments_burst] at hm
    rcases burstScan_spec playerStats playerHist.Damages with ⟨h1, _⟩ | ⟨i, h1, h2, h3⟩
    · rw [h1] at hm; cases hm
    · rw [h3] at hm
      simp only [List.mem_singleton] at hm
      refine ⟨i, h1, h2, ?_⟩
      have hspan : 0 ≤ windowEnd (windowAccumulated playerHist.Damages i)
          (tickAt playerHist.Damages i) - tickAt playerHist.Damages i := by
        have := h1.2.2
        omega
      rw [hm]
      refine ⟨rfl, rfl, ?_, ?_, rfl⟩
      · simp only [burstMoment, F64.ofInt, F64.div]
        rw [if_neg (by norm_num)]
      · simp only [burstMoment]
        exact Int.tdiv_eq_ediv hspan (by decide)

/-! ## Headshot rate, K/D ratio and accuracy findings -/

theorem foldl_headshots (l : List KillEvent) (c : Int) :
    l.foldl (fun c kill => if kill.Headshot then c + 1 else c) c = c + (headshotCount l : Int) := by
  induction l generalizing c with
  | nil => simp [headshotCount]
  | cons k ks ih =>
    simp only [List.foldl_cons, ih, headshotCount, List.filter_cons]
    cases k.Headshot <;> simp
    ring

/-- The headshot block emits exactly when there are at least 5 kills and the
rate exceeds one half, and then the finding below. -/
theorem mem_detectHeadshotRate (playerStats : PlayerStats) (playerHist : PlayerHistory)
    (m : SuspiciousMoment) :
    m ∈ detectHeadshotRate playerStats playerHist ↔
      5 ≤ playerHist.Kills.length ∧ (1 / 2 : ℚ) < headshotRate playerHist.Kills ∧
      ∃ first last, playerHist.Kills.head? = some first ∧
        playerHist.Kills.getLast? = some last ∧
        m = { PlayerName := playerStats.Name,
              Team := playerStats.Team,
              SuspicionType := "unusual_headshot_rate",
              Description := Description.headshotRate
                (F64.fin (headshotRate playerHist.Kills * 100))
                (headshotCount playerHist.Kills : Int) (playerHist.Kills.length : Int),
              Confidence := F64.min (F64.fin (92 / 100)) (F64.fin (headshotRate playerHist.Kills)),
              TickStart := first.Tick,
              TickEnd := last.Tick,
              EstimatedDuration := 5 } := by
  unfold detectHeadshotRate
  by_cases h3 : playerHist.Kills.length ≥ 3
  · have hn : ¬ (((playerHist.Kills.length : Int) : ℚ) = 0) := by
      have : (0 : ℚ) < ((playerHist.Kills.length : Int) : ℚ) := by
        have h0 : 0 < playerHist.Kills.length := by omega
        exact_mod_cast h0
      exact ne_of_gt this
    have hrate : F64.div (F64.ofInt (playerHist.Kills.foldl
          (fun c kill => if kill.Headshot then c + 1 else c) 0))
        (F64.ofInt (playerHist.Kills.length : Int)) = F64.fin (headshotRate playerHist.Kills) := by
      rw [foldl_headshots]
      simp only [F64.ofInt, F64.div]
      rw [if_neg hn]
      simp [headshotRate]
    rw [if_pos h3]
    simp only []
    rw [hrate, foldl_headshots]
    by_cases hc : (1 / 2 : ℚ) < headshotRate playerHist.Kills ∧ playerHist.Kills.length ≥ 5
    · have hgt : (F64.gt (F64.fin (headshotRate playerHist.Kills)) (F64.fin (1 / 2)) = true ∧
          playerHist.Kills.length ≥ 5) := by
        simp only [F64.gt, F64.lt, decide_eq_true_eq]
        exact hc
      rw [if_pos hgt]
      cases hK : playerHist.Kills with
      | nil => rw [hK] at h3; simp at h3
      | cons k ks =>
        rw [hK] at hc
        have hlast : (k :: ks).getLast? = some ((k :: ks).getLast (List.cons_ne_nil k ks)) :=
          List.getLast?_eq_getLast _ _
        simp only [List.head?_cons, hlast, List.mem_singleton, F64.mul, zero_add]
        constructor
        · intro hm
          exact ⟨hc.2, hc.1, k, _, rfl, rfl, hm⟩
        · rintro ⟨_, _, first, last, hf, hl, hm⟩
          simp only [Option.some.injEq] at hf hl
          subst hf
          subst hl
          exact hm
    · have hgt : ¬ (F64.gt (F64.fin (headshotRate playerHist.Kills)) (F64.fin (1 / 2)) = true ∧
          playerHist.Kills.length ≥ 5) := by
        simp only [F64.gt, F64.lt, decide_eq_true_eq]
        exact hc
      rw [if_neg hgt]
      simp only [List.not_mem_nil, false_iff]
      rintro ⟨h5, hr, _⟩
      exact hc ⟨hr, h5⟩
  · rw [if_neg h3]
    simp only [List.not_mem_nil, false_iff]
    rintro ⟨h5, _⟩
    omega

theorem mem_playerMoments_headshot (playerStats : PlayerStats) (playerHist : PlayerHistory)
    (m : SuspiciousMoment) :
    (m ∈ playerMoments playerStats playerHist ∧ m.SuspicionType = "unusual_headshot_rate") ↔
      m ∈ detectHeadshotRate playerStats playerHist := by
  unfold playerMoments
  rw [detectDamageBurst_eq]
  simp only [List.mem_append]
  constructor
  · rintro ⟨((h | h) | h) | h, ht⟩
    · rw [burstScan_tag _ _ m h] at ht; exact absurd ht (by decide)
    · exact h
    · rw [detectExtremeKD_tag _ m h] at ht; exact absurd ht (by decide)
    · rw [detectAccuracy_tag _ m h] at ht; exact absurd ht (by decide)
  · intro h
    exact ⟨Or.inl (Or.inl (Or.inr h)), detectHeadshotRate_tag _ _ m h⟩

theorem mem_playerMoments_extremeKD (playerStats : PlayerStats) (playerHist : PlayerHistory)
    (m : SuspiciousMoment) :
    (m ∈ playerMoments playerStats playerHist ∧ m.SuspicionType = "extreme_kd_ratio") ↔
      m ∈ detectExtremeKD playerStats := by
  unfold playerMoments
  rw [detectDamageBurst_eq]
  simp only [List.mem_append]
  constructor
  · rintro ⟨((h | h) | h) | h, ht⟩
    · rw [burstScan_tag _ _ m h] at ht; exact absurd ht (by decide)
    · rw [detectHeadshotRate_tag _ _ m h] at ht; exact absurd ht (by decide)
    · exact h
    · rw [detectAccuracy_tag _ m h] at ht; exact absurd ht (by decide)
  · intro h
    exact ⟨Or.inl (Or.inr h), detectExtremeKD_tag _ m h⟩

/-- C14. For every player an unusual_headshot_rate finding is emitted if and
only if the kill history has at least 5 entries and rate = headshot entries /
entries exceeds 0.5; the finding has confidence min(0.92, rate), tick_start the
tick of the first kill and tick_end the tick of the last kill.  For a history of
20 kills with 18 headshots the confidence is 0.9. -/
theorem headshot_rate_finding (playerStats : PlayerStats) (playerHist : PlayerHistory) :
    ((∃ m, m ∈ playerMoments playerStats playerHist ∧
        m.SuspicionType = "unusual_headshot_rate") ↔
      5 ≤ playerHist.Kills.length ∧ (1 / 2 : ℚ) < headshotRate playerHist.Kills) ∧
    (∀ m, m ∈ playerMoments playerStats playerHist ∧
        m.SuspicionType = "unusual_headshot_rate" →
      m.Confidence = F64.min (F64.fin (92 / 100)) (F64.fin (headshotRate playerHist.Kills)) ∧
      ∃ first last, playerHist.Kills.head? = some first ∧
        playerHist.Kills.getLast? = some last ∧
        m.TickStart = first.Tick ∧ m.TickEnd = last.Tick) ∧
    (playerHist.Kills.length = 20 → headshotCount playerHist.Kills = 18 →
      ∃ m, m ∈ playerMoments playerStats playerHist ∧
        m.SuspicionType = "unusual_headshot_rate" ∧ m.Confidence = F64.fin (9 / 10)) := by
  have hex : 5 ≤ playerHist.Kills.length → (1 / 2 : ℚ) < headshotRate playerHist.Kills →
      ∃ m, m ∈ detectHeadshotRate playerStats playerHist := by
    intro h5 hr
    cases hK : playerHist.Kills with
    | nil => rw [hK] at h5; simp at h5
    | cons k ks =>
      refine ⟨_, (mem_detectHeadshotRate playerStats playerHist _).2
        ⟨h5, hr, k, (k :: ks).getLast (List.cons_ne_nil k ks), ?_, ?_, rfl⟩⟩
      · rw [hK]; rfl
      · rw [hK]; exact List.getLast?_eq_getLast _ _
  refine ⟨?_, ?_, ?_⟩
  · simp only [mem_playerMoments_headshot]
    constructor
    · rintro ⟨m, hm⟩
      obtain ⟨h5, hr, _⟩ := (mem_detectHeadshotRate _ _ _).1 hm
      exact ⟨h5, hr⟩
    · rintro ⟨h5, hr⟩
      exact hex h5 hr
  · intro m hm
    rw [mem_playerMoments_headshot] at hm
    obtain ⟨_, _, first, last, hf, hl, hm⟩ := (mem_detectHeadshotRate _ _ _).1 hm
    rw [hm]
    exact ⟨rfl, first, last, hf, hl, rfl, rfl⟩
  · intro h20 h18
    have hrate : headshotRate playerHist.Kills = 9 / 10 := by
      simp only [headshotRate, h20, h18]
      norm_num
    obtain ⟨m, hm⟩ := hex (by omega) (by rw [hrate]; norm_num)
    refine ⟨m, ((mem_playerMoments_headshot _ _ _).2 hm).1,
      ((mem_playerMoments_headshot _ _ _).2 hm).2, ?_⟩
    obtain ⟨_, _, first, last, _, _, hm'⟩ := (mem_detectHeadshotRate _ _ _).1 hm
    rw [hm', hrate]
    simp only [F64.min]
    rw [if_neg (by norm_num)]

/-- The K/D block emits exactly under its three tests, and then the finding below. -/
theorem mem_detectExtremeKD (playerStats : PlayerStats) (m : SuspiciousMoment) :
    m ∈ detectExtremeKD playerStats ↔
      (15 < playerStats.Kills ∧ playerStats.Deaths < 5 ∧
        F64.gt playerStats.KDRatio (F64.fin 3) = true) ∧
      m = { PlayerName := playerStats.Name,
            Team := playerStats.Team,
            SuspicionType := "extreme_kd_ratio",
            Description :=
              Description.extremeKD playerStats.KDRatio playerStats.Kills playerStats.Deaths,
            Confidence := F64.min (F64.fin (88 / 100)) (F64.div playerStats.KDRatio (F64.fin 5)),
            TickStart := 0,
            TickEnd := 1000,
            EstimatedDuration := 5 } := by
  unfold detectExtremeKD
  by_cases h1 : playerStats.Kills > 15 ∧ playerStats.Deaths < 5
  · rw [if_pos h1]
    simp only []
    by_cases h2 : F64.gt playerStats.KDRatio (F64.fin 3) = true
    · rw [if_pos h2]
      simp only [List.mem_singleton]
      exact ⟨fun h => ⟨⟨h1.1, h1.2, h2⟩, h⟩, fun h => h.2⟩
    · rw [if_neg h2]
      simp only [List.not_mem_nil, false_iff]
      rintro ⟨⟨_, _, h⟩, _⟩
      exact h2 h
  · rw [if_neg h1]
    simp only [List.not_mem_nil, false_iff]
    rintro ⟨⟨ha, hb, _⟩, _⟩
    exact h1 ⟨ha, hb⟩

/-- C15. For every scanned player an extreme_kd_ratio finding is emitted if and
only if kills > 15 and deaths < 5 and kdRatio > 3.0; the finding has confidence
min(0.88, kdRatio / 5.0) and the tick range [0, 1000]. -/
theorem extreme_kd_finding (playerStats : PlayerStats) (playerHist : PlayerHistory) :
    ((∃ m, m ∈ playerMoments playerStats playerHist ∧ m.SuspicionType = "extreme_kd_ratio") ↔
      15 < playerStats.Kills ∧ playerStats.Deaths < 5 ∧
        F64.gt playerStats.KDRatio (F64.fin 3) = true) ∧
    (∀ m, m ∈ playerMoments playerStats playerHist ∧ m.SuspicionType = "extreme_kd_ratio" →
      m.Confidence = F64.min (F64.fin (88 / 100)) (F64.div playerStats.KDRatio (F64.fin 5)) ∧
      m.TickStart = 0 ∧ m.TickEnd = 1000) := by
  simp only [mem_playerMoments_extremeKD, mem_detectExtremeKD]
  refine ⟨?_, ?_⟩
  · constructor
    · rintro ⟨m, h, _⟩; exact h
    · intro h; exact ⟨_, h, rfl⟩
  · rintro m ⟨_, hm⟩
    rw [hm]
    exact ⟨rfl, rfl, rfl⟩

/-! ## The returned list of findings -/

theorem min_fin_ok (c x : ℚ) (hc0 : 0 ≤ c) (hc1 : c ≤ 1) (hx : 0 ≤ x) :
    ∃ q : ℚ, F64.min (F64.fin c) (F64.fin x) = F64.fin q ∧ 0 ≤ q ∧ q ≤ 1 := by
  by_cases h : c < x
  · exact ⟨c, by simp [F64.min, h], hc0, hc1⟩
  · exact ⟨x, by simp [F64.min, h], hx, le_trans (not_lt.1 h) hc1⟩

theorem min_div_ok (c t d : ℚ) (x : F64) (hc0 : 0 ≤ c) (hc1 : c ≤ 1) (ht : 0 ≤ t)
    (hd : 0 < d) (hgt : F64.gt x (F64.fin t) = true) :
    ∃ q : ℚ, F64.min (F64.fin c) (F64.div x (F64.fin d)) = F64.fin q ∧ 0 ≤ q ∧ q ≤ 1 := by
  cases x with
  | fin a =>
    have ha : t < a := by simpa [F64.gt, F64.lt] using hgt
    have hdiv : F64.div (F64.fin a) (F64.fin d) = F64.fin (a / d) := by
      simp [F64.div, ne_of_gt hd]
    rw [hdiv]
    exact min_fin_ok c (a / d) hc0 hc1 (div_nonneg (le_trans ht (le_of_lt ha)) (le_of_lt hd))
  | posInf =>
    refine ⟨c, ?_, hc0, hc1⟩
    simp [F64.div, F64.min, le_of_lt hd]
  | negInf => simp [F64.gt, F64.lt] at hgt
  | nan => simp [F64.gt, F64.lt] at hgt

theorem burstScan_ok (playerStats : PlayerStats) (l : List DamageEvent) :
    ∀ m ∈ burstScan playerStats l, MomentOk m := by
  intro m hm
  refine ⟨?_, Or.inl (burstScan_tag _ _ m hm)⟩
  rcases burstScan_spec playerStats l with ⟨h1, _⟩ | ⟨i, h1, _, h3⟩
  · rw [h1] at hm; cases hm
  · rw [h3] at hm
    simp only [List.mem_singleton] at hm
    rw [hm]
    have hd : (150 : ℚ) < (windowDamage (windowAccumulated l i) : ℚ) := by exact_mod_cast h1.2.1
    have hdiv : F64.div (F64.ofInt (windowDamage (windowAccumulated l i))) (F64.fin 300) =
        F64.fin ((windowDamage (windowAccumulated l i) : ℚ) / 300) := by
      simp only [F64.ofInt, F64.div]
      rw [if_neg (by norm_num)]
    simp only [burstMoment, hdiv]
    exact min_fin_ok _ _ (by norm_num) (by norm_num) (div_nonneg (by linarith) (by norm_num))

theorem playerMoments_ok (playerStats : PlayerStats) (playerHist : PlayerHistory) :
    ∀ m ∈ playerMoments playerStats playerHist, MomentOk m := by
  intro m hm
  unfold playerMoments at hm
  rw [detectDamageBurst_eq] at hm
  simp only [List.mem_append] at hm
  rcases hm with ((h | h) | h) | h
  · exact burstScan_ok _ _ m h
  · refine ⟨?_, Or.inr (Or.inl (detectHeadshotRate_tag _ _ m h))⟩
    obtain ⟨_, hr, _, _, _, _, hm⟩ := (mem_detectHeadshotRate _ _ _).1 h
    rw [hm]
    exact min_fin_ok _ _ (by norm_num) (by norm_num) (by linarith)
  · refine ⟨?_, Or.inr (Or.inr (Or.inl (detectExtremeKD_tag _ m h)))⟩
    obtain ⟨⟨_, _, hgt⟩, hm⟩ := (mem_detectExtremeKD _ _).1 h
    rw [hm]
    exact min_div_ok _ 3 5 _ (by norm_num) (by norm_num) (by norm_num) (by norm_num) hgt
  · refine ⟨?_, Or.inr (Or.inr (Or.inr (detectAccuracy_tag _ m h)))⟩
    unfold detectAccuracy at h
    split at h
    · rename_i hc
      simp only [List.mem_singleton] at h
      rw [h]
      exact min_div_ok _ (55 / 100) (75 / 100) _ (by norm_num) (by norm_num) (by norm_num)
        (by norm_num) hc.1
    · cases h

theorem mem_foldl_moments (history : IdMap PlayerHistory) (playerMap : IdMap Nat)
    (heap : List PlayerStats) (m : SuspiciousMoment) :
    ∀ (acc : List SuspiciousMoment),
      m ∈ history.foldl (fun moments entry =>
        match mapGet playerMap entry.1 with
        | none => moments
        | some ptr =>
          match heap[ptr]? with
          | none => moments
          | some playerStats => moments ++ playerMoments playerStats entry.2) acc →
      m ∈ acc ∨ ∃ entry playerStats, entry ∈ history ∧
        (∃ ptr, mapGet playerMap entry.1 = some ptr ∧ heap[ptr]? = some playerStats) ∧
        m ∈ playerMoments playerStats entry.2 := by
  induction history with
  | nil => intro acc h; exact Or.inl h
  | cons e es ih =>
    intro acc h
    simp only [List.foldl_cons] at h
    have lift : (∃ entry playerStats, entry ∈ es ∧
        (∃ ptr, mapGet playerMap entry.1 = some ptr ∧ heap[ptr]? = some playerStats) ∧
        m ∈ playerMoments playerStats entry.2) →
        ∃ entry playerStats, entry ∈ e :: es ∧
        (∃ ptr, mapGet playerMap entry.1 = some ptr ∧ heap[ptr]? = some playerStats) ∧
        m ∈ playerMoments playerStats entry.2 := by
      rintro ⟨entry, st, he, hp, hmm⟩
      exact ⟨entry, st, List.mem_cons_of_mem _ he, hp, hmm⟩
    cases hg : mapGet playerMap e.1 with
    | none =>
      rw [hg] at h
      rcases ih acc h with h' | h'
      · exact Or.inl h'
      · exact Or.inr (lift h')
    | some ptr =>
      rw [hg] at h
      cases hh : heap[ptr]? with
      | none =>
        simp only [hh] at h
        rcases ih acc h with h' | h'
        · exact Or.inl h'
        · exact Or.inr (lift h')
      | some st =>
        simp only [hh] at h
        rcases ih _ h with h' | h'
        · rcases List.mem_append.1 h' with h'' | h''
          · exact Or.inl h''
          · exact Or.inr ⟨e, st, List.mem_cons_self _ _, ⟨ptr, hg, hh⟩, h''⟩
        · exact Or.inr (lift h')

theorem mem_collectMoments (history : IdMap PlayerHistory) (playerMap : IdMap Nat)
    (heap : List PlayerStats) (m : SuspiciousMoment)
    (hm : m ∈ collectMoments history playerMap heap) :
    ∃ entry playerStats, entry ∈ history ∧
      (∃ ptr, mapGet playerMap entry.1 = some ptr ∧ heap[ptr]? = some playerStats) ∧
      m ∈ playerMoments playerStats entry.2 := by
  rcases mem_foldl_moments history playerMap heap m [] hm with h | h
  · cases h
  · exact h

theorem collectMoments_ok (history : IdMap PlayerHistory) (playerMap : IdMap Nat)
    (heap : List PlayerStats) : ∀ m ∈ collectMoments history playerMap heap, MomentOk m := by
  intro m hm
  obtain ⟨entry, st, _, _, h⟩ := mem_collectMoments history playerMap heap m hm
  exact playerMoments_ok st entry.2 m h

theorem truncateMoments_eq (moments : List SuspiciousMoment) :
    truncateMoments moments = moments.take 15 := by
  unfold truncateMoments
  by_cases h : moments.length > 15
  · rw [if_pos h]
  · rw [if_neg h, List.take_of_length_le (by omega)]

/-- C16. Every finding returned by `detectSuspiciousMoments`, for every history
(in every iteration order), id map and arena of records, has a confidence in the
closed interval [0, 1] and a category tag that is one of damage_burst,
unusual_headshot_rate, extreme_kd_ratio, unusual_accuracy. -/
theorem returned_moments_ok (history : IdMap PlayerHistory) (playerMap : IdMap Nat)
    (heap : List PlayerStats) (result : List SuspiciousMoment)
    (h : detectSuspiciousMoments history playerMap heap result) :
    ∀ m, m ∈ result → MomentOk m := by
  obtain ⟨sorted, ⟨hperm, _⟩, hres⟩ := h
  intro m hm
  rw [hres, truncateMoments_eq] at hm
  exact collectMoments_ok history playerMap heap m (hperm.subset (List.mem_of_mem_take hm))

/-- The example input yields one finding, the damage burst of 200 damage over
ticks 0 to 20. -/
theorem collectMoments_example :
    collectMoments exampleHistory examplePlayerMap exampleHeap =
      [burstMoment (newPlayerStats ⟨"K", 1, Team.terrorists⟩) 200 0 20] := by
  simp [collectMoments, exampleHistory, examplePlayerMap, exampleHeap, mapGet, playerMoments,
    detectDamageBurst, burstScan, burstWindow, detectHeadshotRate, detectExtremeKD,
    detectAccuracy, F64.gt, F64.lt, newPlayerStats]

theorem detectSuspiciousMoments_example :
    detectSuspiciousMoments exampleHistory examplePlayerMap exampleHeap
      [burstMoment (newPlayerStats ⟨"K", 1, Team.terrorists⟩) 200 0 20] := by
  refine ⟨[burstMoment (newPlayerStats ⟨"K", 1, Team.terrorists⟩) 200 0 20], ⟨?_, ?_⟩, ?_⟩
  · rw [collectMoments_example]
  · exact List.pairwise_singleton _ _
  · simp [truncateMoments]

/-- C16, witness: the finding returned for the example input is well formed. -/
theorem returned_moments_ok_witness :
    detectSuspiciousMoments exampleHistory examplePlayerMap exampleHeap
      [burstMoment (newPlayerStats ⟨"K", 1, Team.terrorists⟩) 200 0 20] ∧
    MomentOk (burstMoment (newPlayerStats ⟨"K", 1, Team.terrorists⟩) 200 0 20) :=
  ⟨detectSuspiciousMoments_example,
   returned_moments_ok exampleHistory examplePlayerMap exampleHeap _
     detectSuspiciousMoments_example _ (List.mem_singleton.2 rfl)⟩

/-- C17. For every input, the list returned by `detectSuspiciousMoments` has
non-increasing confidence from first to last, has at most 15 entries, namely
min(15, n) of the n findings produced for all players, and these are
highest-confidence findings: the findings left out have at most the confidence
of every finding returned. -/
theorem returned_moments_sorted_top15 (history : IdMap PlayerHistory) (playerMap : IdMap Nat)
    (heap : List PlayerStats) (result : List SuspiciousMoment)
    (h : detectSuspiciousMoments history playerMap heap result) :
    result.Pairwise (fun a b => ConfidenceLE b a) ∧
    result.length ≤ 15 ∧
    result.length = min 15 (collectMoments history playerMap heap).length ∧
    ∃ rest, (result ++ rest).Perm (collectMoments history playerMap heap) ∧
      ∀ a, a ∈ result → ∀ b, b ∈ rest → ConfidenceLE b a := by
  obtain ⟨sorted, ⟨hperm, hpw⟩, hres⟩ := h
  rw [truncateMoments_eq] at hres
  have hok : ∀ m, m ∈ sorted → MomentOk m := fun m hm =>
    collectMoments_ok history playerMap heap m (hperm.subset hm)
  have hle : sorted.Pairwise (fun a b => ConfidenceLE b a) := by
    refine List.Pairwise.imp_of_mem ?_ hpw
    intro a b ha hb hgt
    obtain ⟨⟨qa, hqa, _⟩, _⟩ := hok a ha
    obtain ⟨⟨qb, hqb, _⟩, _⟩ := hok b hb
    refine ⟨qa, qb, hqa, hqb, ?_⟩
    rw [hqa, hqb] at hgt
    simpa [F64.gt, F64.lt] using hgt
  have hsplit : List.take 15 sorted ++ List.drop 15 sorted = sorted := List.take_append_drop 15 sorted
  rw [← hsplit] at hle
  obtain ⟨h1, _, h3⟩ := List.pairwise_append.1 hle
  subst hres
  refine ⟨h1, ?_, ?_, List.drop 15 sorted, ?_, h3⟩
  · rw [List.length_take]
    exact min_le_left _ _
  · rw [List.length_take, hperm.length_eq]
  · rw [hsplit]
    exact hperm

/-- C17, witness: the example input returns its single finding. -/
theorem returned_moments_sorted_top15_witness :
    detectSuspiciousMoments exampleHistory examplePlayerMap exampleHeap
      [burstMoment (newPlayerStats ⟨"K", 1, Team.terrorists⟩) 200 0 20] ∧
    ([burstMoment (newPlayerStats ⟨"K", 1, Team.terrorists⟩) 200 0 20].length = min 15
      (collectMoments exampleHistory examplePlayerMap exampleHeap).length) :=
  ⟨detectSuspiciousMoments_example,
   (returned_moments_sorted_top15 exampleHistory examplePlayerMap exampleHeap _
     detectSuspiciousMoments_example).2.2.1⟩

/-! ## Score fallback -/

theorem foldl_teamKills_nonneg (players : List PlayerStats)
    (h : ∀ p, p ∈ players → 0 ≤ p.Kills) (acc : Int × Int) (ha : 0 ≤ acc.1 ∧ 0 ≤ acc.2) :
    0 ≤ (players.foldl (fun acc p =>
      if p.Team = "Counter-Terrorists" then (acc.1 + p.Kills, acc.2)
      else (acc.1, acc.2 + p.Kills)) acc).1 ∧
    0 ≤ (players.foldl (fun acc p =>
      if p.Team = "Counter-Terrorists" then (acc.1 + p.Kills, acc.2)
      else (acc.1, acc.2 + p.Kills)) acc).2 := by
  induction players generalizing acc with
  | nil => exact ha
  | cons p ps ih =>
    simp only [List.foldl_cons]
    apply ih (fun q hq => h q (List.mem_cons_of_mem _ hq))
    have hp := h p (List.mem_cons_self _ _)
    by_cases ht : p.Team = "Counter-Terrorists"
    · simp only [ht, if_true]
      exact ⟨by omega, ha.2⟩
    · simp only [ht, if_false]
      exact ⟨ha.1, by omega⟩

theorem teamKills_nonneg (players : List PlayerStats) (h : ∀ p, p ∈ players → 0 ≤ p.Kills) :
    0 ≤ (teamKills players).1 ∧ 0 ≤ (teamKills players).2 :=
  foldl_teamKills_nonneg players h (0, 0) ⟨le_refl _, le_refl _⟩

/-- The truncating quotient of a non-negative by a positive integer is the floor
of the exact quotient. -/
theorem tdiv_eq_floor (n d : Int) (hn : 0 ≤ n) (hd : 0 < d) :
    Int.tdiv n d = ⌊(n : ℚ) / (d : ℚ)⌋ := by
  rw [Int.tdiv_eq_ediv hn (le_of_lt hd)]
  have h := Rat.floor_intCast_div_natCast n d.toNat
  have hcast : ((d.toNat : ℤ)) = d := Int.toNat_of_nonneg (le_of_lt hd)
  have hq : ((d.toNat : ℕ) : ℚ) = (d : ℚ) := by exact_mod_cast hcast
  rw [hq, hcast] at h
  exact h.symm

/-- C18. When both scores supplied by the decoder are 0, the players' kill counts
are not negative and some side has kills, the scores are first computed as
floor(16 * teamAKills / (teamAKills + teamBKills)) and floor(16 * teamBKills /
(teamAKills + teamBKills)), and then the strictly smaller computed score is
raised to 13 if it is below 13; when both kill sums are zero both scores stay 0.
For teamAKills = 48 and teamBKills = 16 the final scores are 12 and 13. -/
theorem score_fallback (players : List PlayerStats)
    (hk : ∀ p, p ∈ players → 0 ≤ p.Kills) :
    (0 < (teamKills players).1 + (teamKills players).2 →
      ensureValidScores 0 0 players =
        some
          (raisedScore
            (computedScore (teamKills players).1
              ((teamKills players).1 + (teamKills players).2))
            (computedScore (teamKills players).2
              ((teamKills players).1 + (teamKills players).2)),
           raisedScore
            (computedScore (teamKills players).2
              ((teamKills players).1 + (teamKills players).2))
            (computedScore (teamKills players).1
              ((teamKills players).1 + (teamKills players).2)))) ∧
    ((teamKills players).1 + (teamKills players).2 = 0 →
      ensureValidScores 0 0 players = some (0, 0)) ∧
    (teamKills players = (48, 16) → ensureValidScores 0 0 players = some (12, 13)) := by
  obtain ⟨hA, hB⟩ := teamKills_nonneg players hk
  unfold ensureValidScores
  generalize (teamKills players) = k at hA hB ⊢
  obtain ⟨a, b⟩ := k
  simp only at hA hB ⊢
  refine ⟨?_, ?_, ?_⟩
  · intro hpos
    have hcond : a > 0 ∨ b > 0 := by omega
    have hne : ¬ (a + b = 0) := by omega
    have hfa : Int.tdiv (a * 16) (a + b) = computedScore a (a + b) := by
      rw [tdiv_eq_floor _ _ (by omega) hpos, mul_comm]
      rfl
    have hfb : Int.tdiv (b * 16) (a + b) = computedScore b (a + b) := by
      rw [tdiv_eq_floor _ _ (by omega) hpos, mul_comm]
      rfl
    rw [if_pos (by simp), if_pos hcond, if_neg hne, hfa, hfb]
    generalize computedScore a (a + b) = x
    generalize computedScore b (a + b) = y
    unfold raisedScore
    split_ifs <;> first | rfl | omega
  · intro hzero
    have ha0 : a = 0 := by omega
    have hb0 : b = 0 := by omega
    subst ha0
    subst hb0
    simp
  · intro h
    simp only [Prod.mk.injEq] at h
    obtain ⟨h1, h2⟩ := h
    subst h1
    subst h2
    decide

/-- C18, witness: a Counter-Terrorist with 48 kills and a Terrorist with 16 kills
give the final scores 12 and 13. -/
theorem score_fallback_witness :
    teamKills
      [{ newPlayerStats ⟨"A", 1, Team.counterTerrorists⟩ with Kills := 48 },
       { newPlayerStats ⟨"B", 2, Team.terrorists⟩ with Kills := 16 }] = (48, 16) ∧
    ensureValidScores 0 0
      [{ newPlayerStats ⟨"A", 1, Team.counterTerrorists⟩ with Kills := 48 },
       { newPlayerStats ⟨"B", 2, Team.terrorists⟩ with Kills := 16 }] = some (12, 13) :=
  ⟨by decide,
   (score_fallback
      [{ newPlayerStats ⟨"A", 1, Team.counterTerrorists⟩ with Kills := 48 },
       { newPlayerStats ⟨"B", 2, Team.terrorists⟩ with Kills := 16 }]
      (by decide)).2.2 (by decide)⟩

/-! ## Map names -/

theorem trimPrefix_append (p r : List Char) : trimPrefix (p ++ r) p = r := by
  unfold trimPrefix
  rw [if_pos (List.isPrefixOf_iff_prefix.2 (List.prefix_append p r)), List.drop_left]

theorem trimPrefix_unchanged (x q : List Char) (h : ¬ q <+: x) : trimPrefix x q = x := by
  unfold trimPrefix
  rw [if_neg (fun hp => h (List.isPrefixOf_iff_prefix.1 hp))]

/-- One `TrimPrefix` step removes the prefix exactly when the name begins with it. -/
theorem trimPrefix_spec (x p : List Char) :
    ∃ (b : Bool) (y : List Char),
      x = (if b then p else []) ++ y ∧ trimPrefix x p = y ∧ (b = true ↔ p <+: x) := by
  by_cases h : p <+: x
  · obtain ⟨t, ht⟩ := h
    refine ⟨true, t, by simp [ht], ?_, by simp [← ht]⟩
    rw [← ht, trimPrefix_append]
  · exact ⟨false, x, by simp, trimPrefix_unchanged x p h, by simp [h]⟩

theorem capitalize_of_length (x : List Char) :
    (if x.length > 0 then capitalize x else x) = capitalize x := by
  cases x with
  | nil => rfl
  | cons c cs => simp

/-- C19 (as amended). For every map name, `cleanMapName` trims the white space
and then tries the four prefixes once each, in the order "de_", "cs_", "aim_",
"fy_", on what the earlier steps left: each is removed exactly when the name at
its turn begins with it, so up to four prefixes are removed, and the rest is
capitalised.  "de_cs_office" loses both prefixes and becomes "Office";
"cs_de_office" keeps its second prefix and becomes "De_office". -/
theorem cleanMapName_strips_in_order (s : List Char) :
    (∃ (d c a f : Bool) (rest : List Char),
      trimSpace s =
        (if d then "de_".toList else []) ++ ((if c then "cs_".toList else []) ++
          ((if a then "aim_".toList else []) ++ ((if f then "fy_".toList else []) ++ rest))) ∧
      cleanMapNameChars s = capitalize rest ∧
      (d = true ↔ "de_".toList <+: trimSpace s) ∧
      (c = true ↔ "cs_".toList <+: (if c then "cs_".toList else []) ++
          ((if a then "aim_".toList else []) ++ ((if f then "fy_".toList else []) ++ rest))) ∧
      (a = true ↔ "aim_".toList <+:
          (if a then "aim_".toList else []) ++ ((if f then "fy_".toList else []) ++ rest)) ∧
      (f = true ↔ "fy_".toList <+: (if f then "fy_".toList else []) ++ rest)) ∧
    cleanMapName "de_cs_office" = "Office" ∧
    cleanMapName "cs_de_office" = "De_office" := by
  refine ⟨?_, by decide, by decide⟩
  obtain ⟨d, x1, h1, e1, p1⟩ := trimPrefix_spec (trimSpace s) "de_".toList
  obtain ⟨c, x2, h2, e2, p2⟩ := trimPrefix_spec x1 "cs_".toList
  obtain ⟨a, x3, h3, e3, p3⟩ := trimPrefix_spec x2 "aim_".toList
  obtain ⟨f, x4, h4, e4, p4⟩ := trimPrefix_spec x3 "fy_".toList
  refine ⟨d, c, a, f, x4, ?_, ?_, p1, ?_, ?_, ?_⟩
  · rw [← h4, ← h3, ← h2, ← h1]
  · unfold cleanMapNameChars
    simp only []
    rw [e1, e2, e3, e4, capitalize_of_length]
  · rw [← h4, ← h3, ← h2]; exact p2
  · rw [← h4, ← h3]; exact p3
  · rw [← h4]; exact p4

/-- C19, counterexample: "de_cs_office" does not keep its second prefix; the
result is "Office", not "Cs_office". -/
theorem second_prefix_is_stripped :
    cleanMapName "de_cs_office" = "Office" ∧ ¬ (cleanMapName "de_cs_office" = "Cs_office") := by
  decide

theorem trimSpace_surrounded (ws1 ws2 t i : List Char) (a z : Char)
    (h1 : ∀ c, c ∈ ws1 → isSpace c = true) (h2 : ∀ c, c ∈ ws2 → isSpace c = true)
    (ha : isSpace a = false) (hz : isSpace z = false) (hx : a :: t = i ++ [z]) :
    trimSpace (ws1 ++ (a :: t) ++ ws2) = a :: t := by
  unfold trimSpace
  have hd : List.dropWhile isSpace (ws1 ++ (a :: t) ++ ws2) = (a :: t) ++ ws2 := by
    rw [List.append_assoc, List.dropWhile_append_of_pos h1, List.cons_append,
      List.dropWhile_cons, if_neg (by simp [ha])]
  rw [hd, hx, List.reverse_append, List.reverse_append, List.reverse_singleton,
    List.dropWhile_append_of_pos (fun c hc => h2 c (List.mem_reverse.1 hc)),
    List.singleton_append, List.dropWhile_cons, if_neg (by simp [hz])]
  simp

theorem prefix_head_not_space (p : List Char) (hp : p ∈ recognisedPrefixes) :
    ∃ a t, p = a :: t ∧ isSpace a = false := by
  simp only [recognisedPrefixes, List.mem_cons, List.mem_singleton, List.not_mem_nil,
    or_false] at hp
  rcases hp with h | h | h | h <;> subst h
  · exact ⟨'d', ['e', '_'], rfl, by decide⟩
  · exact ⟨'c', ['s', '_'], rfl, by decide⟩
  · exact ⟨'a', ['i', 'm', '_'], rfl, by decide⟩
  · exact ⟨'f', ['y', '_'], rfl, by decide⟩

theorem strip_of_prefixed (p r : List Char) (hp : p ∈ recognisedPrefixes)
    (hnp : ∀ q, q ∈ recognisedPrefixes → ¬ q <+: r) :
    trimPrefix (trimPrefix (trimPrefix (trimPrefix (p ++ r) "de_".toList) "cs_".toList)
      "aim_".toList) "fy_".toList = r := by
  have hde := hnp "de_".toList (by simp [recognisedPrefixes])
  have hcs := hnp "cs_".toList (by simp [recognisedPrefixes])
  have haim := hnp "aim_".toList (by simp [recognisedPrefixes])
  have hfy := hnp "fy_".toList (by simp [recognisedPrefixes])
  have hne : ∀ (q p' : List Char) (x y : Char) (qs ps : List Char),
      q = x :: qs → p' = y :: ps → x ≠ y → ¬ q <+: p' ++ r := by
    intro q p' x y qs ps hq hp' hxy hpre
    subst hq
    subst hp'
    obtain ⟨t, ht⟩ := hpre
    simp only [List.cons_append, List.cons.injEq] at ht
    exact hxy ht.1
  simp only [recognisedPrefixes, List.mem_cons, List.mem_singleton, List.not_mem_nil,
    or_false] at hp
  rcases hp with h | h | h | h <;> subst h
  · rw [trimPrefix_append, trimPrefix_unchanged _ _ hcs, trimPrefix_unchanged _ _ haim,
      trimPrefix_unchanged _ _ hfy]
  · rw [trimPrefix_unchanged _ _ (hne "de_".toList "cs_".toList 'd' 'c' ['e', '_'] ['s', '_'] rfl rfl (by decide)),
      trimPrefix_append, trimPrefix_unchanged _ _ haim, trimPrefix_unchanged _ _ hfy]
  · rw [trimPrefix_unchanged _ _ (hne "de_".toList "aim_".toList 'd' 'a' ['e', '_'] ['i', 'm', '_'] rfl rfl (by decide)),
      trimPrefix_unchanged _ _ (hne "cs_".toList "aim_".toList 'c' 'a' ['s', '_'] ['i', 'm', '_'] rfl rfl (by decide)),
      trimPrefix_append, trimPrefix_unchanged _ _ hfy]
  · rw [trimPrefix_unchanged _ _ (hne "de_".toList "fy_".toList 'd' 'f' ['e', '_'] ['y', '_'] rfl rfl (by decide)),
      trimPrefix_unchanged _ _ (hne "cs_".toList "fy_".toList 'c' 'f' ['s', '_'] ['y', '_'] rfl rfl (by decide)),
      trimPrefix_unchanged _ _ (hne "aim_".toList "fy_".toList 'a' 'f' ['i', 'm', '_'] ['y', '_'] rfl rfl (by decide)),
      trimPrefix_append]

/-- C20 (as amended). For every ASCII string `r` that is non-empty, does not
begin with one of the four recognised prefixes and does not end in a white-space
character, and every recognised prefix `p`, `cleanMapName` of `p ++ r`, with
optional white space around it, is `r` with its first character upper-cased and
the remaining characters lower-cased; "de_dust2" gives "Dust2" and "cs_office"
gives "Office". -/
theorem cleanMapName_of_prefixed (p r ws1 ws2 : List Char)
    (hp : p ∈ recognisedPrefixes) (hr : r ≠ []) (_hascii : IsAscii r)
    (hnp : ∀ q, q ∈ recognisedPrefixes → ¬ q <+: r)
    (hlast : ∀ c, r.getLast? = some c → isSpace c = false)
    (hws1 : ∀ c, c ∈ ws1 → isSpace c = true) (hws2 : ∀ c, c ∈ ws2 → isSpace c = true) :
    cleanMapNameChars (ws1 ++ (p ++ r) ++ ws2) = capitalize r ∧
    cleanMapName "de_dust2" = "Dust2" ∧ cleanMapName "cs_office" = "Office" := by
  refine ⟨?_, by decide, by decide⟩
  obtain ⟨a, t, hpa, ha⟩ := prefix_head_not_space p hp
  have hlast' : ∃ i z, r = i ++ [z] ∧ isSpace z = false := by
    have hne := List.getLast?_eq_getLast r hr
    obtain ⟨i, hi⟩ := List.getLast?_eq_some_iff.1 hne
    exact ⟨i, _, hi, hlast _ hne⟩
  obtain ⟨i, z, hi, hz⟩ := hlast'
  have hx : a :: (t ++ r) = (a :: t ++ i) ++ [z] := by
    rw [hi]; simp
  have htrim : trimSpace (ws1 ++ (p ++ r) ++ ws2) = p ++ r := by
    rw [hpa, List.cons_append]
    exact trimSpace_surrounded ws1 ws2 (t ++ r) (a :: t ++ i) a z hws1 hws2 ha hz hx
  unfold cleanMapNameChars
  simp only []
  rw [htrim, strip_of_prefixed p r hp hnp, capitalize_of_length]

/-- C20, witness: "de_" before "dust2", with a space in front and a line break
behind. -/
theorem cleanMapName_of_prefixed_witness :
    cleanMapNameChars ([' '] ++ ("de_".toList ++ "dust2".toList) ++ ['\n']) =
      capitalize "dust2".toList ∧
    capitalize "dust2".toList = "Dust2".toList :=
  ⟨(cleanMapName_of_prefixed "de_".toList "dust2".toList [' '] ['\n']
      (by decide) (by decide) (by unfold IsAscii; decide)
      (by unfold recognisedPrefixes; decide)
      (by decide) (by decide) (by decide)).1,
   by decide⟩

/-- C20, counterexample: for `r = "dust "`, which is ASCII, non-empty and begins
with no recognised prefix, `cleanMapName` of "de_" followed by `r` is "Dust",
while `r` with its first character upper-cased is "Dust " with the space. -/
theorem trailing_space_is_trimmed :
    cleanMapNameChars ("de_".toList ++ "dust ".toList) = "Dust".toList ∧
    capitalize "dust ".toList = "Dust ".toList ∧
    ¬ (cleanMapNameChars ("de_".toList ++ "dust ".toList) = capitalize "dust ".toList) := by
  decide

/-- The function returns: for every input there is a sorted list of the collected
findings, hence a returned list. -/
theorem detectSuspiciousMoments_total (history : IdMap PlayerHistory) (playerMap : IdMap Nat)
    (heap : List PlayerStats) :
    ∃ result, detectSuspiciousMoments history playerMap heap result := by
  let r : SuspiciousMoment → SuspiciousMoment → Prop := fun a b => confKey b ≤ confKey a
  have hdec : DecidableRel r := fun a b => inferInstanceAs (Decidable (confKey b ≤ confKey a))
  have htotal : IsTotal SuspiciousMoment r := ⟨fun a b => le_total (confKey b) (confKey a)⟩
  have htrans : IsTrans SuspiciousMoment r := ⟨fun a b c hab hbc => le_trans hbc hab⟩
  have hperm := @List.perm_insertionSort _ r hdec (collectMoments history playerMap heap)
  have hsorted := @List.sorted_insertionSort _ r hdec htotal htrans
    (collectMoments history playerMap heap)
  refine ⟨_, ⟨_, ⟨hperm, ?_⟩, rfl⟩⟩
  refine List.Pairwise.imp_of_mem ?_ hsorted
  intro a b ha hb hab
  obtain ⟨⟨qa, hqa, _⟩, _⟩ := collectMoments_ok history playerMap heap a (hperm.subset ha)
  obtain ⟨⟨qb, hqb, _⟩, _⟩ := collectMoments_ok history playerMap heap b (hperm.subset hb)
  have hka : confKey a = qa := by simp [confKey, hqa]
  have hkb : confKey b = qb := by simp [confKey, hqb]
  have hle : qb ≤ qa := by
    have : confKey b ≤ confKey a := hab
    rwa [hka, hkb] at this
  rw [hqa, hqb]
  simp [F64.gt, F64.lt, hle]

/-! ## Team labels -/

theorem containsChars_iff (s substr : List Char) :
    containsChars s substr = true ↔ substr <:+: s := by
  induction s with
  | nil =>
    simp only [containsChars, List.isEmpty_iff, List.infix_nil]
  | cons c cs ih =>
    simp only [containsChars, Bool.or_eq_true, List.isPrefixOf_iff_prefix, ih,
      List.infix_cons_iff]

theorem toLower_of_isSpace (c : Char) (h : isSpace c = true) : c.toLower = c := by
  simp only [isSpace, Bool.or_eq_true, decide_eq_true_eq] at h
  rcases h with ((((h | h) | h) | h) | h) | h <;> subst h <;> decide

theorem trimSpace_decomp (s : List Char) :
    ∃ ws1 ws2, (∀ c, c ∈ ws1 → isSpace c = true) ∧ (∀ c, c ∈ ws2 → isSpace c = true) ∧
      s = ws1 ++ trimSpace s ++ ws2 := by
  refine ⟨s.takeWhile isSpace,
    (((s.dropWhile isSpace).reverse).takeWhile isSpace).reverse, ?_, ?_, ?_⟩
  · intro c hc
    exact List.mem_takeWhile_imp hc
  · intro c hc
    exact List.mem_takeWhile_imp (List.mem_reverse.1 hc)
  · unfold trimSpace
    have h1 := List.takeWhile_append_dropWhile isSpace s
    have h2 := List.takeWhile_append_dropWhile isSpace (s.dropWhile isSpace).reverse
    have h3 : s.dropWhile isSpace =
        ((s.dropWhile isSpace).reverse.dropWhile isSpace).reverse ++
          ((s.dropWhile isSpace).reverse.takeWhile isSpace).reverse := by
      rw [← List.reverse_append, h2, List.reverse_reverse]
    rw [List.append_assoc, ← h3, h1]

/-- A pattern without white space that occurs in a string also occurs in the
string without a white-space character in front. -/
theorem infix_of_cons_space (pat l : List Char) (w : Char) (hw : isSpace w = true)
    (hpat : ∀ c, c ∈ pat → isSpace c = false) (hne : pat ≠ []) (h : pat <:+: w :: l) :
    pat <:+: l := by
  rcases List.infix_cons_iff.1 h with hp | hi
  · obtain ⟨t, ht⟩ := hp
    cases pat with
    | nil => exact absurd rfl hne
    | cons a as =>
      simp only [List.cons_append, List.cons.injEq] at ht
      have := hpat a (List.mem_cons_self _ _)
      rw [ht.1, hw] at this
      cases this
  · exact hi

theorem infix_of_concat_space (pat l : List Char) (w : Char) (hw : isSpace w = true)
    (hpat : ∀ c, c ∈ pat → isSpace c = false) (hne : pat ≠ []) (h : pat <:+: l ++ [w]) :
    pat <:+: l := by
  have h' : pat.reverse <:+: w :: l.reverse := by
    have := List.reverse_infix.2 h
    simpa using this
  have := infix_of_cons_space pat.reverse l.reverse w hw
    (fun c hc => hpat c (List.mem_reverse.1 hc)) (by simpa using hne) h'
  exact List.reverse_infix.1 this

theorem infix_of_spaces_left (pat l ws : List Char) (hws : ∀ c, c ∈ ws → isSpace c = true)
    (hpat : ∀ c, c ∈ pat → isSpace c = false) (hne : pat ≠ []) (h : pat <:+: ws ++ l) :
    pat <:+: l := by
  induction ws with
  | nil => simpa using h
  | cons w ws ih =>
    apply ih (fun c hc => hws c (List.mem_cons_of_mem _ hc))
    exact infix_of_cons_space pat (ws ++ l) w (hws w (List.mem_cons_self _ _)) hpat hne h

theorem infix_of_spaces_right (pat l ws : List Char) (hws : ∀ c, c ∈ ws → isSpace c = true)
    (hpat : ∀ c, c ∈ pat → isSpace c = false) (hne : pat ≠ []) (h : pat <:+: l ++ ws) :
    pat <:+: l := by
  induction ws using List.reverseRecOn with
  | nil => simpa using h
  | append_singleton ws w ih =>
    apply ih (fun c hc => hws c (List.mem_append_left _ hc))
    rw [← List.append_assoc] at h
    exact infix_of_concat_space pat (l ++ ws) w (hws w (by simp)) hpat hne h

/-- Trimming the white space does not change whether a pattern without white
space occurs in the lower-cased string. -/
theorem contains_toLower_trimSpace (s pat : List Char)
    (hpat : ∀ c, c ∈ pat → isSpace c = false) (hne : pat ≠ []) :
    containsChars (toLower (trimSpace s)) pat = containsChars (toLower s) pat := by
  obtain ⟨ws1, ws2, h1, h2, hs⟩ := trimSpace_decomp s
  have hl : toLower s = ws1 ++ toLower (trimSpace s) ++ ws2 := by
    have hm : ∀ ws : List Char, (∀ c, c ∈ ws → isSpace c = true) → toLower ws = ws := by
      intro ws hws
      unfold toLower
      conv_rhs => rw [← List.map_id ws]
      exact List.map_congr_left (fun c hc => toLower_of_isSpace c (hws c hc))
    conv_lhs => rw [hs]
    simp only [toLower, List.map_append] at hm ⊢
    rw [hm ws1 h1, hm ws2 h2]
  have hiff : pat <:+: toLower (trimSpace s) ↔ pat <:+: toLower s := by
    constructor
    · intro h
      rw [hl]
      obtain ⟨a, b, hab⟩ := h
      exact ⟨ws1 ++ a, b ++ ws2, by rw [← hab]; simp⟩
    · intro h
      rw [hl] at h
      have h' := infix_of_spaces_right pat _ ws2 h2 hpat hne h
      exact infix_of_spaces_left pat _ ws1 h1 hpat hne h'
  cases hA : containsChars (toLower (trimSpace s)) pat with
  | true =>
    exact ((containsChars_iff _ _).2 (hiff.1 ((containsChars_iff _ _).1 hA))).symm
  | false =>
    cases hB : containsChars (toLower s) pat with
    | false => rfl
    | true =>
      have := (containsChars_iff _ _).2 (hiff.2 ((containsChars_iff _ _).1 hB))
      rw [hA] at this
      cases this

theorem contains_t_of_terrorist (s : List Char)
    (h : containsChars s "terrorist".toList = true) : containsChars s "t".toList = true := by
  rw [containsChars_iff] at h ⊢
  exact List.IsInfix.trans (by decide) h

/-- The three branches of `formatTeam`, in terms of the raw team string. -/
theorem formatTeamChars_cases (team : List Char) :
    (formatTeamChars team = "Counter-Terrorists".toList ∧
      (containsChars (toLower team) "ct".toList = true ∨
        containsChars (toLower team) "counter".toList = true)) ∨
    (formatTeamChars team = "Terrorists".toList ∧
      containsChars (toLower team) "ct".toList = false ∧
      containsChars (toLower team) "counter".toList = false ∧
      containsChars (toLower team) "t".toList = true) ∨
    (formatTeamChars team = trimSpace team ∧
      containsChars (toLower team) "ct".toList = false ∧
      containsChars (toLower team) "counter".toList = false ∧
      containsChars (toLower team) "t".toList = false) := by
  have hct := contains_toLower_trimSpace team "ct".toList (by decide) (by decide)
  have hcounter := contains_toLower_trimSpace team "counter".toList (by decide) (by decide)
  have ht := contains_toLower_trimSpace team "t".toList (by decide) (by decide)
  unfold formatTeamChars
  simp only []
  rw [hct, hcounter, ht]
  cases h1 : containsChars (toLower team) "ct".toList
  · cases h2 : containsChars (toLower team) "counter".toList
    · cases h3 : containsChars (toLower team) "t".toList
      · cases h4 : containsChars (toLower (trimSpace team)) "terrorist".toList
        · right; right
          simp
        · have := contains_t_of_terrorist _ h4
          rw [ht, h3] at this
          cases this
      · right; left
        simp
    · left
      simp
  · left
    simp

/-- C21 (as amended). For every raw team string, `formatTeam` returns
"Counter-Terrorists", or "Terrorists", or, for a string whose lower-cased form
contains neither "ct" nor "counter" nor "t", the string itself with the
surrounding white space trimmed: an unrecognised team string is returned as it
is, not mapped to "Unknown". -/
theorem formatTeam_labels (team : List Char) :
    (formatTeamChars team = "Counter-Terrorists".toList ∨
      formatTeamChars team = "Terrorists".toList ∨
      (formatTeamChars team = trimSpace team ∧
        containsChars (toLower team) "ct".toList = false ∧
        containsChars (toLower team) "counter".toList = false ∧
        containsChars (toLower team) "t".toList = false)) ∧
    formatTeam "Unassigned" = "Unassigned" ∧ formatTeam " Unknown " = "Unknown" := by
  refine ⟨?_, by decide, by decide⟩
  rcases formatTeamChars_cases team with h | h | h
  · exact Or.inl h.1
  · exact Or.inr (Or.inl h.1)
  · exact Or.inr (Or.inr h)

/-- C21, counterexample: the unrecognised team string "Unassigned" is returned
unchanged, which is none of the three labels. -/
theorem unrecognised_team_is_kept :
    formatTeam "Unassigned" = "Unassigned" ∧
    ¬ (formatTeam "Unassigned" = "Counter-Terrorists" ∨ formatTeam "Unassigned" = "Terrorists" ∨
      formatTeam "Unassigned" = "Unknown") := by
  decide

/-- C22. For every team string whose lower-cased form contains "ct" or
"counter", `formatTeam` returns "Counter-Terrorists", also when the string
contains the letter "t"; it returns "Terrorists" exactly when the lower-cased
string contains "t" but neither "ct" nor "counter".  The canonical labels are
fixed points. -/
theorem formatTeam_ct_before_t (team : List Char) :
    (containsChars (toLower team) "ct".toList = true ∨
        containsChars (toLower team) "counter".toList = true →
      formatTeamChars team = "Counter-Terrorists".toList) ∧
    (formatTeamChars team = "Terrorists".toList ↔
      containsChars (toLower team) "t".toList = true ∧
      containsChars (toLower team) "ct".toList = false ∧
      containsChars (toLower team) "counter".toList = false) ∧
    formatTeam "Counter-Terrorists" = "Counter-Terrorists" ∧
    formatTeam "Terrorists" = "Terrorists" := by
  refine ⟨?_, ?_, by decide, by decide⟩
  · intro h
    rcases formatTeamChars_cases team with h1 | h1 | h1
    · exact h1.1
    · rcases h with h | h
      · rw [h1.2.1] at h; cases h
      · rw [h1.2.2.1] at h; cases h
    · rcases h with h | h
      · rw [h1.2.1] at h; cases h
      · rw [h1.2.2.1] at h; cases h
  · constructor
    · intro h
      rcases formatTeamChars_cases team with h1 | h1 | h1
      · rw [h1.1] at h
        exact absurd h (by decide)
      · exact ⟨h1.2.2.2, h1.2.1, h1.2.2.1⟩
      · -- the trimmed string would be "Terrorists", which contains "t"
        have htrim : trimSpace team = "Terrorists".toList := by rw [← h1.1]; exact h
        have ht := contains_toLower_trimSpace team "t".toList (by decide) (by decide)
        rw [htrim, h1.2.2.2] at ht
        exact absurd ht (by decide)
    · rintro ⟨ht, hct, hcounter⟩
      rcases formatTeamChars_cases team with h1 | h1 | h1
      · rcases h1.2 with h | h
        · rw [hct] at h; cases h
        · rw [hcounter] at h; cases h
      · exact h1.1
      · rw [h1.2.2.2] at ht; cases ht

/-! ## Utility lists of `cs2json_final.go` -/

namespace Final

theorem mem_modify_cases {α : Type} (f : α → α) (i : Nat) (l : List α) (q : α)
    (h : q ∈ List.modify f i l) : q ∈ l ∨ ∃ p, l[i]? = some p ∧ q = f p := by
  obtain ⟨m, hm⟩ := List.mem_iff_getElem?.1 h
  rw [List.getElem?_modify] at hm
  cases hl : l[m]? with
  | none => rw [hl] at hm; cases hm
  | some a =>
    rw [hl] at hm
    simp only [Option.map_eq_map, Option.map_some', Option.some.injEq] at hm
    by_cases him : i = m
    · subst him
      rw [if_pos rfl] at hm
      exact Or.inr ⟨a, hl, hm.symm⟩
    · rw [if_neg him] at hm
      subst hm
      exact Or.inl (List.mem_iff_getElem?.2 ⟨m, hl⟩)

theorem utilityOk_new (pl : Player) : UtilityOk (newPlayerStats pl) := by
  constructor
  · simp [newPlayerStats]
  · intro u hu
    simp [newPlayerStats] at hu

theorem register_heapOk (s : State) (pl : Player) (hs : ∀ p, p ∈ s.heap → UtilityOk p) :
    ∀ p, p ∈ (register pl s).2.heap → UtilityOk p := by
  intro p hp
  simp only [register, List.mem_append, List.mem_singleton] at hp
  rcases hp with hp | hp
  · exact hs p hp
  · subst hp
    exact utilityOk_new pl

theorem getOrCreatePlayer_heapOk (s : State) (pl : Player)
    (hs : ∀ p, p ∈ s.heap → UtilityOk p) :
    ∀ p, p ∈ (getOrCreatePlayer pl s).2.heap → UtilityOk p := by
  unfold getOrCreatePlayer
  cases mapGet s.playerMap pl.SteamID64 with
  | some ptr => exact hs
  | none => exact register_heapOk s pl hs

theorem update_heapOk_at (s : State) (ptr : Nat) (f : PlayerStats → PlayerStats)
    (hs : ∀ p, p ∈ s.heap → UtilityOk p)
    (hf : ∀ p, s.heap[ptr]? = some p → UtilityOk (f p)) :
    ∀ p, p ∈ (s.update ptr f).heap → UtilityOk p := by
  intro p hp
  rcases mem_modify_cases f ptr s.heap p hp with h | ⟨q, hq, rfl⟩
  · exact hs p h
  · exact hf q hq

theorem update_heapOk (s : State) (ptr : Nat) (f : PlayerStats → PlayerStats)
    (hs : ∀ p, p ∈ s.heap → UtilityOk p) (hf : ∀ p, (f p).Utility = p.Utility) :
    ∀ p, p ∈ (s.update ptr f).heap → UtilityOk p := by
  apply update_heapOk_at s ptr f hs
  intro p hp
  have := hs p (List.mem_iff_getElem?.2 ⟨ptr, hp⟩)
  unfold UtilityOk at this ⊢
  rw [hf p]
  exact this

theorem onKill_heapOk (s : State) (e : Kill) (hs : ∀ p, p ∈ s.heap → UtilityOk p) :
    ∀ p, p ∈ (onKill s e).heap → UtilityOk p := by
  unfold onKill
  simp only []
  have h0 : ∀ p, p ∈ ({ s with totalKills := s.totalKills + 1 } : State).heap → UtilityOk p := hs
  generalize ({ s with totalKills := s.totalKills + 1 } : State) = s0 at h0 ⊢
  have h1 : ∀ p, p ∈ (match e.Killer with
    | none => s0
    | some k =>
      let (killer, s) := getOrCreatePlayer k s0
      let s := s.update killer (fun p => { p with Kills := p.Kills + 1 })
      let s := s.update killer (fun p => { p with Team := formatTeam k.TeamString })
      let s := if e.IsHeadshot then s.update killer (fun p => { p with Headshots := p.Headshots + 1 })
        else s
      let s :=
        match e.Weapon with
        | none => s
        | some wepName => s.update killer (fun p => { p with Weapons := tallyInc p.Weapons wepName })
      match e.Assister with
      | none => s
      | some a =>
        let (assister, s) := getOrCreatePlayer a s
        s.update assister (fun p => { p with Assists := p.Assists + 1 })).heap → UtilityOk p := by
    cases e.Killer with
    | none => exact h0
    | some k =>
      simp only []
      have a1 := getOrCreatePlayer_heapOk s0 k h0
      generalize getOrCreatePlayer k s0 = r at a1 ⊢
      obtain ⟨killer, s1⟩ := r
      simp only [] at a1 ⊢
      have a2 := update_heapOk s1 killer (fun p => { p with Kills := p.Kills + 1 }) a1
        (fun _ => rfl)
      generalize s1.update killer (fun p => { p with Kills := p.Kills + 1 }) = s2 at a2 ⊢
      have a3 := update_heapOk s2 killer (fun p => { p with Team := formatTeam k.TeamString }) a2
        (fun _ => rfl)
      generalize s2.update killer (fun p => { p with Team := formatTeam k.TeamString }) = s3
        at a3 ⊢
      have a4 : ∀ p, p ∈ (if e.IsHeadshot then
          s3.update killer (fun p => { p with Headshots := p.Headshots + 1 }) else s3).heap →
          UtilityOk p := by
        split
        · exact update_heapOk s3 killer _ a3 (fun _ => rfl)
        · exact a3
      generalize (if e.IsHeadshot then
          s3.update killer (fun p => { p with Headshots := p.Headshots + 1 }) else s3) = s4
        at a4 ⊢
      have a5 : ∀ p, p ∈ (match e.Weapon with
          | none => s4
          | some wepName =>
            s4.update killer (fun p => { p with Weapons := tallyInc p.Weapons wepName })).heap →
          UtilityOk p := by
        cases e.Weapon with
        | none => exact a4
        | some w => exact update_heapOk s4 killer _ a4 (fun _ => rfl)
      generalize (match e.Weapon with
          | none => s4
          | some wepName =>
            s4.update killer (fun p => { p with Weapons := tallyInc p.Weapons wepName })) = s5
        at a5 ⊢
      cases e.Assister with
      | none => exact a5
      | some a =>
        simp only []
        have a6 := getOrCreatePlayer_heapOk s5 a a5
        generalize getOrCreatePlayer a s5 = r at a6 ⊢
        obtain ⟨assister, s6⟩ := r
        exact update_heapOk s6 assister _ a6 (fun _ => rfl)
  generalize (match e.Killer with
    | none => s0
    | some k =>
      let (killer, s) := getOrCreatePlayer k s0
      let s := s.update killer (fun p => { p with Kills := p.Kills + 1 })
      let s := s.update killer (fun p => { p with Team := formatTeam k.TeamString })
      let s := if e.IsHeadshot then s.update killer (fun p => { p with Headshots := p.Headshots + 1 })
        else s
      let s :=
        match e.Weapon with
        | none => s
        | some wepName => s.update killer (fun p => { p with Weapons := tallyInc p.Weapons wepName })
      match e.Assister with
      | none => s
      | some a =>
        let (assister, s) := getOrCreatePlayer a s
        s.update assister (fun p => { p with Assists := p.Assists + 1 })) = s7 at h1 ⊢
  cases e.Victim with
  | none => exact h1
  | some v =>
    simp only []
    have b1 := getOrCreatePlayer_heapOk s7 v h1
    generalize getOrCreatePlayer v s7 = r at b1 ⊢
    obtain ⟨victim, s8⟩ := r
    simp only [] at b1 ⊢
    exact update_heapOk _ victim _ (update_heapOk s8 victim _ b1 (fun _ => rfl)) (fun _ => rfl)

theorem onPlayerHurt_heapOk (s : State) (e : PlayerHurt) (hs : ∀ p, p ∈ s.heap → UtilityOk p) :
    ∀ p, p ∈ (onPlayerHurt s e).heap → UtilityOk p := by
  unfold onPlayerHurt
  cases e.Player with
  | none => exact hs
  | some pl =>
    simp only []
    have a1 := getOrCreatePlayer_heapOk s pl hs
    generalize getOrCreatePlayer pl s = r at a1 ⊢
    obtain ⟨player, s1⟩ := r
    simp only [] at a1 ⊢
    have a2 := update_heapOk s1 player
      (fun p => { p with DamageTaken := p.DamageTaken + (e.HealthDamage + e.ArmorDamage) }) a1
      (fun _ => rfl)
    generalize s1.update player
      (fun p => { p with DamageTaken := p.DamageTaken + (e.HealthDamage + e.ArmorDamage) }) = s2
      at a2 ⊢
    cases e.Attacker with
    | none => exact a2
    | some a =>
      simp only []
      split
      · have a3 := getOrCreatePlayer_heapOk s2 a a2
        generalize getOrCreatePlayer a s2 = r at a3 ⊢
        obtain ⟨attacker, s3⟩ := r
        exact update_heapOk s3 attacker _ a3 (fun _ => rfl)
      · exact a2

theorem mem_grenadeNames (g : EquipmentType) (name : String) (h : grenadeTypes g = some name) :
    name ∈ grenadeNames := by
  cases g <;> simp [grenadeTypes] at h <;> subst h <;> decide

theorem found_iff (utility : List String) (grenadeType : String) :
    found utility grenadeType = true ↔ grenadeType ∈ utility := by
  unfold found
  rw [List.any_eq_true]
  constructor
  · rintro ⟨u, hu, h⟩
    have : u = grenadeType := by simpa using h
    exact this ▸ hu
  · intro h
    exact ⟨grenadeType, h, by simp⟩

theorem onGrenadeThrown_heapOk (s : State) (e : GrenadeThrown)
    (hs : ∀ p, p ∈ s.heap → UtilityOk p) :
    ∀ p, p ∈ (onGrenadeThrown s e).heap → UtilityOk p := by
  unfold onGrenadeThrown
  cases e.Thrower with
  | none => exact hs
  | some thrower =>
    simp only []
    have a1 := getOrCreatePlayer_heapOk s thrower hs
    generalize getOrCreatePlayer thrower s = r at a1 ⊢
    obtain ⟨player, s1⟩ := r
    simp only [] at a1 ⊢
    cases hg : grenadeTypes e.Grenade with
    | none => exact a1
    | some grenadeType =>
      simp only []
      split
      · rename_i hfound
        apply update_heapOk_at s1 player _ a1
        intro p hp
        rw [hp] at hfound
        simp only [] at hfound
        have hnot : grenadeType ∉ p.Utility := by
          intro hmem
          rw [(found_iff p.Utility grenadeType).2 hmem] at hfound
          cases hfound
        have hp' := a1 p (List.mem_iff_getElem?.2 ⟨player, hp⟩)
        constructor
        · show (p.Utility ++ [grenadeType]).Nodup
          rw [List.nodup_append]
          refine ⟨hp'.1, List.nodup_singleton _, ?_⟩
          intro a ha hb
          rw [List.mem_singleton] at hb
          exact hnot (hb ▸ ha)
        · intro u hu
          have hu' : u ∈ p.Utility ++ [grenadeType] := hu
          rw [List.mem_append, List.mem_singleton] at hu'
          rcases hu' with h | h
          · exact hp'.2 u h
          · rw [h]
            exact mem_grenadeNames e.Grenade grenadeType hg
      · exact a1

theorem onBombPlanted_heapOk (s : State) (player : Option Player)
    (hs : ∀ p, p ∈ s.heap → UtilityOk p) :
    ∀ p, p ∈ (onBombPlanted s player).heap → UtilityOk p := by
  unfold onBombPlanted
  cases player with
  | none => exact hs
  | some pl =>
    simp only []
    have a1 := getOrCreatePlayer_heapOk s pl hs
    generalize getOrCreatePlayer pl s = r at a1 ⊢
    obtain ⟨player, s1⟩ := r
    exact update_heapOk s1 player _ a1 (fun _ => rfl)

theorem onBombDefused_heapOk (s : State) (player : Option Player)
    (hs : ∀ p, p ∈ s.heap → UtilityOk p) :
    ∀ p, p ∈ (onBombDefused s player).heap → UtilityOk p := by
  unfold onBombDefused
  cases player with
  | none => exact hs
  | some pl =>
    simp only []
    have a1 := getOrCreatePlayer_heapOk s pl hs
    generalize getOrCreatePlayer pl s = r at a1 ⊢
    obtain ⟨player, s1⟩ := r
    exact update_heapOk s1 player _ a1 (fun _ => rfl)

theorem handle_heapOk (s s' : State) (e : GameEvent) (h : handle s e = some s')
    (hs : ∀ p, p ∈ s.heap → UtilityOk p) : ∀ p, p ∈ s'.heap → UtilityOk p := by
  cases e with
  | gamePhaseChanged newPhase =>
    simp only [handle, Option.some.injEq] at h
    subst h
    exact hs
  | roundStart =>
    simp only [handle, Option.some.injEq] at h
    subst h
    exact hs
  | playerConnect player =>
    simp only [handle, onPlayerConnect] at h
    cases player with
    | none => cases h
    | some pl =>
      simp only [] at h
      cases hm : mapGet s.playerMap pl.SteamID64 with
      | some ptr =>
        rw [hm] at h
        simp only [Option.some.injEq] at h
        subst h
        exact hs
      | none =>
        rw [hm] at h
        simp only [Option.some.injEq] at h
        subst h
        exact register_heapOk s pl hs
  | kill e =>
    simp only [handle, Option.some.injEq] at h
    subst h
    exact onKill_heapOk s e hs
  | playerHurt e =>
    simp only [handle, Option.some.injEq] at h
    subst h
    exact onPlayerHurt_heapOk s e hs
  | grenadeThrown e =>
    simp only [handle, Option.some.injEq] at h
    subst h
    exact onGrenadeThrown_heapOk s e hs
  | bombPlanted player =>
    simp only [handle, Option.some.injEq] at h
    subst h
    exact onBombPlanted_heapOk s player hs
  | bombDefused player =>
    simp only [handle, Option.some.injEq] at h
    subst h
    exact onBombDefused_heapOk s player hs
  | other =>
    simp only [handle, Option.some.injEq] at h
    subst h
    exact hs

theorem runFrom_heapOk (events : List GameEvent) (s s' : State) (h : runFrom s events = some s')
    (hs : ∀ p, p ∈ s.heap → UtilityOk p) : ∀ p, p ∈ s'.heap → UtilityOk p := by
  induction events generalizing s with
  | nil =>
    simp only [runFrom, Option.some.injEq] at h
    subst h
    exact hs
  | cons e events ih =>
    simp only [runFrom] at h
    cases he : handle s e with
    | none => rw [he] at h; cases h
    | some s1 =>
      rw [he] at h
      exact ih s1 h (handle_heapOk s s1 e he hs)

theorem lookup_mem_heap (s : State) (id : Nat) (p : PlayerStats) (h : s.lookup id = some p) :
    p ∈ s.heap := by
  unfold State.lookup at h
  cases hm : mapGet s.playerMap id with
  | none => rw [hm] at h; cases h
  | some ptr =>
    rw [hm] at h
    exact List.mem_iff_getElem?.2 ⟨ptr, h⟩

theorem records_mem_heap (s : State) (p : PlayerStats) (h : p ∈ s.records) : p ∈ s.heap := by
  unfold State.records at h
  rw [List.mem_filterMap] at h
  obtain ⟨ptr, _, hp⟩ := h
  exact List.mem_iff_getElem?.2 ⟨ptr, hp⟩

theorem onGrenadeThrown_of_used (s : State) (thrower : Player) (g : EquipmentType)
    (name : String) (p : PlayerStats) (hg : grenadeTypes g = some name)
    (hp : s.lookup thrower.SteamID64 = some p) (hused : name ∈ p.Utility) :
    onGrenadeThrown s ⟨some thrower, g⟩ = s := by
  unfold State.lookup at hp
  cases hm : mapGet s.playerMap thrower.SteamID64 with
  | none => rw [hm] at hp; cases hp
  | some ptr =>
    rw [hm] at hp
    simp only [] at hp
    simp only [onGrenadeThrown, getOrCreatePlayer, hm, hg, hp,
      (found_iff p.Utility name).2 hused]
    rfl

theorem utility_register (s : State) (thrower : Player) :
    (register thrower s).2.utility thrower.SteamID64 = [] := by
  simp only [State.utility, State.lookup, register, mapGet_mapSet, if_true]
  simp [newPlayerStats]

theorem onGrenadeThrown_of_unrecognised (s : State) (thrower : Player) (g : EquipmentType)
    (hg : grenadeTypes g = none) :
    (onGrenadeThrown s ⟨some thrower, g⟩).utility thrower.SteamID64 =
      s.utility thrower.SteamID64 := by
  simp only [onGrenadeThrown, getOrCreatePlayer, hg]
  cases hm : mapGet s.playerMap thrower.SteamID64 with
  | some ptr => rfl
  | none =>
    simp only []
    rw [utility_register s thrower]
    simp [State.utility, State.lookup, hm]

/-- C23. After any event stream that `cs2json_final.go` processes to the end,
the utility list of every record (found through the id map or through the
players slice) has no duplicate entry and holds only names from Decoy, Flash,
HE Grenade, Incendiary, Molotov and Smoke; a grenade-thrown event for a
category the thrower has already used leaves the state, and so the list,
unchanged; a grenade of an unrecognised type leaves the list of the thrower
unchanged. -/
theorem utility_is_a_set (events : List GameEvent) (s : State) (h : reduce events = some s) :
    (∀ id p, s.lookup id = some p →
      p.Utility.Nodup ∧ ∀ u, u ∈ p.Utility → u ∈ grenadeNames) ∧
    (∀ p, p ∈ s.records → p.Utility.Nodup ∧ ∀ u, u ∈ p.Utility → u ∈ grenadeNames) ∧
    (∀ (thrower : Player) (g : EquipmentType) (name : String) (p : PlayerStats),
      grenadeTypes g = some name → s.lookup thrower.SteamID64 = some p → name ∈ p.Utility →
      onGrenadeThrown s ⟨some thrower, g⟩ = s) ∧
    (∀ (thrower : Player) (g : EquipmentType), grenadeTypes g = none →
      (onGrenadeThrown s ⟨some thrower, g⟩).utility thrower.SteamID64 =
        s.utility thrower.SteamID64) := by
  have hheap : ∀ p, p ∈ s.heap → UtilityOk p :=
    runFrom_heapOk events State.init s h (by intro p hp; cases hp)
  refine ⟨?_, ?_, ?_, ?_⟩
  · intro id p hp
    exact hheap p (lookup_mem_heap s id p hp)
  · intro p hp
    exact hheap p (records_mem_heap s p hp)
  · intro thrower g name p hg hp hused
    exact onGrenadeThrown_of_used s thrower g name p hg hp hused
  · intro thrower g hg
    exact onGrenadeThrown_of_unrecognised s thrower g hg

/-- Witness of C23: a player who throws a flash grenade twice, a piece of
equipment that is no grenade, and a smoke grenade. -/
theorem utility_is_a_set_witness :
    reduce exampleThrows = some exampleThrown ∧
    exampleThrown.utility 7 = ["Flash", "Smoke"] ∧
    ((∀ id p, exampleThrown.lookup id = some p →
      p.Utility.Nodup ∧ ∀ u, u ∈ p.Utility → u ∈ grenadeNames) ∧
    (∀ p, p ∈ exampleThrown.records →
      p.Utility.Nodup ∧ ∀ u, u ∈ p.Utility → u ∈ grenadeNames) ∧
    (∀ (thrower : Player) (g : EquipmentType) (name : String) (p : PlayerStats),
      grenadeTypes g = some name → exampleThrown.lookup thrower.SteamID64 = some p →
      name ∈ p.Utility → onGrenadeThrown exampleThrown ⟨some thrower, g⟩ = exampleThrown) ∧
    (∀ (thrower : Player) (g : EquipmentType), grenadeTypes g = none →
      (onGrenadeThrown exampleThrown ⟨some thrower, g⟩).utility thrower.SteamID64 =
        exampleThrown.utility thrower.SteamID64)) :=
  ⟨by decide, by decide, utility_is_a_set exampleThrows exampleThrown (by decide)⟩

end Final

/-! ## The players of the summary -/

theorem exampleTie_records : (reduce exampleTie).records = [exampleTieA, exampleTieB] := by
  decide

theorem foldl_update_heap (f : PlayerStats → PlayerStats) (ptrs : List Nat) (s : State) :
    ptrs.foldl (fun s ptr => s.update (some ptr) f) s =
      { s with heap := ptrs.foldl (fun h ptr => List.modify f ptr h) s.heap } := by
  induction ptrs generalizing s with
  | nil => rfl
  | cons ptr ptrs ih =>
    rw [List.foldl_cons, ih]
    rfl

theorem foldl_modify_getElem? {α : Type} (f : α → α) (ptrs : List Nat) (hnd : ptrs.Nodup)
    (l : List α) (i : Nat) :
    (ptrs.foldl (fun h ptr => List.modify f ptr h) l)[i]? =
      if i ∈ ptrs then (l[i]?).map f else l[i]? := by
  induction ptrs generalizing l with
  | nil => simp
  | cons ptr ptrs ih =>
    rw [List.nodup_cons] at hnd
    rw [List.foldl_cons, ih hnd.2, List.getElem?_modify]
    by_cases hi : i ∈ ptrs
    · have hne : ptr ≠ i := fun h => hnd.1 (h ▸ hi)
      simp [hi, hne]
    · by_cases hpi : ptr = i
      · subst hpi
        simp [hi]
      · have hne : ¬ i = ptr := fun h => hpi h.symm
        simp [hi, hpi, hne]

theorem calculate_eq (s : State) (hs : s.WF) :
    calculate s = { s with heap := s.heap.map calcStats } := by
  unfold calculate
  rw [foldl_update_heap]
  congr 1
  apply List.ext_getElem?
  intro i
  rw [foldl_modify_getElem? calcStats s.players (hs.players_range ▸ List.nodup_range _),
    List.getElem?_map, hs.players_range]
  by_cases hi : i < s.heap.length
  · rw [if_pos (List.mem_range.2 hi)]
  · rw [if_neg (fun h => hi (List.mem_range.1 h))]
    rw [List.getElem?_eq_none (by omega)]
    rfl

theorem calcStats_SteamID (p : PlayerStats) : (calcStats p).SteamID = p.SteamID := by
  rw [calcStats_eq]

theorem calcStats_Kills (p : PlayerStats) : (calcStats p).Kills = p.Kills := by
  rw [calcStats_eq]

theorem calculate_WF (s : State) (hs : s.WF) : (calculate s).WF := by
  rw [calculate_eq s hs]
  constructor
  · show s.players = List.range (s.heap.map calcStats).length
    rw [List.length_map]
    exact hs.players_range
  · intro k p
    show mapGet s.playerMap k = some p ↔ ∃ r, (s.heap.map calcStats)[p]? = some r ∧ r.SteamID = k
    rw [hs.map_iff k p, List.getElem?_map]
    constructor
    · rintro ⟨r, hr, hk⟩
      exact ⟨calcStats r, by rw [hr]; rfl, by rw [calcStats_SteamID]; exact hk⟩
    · rintro ⟨r, hr, hk⟩
      cases h : s.heap[p]? with
      | none => rw [h] at hr; cases hr
      | some r0 =>
        rw [h] at hr
        simp only [Option.map_some', Option.some.injEq] at hr
        subst hr
        exact ⟨r0, rfl, by rw [← calcStats_SteamID]; exact hk⟩

theorem calculate_lookup (s : State) (hs : s.WF) (id : Nat) :
    (calculate s).lookup id = (s.lookup id).map calcStats := by
  rw [calculate_eq s hs]
  unfold State.lookup
  cases mapGet s.playerMap id with
  | none => rfl
  | some ptr => exact List.getElem?_map _ _ _

theorem calculate_records (s : State) (hs : s.WF) :
    (calculate s).records = s.records.map calcStats := by
  rw [(calculate_WF s hs).records_eq, hs.records_eq, calculate_eq s hs]

theorem pairwise_of_sortedByKills (heap : List PlayerStats) (sorted : List Nat)
    (h : sorted.Pairwise (fun a b => ¬ (killsAt heap b > killsAt heap a))) :
    (sorted.filterMap (fun ptr => heap[ptr]?)).Pairwise (fun a b => b.Kills ≤ a.Kills) := by
  rw [List.pairwise_filterMap]
  refine List.Pairwise.imp ?_ h
  intro a b hab p hp q hq
  have ha : killsAt heap a = p.Kills := by
    unfold killsAt
    rw [Option.mem_def.1 hp]
  have hb : killsAt heap b = q.Kills := by
    unfold killsAt
    rw [Option.mem_def.1 hq]
  rw [ha, hb] at hab
  exact not_lt.1 hab

/-- The sort returns: every slice has an arrangement that meets the contract. -/
theorem summaryPlayers_total (s : State) : ∃ result, summaryPlayers s result := by
  let r : Nat → Nat → Prop := fun a b => killsAt s.heap b ≤ killsAt s.heap a
  have hdec : DecidableRel r :=
    fun a b => inferInstanceAs (Decidable (killsAt s.heap b ≤ killsAt s.heap a))
  have htotal : IsTotal Nat r := ⟨fun a b => le_total (killsAt s.heap b) (killsAt s.heap a)⟩
  have htrans : IsTrans Nat r := ⟨fun a b c hab hbc => le_trans hbc hab⟩
  have hperm := @List.perm_insertionSort _ r hdec s.players
  have hsorted := @List.sorted_insertionSort _ r hdec htotal htrans s.players
  refine ⟨_, _, ⟨hperm, ?_⟩, rfl⟩
  refine List.Pairwise.imp ?_ hsorted
  intro a b hab
  exact not_lt.2 hab

/-- C24. For every event stream, the summary has a players sequence, and every
players sequence it can have is a permutation of the records of the registry:
every registered player is in it, no player id occurs twice, and its length is
the number of records; its kill counts are non-increasing from first to last. -/
theorem summary_players_sorted (events : List Event) :
    (∃ result, summaryPlayers (calculate (reduce events)) result) ∧
    ∀ result, summaryPlayers (calculate (reduce events)) result →
      result.Perm (calculate (reduce events)).records ∧
      (∀ id p, (calculate (reduce events)).lookup id = some p → p ∈ result) ∧
      (result.map PlayerStats.SteamID).Nodup ∧
      result.Pairwise (fun a b => b.Kills ≤ a.Kills) := by
  refine ⟨summaryPlayers_total _, ?_⟩
  rintro result ⟨sorted, ⟨hperm, hpw⟩, rfl⟩
  have hwf : (calculate (reduce events)).WF := calculate_WF _ (reduce_WF events)
  have hp : (sorted.filterMap (fun ptr => (calculate (reduce events)).heap[ptr]?)).Perm
      (calculate (reduce events)).records := hperm.filterMap _
  refine ⟨hp, ?_, ?_, pairwise_of_sortedByKills _ sorted hpw⟩
  · intro id p hlook
    apply hp.symm.subset
    rw [hwf.records_eq]
    unfold State.lookup at hlook
    cases hm : mapGet (calculate (reduce events)).playerMap id with
    | none => rw [hm] at hlook; cases hlook
    | some ptr =>
      rw [hm] at hlook
      exact List.mem_iff_getElem?.2 ⟨ptr, hlook⟩
  · have := (hp.map PlayerStats.SteamID).nodup_iff.2 (by rw [hwf.records_eq]; exact hwf.ids_nodup)
    exact this

theorem perm_map_lift {α β : Type} (g : α → β) {l₁ l₂ : List β} (h : l₁.Perm l₂) :
    ∀ l : List α, l.map g = l₂ → ∃ l' : List α, l'.Perm l ∧ l'.map g = l₁ := by
  induction h with
  | nil =>
    intro l hl
    exact ⟨l, List.Perm.refl _, hl⟩
  | cons x _ ih =>
    intro l hl
    cases l with
    | nil => cases hl
    | cons a l0 =>
      simp only [List.map_cons, List.cons.injEq] at hl
      obtain ⟨l', hp, hm⟩ := ih l0 hl.2
      exact ⟨a :: l', hp.cons a, by simp [hm, hl.1]⟩
  | swap x y t =>
    intro l hl
    cases l with
    | nil => cases hl
    | cons a l0 =>
      cases l0 with
      | nil => simp at hl
      | cons b l1 =>
        simp only [List.map_cons, List.cons.injEq] at hl
        exact ⟨b :: a :: l1, List.Perm.swap a b l1, by simp [hl.1, hl.2.1, hl.2.2]⟩
  | trans _ _ ih1 ih2 =>
    intro l hl
    obtain ⟨l'', hp2, hm2⟩ := ih2 l hl
    obtain ⟨l', hp1, hm1⟩ := ih1 l'' hm2
    exact ⟨l', hp1.trans hp2, hm1⟩

theorem filterMap_of_map_eq {α β : Type} (g : α → Option β) (l : List α) (r : List β)
    (h : l.map g = r.map some) : l.filterMap g = r := by
  induction l generalizing r with
  | nil =>
    cases r with
    | nil => rfl
    | cons b r => cases h
  | cons a l ih =>
    cases r with
    | nil => cases h
    | cons b r =>
      simp only [List.map_cons, List.cons.injEq] at h
      rw [List.filterMap_cons, h.1, ih r h.2]

theorem map_getElem?_range {α : Type} (l : List α) :
    (List.range l.length).map (fun i => l[i]?) = l.map some := by
  apply List.ext_getElem?
  intro i
  rw [List.getElem?_map, List.getElem?_map]
  by_cases hi : i < l.length
  · simp [List.getElem?_range, hi]
  · simp [List.getElem?_eq_none (not_lt.1 hi), not_lt.1 hi]

/-! ## Display names -/

theorem nameFrom_append (ps qs : List Player) (id : Nat) :
    nameFrom (ps ++ qs) id = (nameFrom ps id <|> nameFrom qs id) := by
  unfold nameFrom
  rw [List.find?_append]
  cases List.find? (fun p => decide (p.SteamID64 = id)) ps <;> rfl

theorem name_create (v : View) (p : Player) (id : Nat) :
    ((v.create p) id).map PlayerStats.Name =
      ((v id).map PlayerStats.Name <|> nameFrom [p] id) := by
  unfold View.create nameFrom
  by_cases h : id = p.SteamID64
  · subst h
    cases hv : v p.SteamID64 <;> simp [hv, newPlayerStats]
  · have h' : ¬ p.SteamID64 = id := fun e => h e.symm
    cases hv : v id <;> simp [h, h', hv]

theorem name_update (v : View) (k : Nat) (f : PlayerStats → PlayerStats)
    (hf : ∀ p, (f p).Name = p.Name) (id : Nat) :
    ((v.update k f) id).map PlayerStats.Name = (v id).map PlayerStats.Name := by
  unfold View.update
  by_cases h : id = k
  · rw [if_pos h]
    cases v id with
    | none => rfl
    | some p => simp [hf p]
  · rw [if_neg h]

theorem name_touch (v : View) (p : Player) (f : PlayerStats → PlayerStats)
    (hf : ∀ p, (f p).Name = p.Name) (id : Nat) :
    (((v.create p).update p.SteamID64 f) id).map PlayerStats.Name =
      ((v id).map PlayerStats.Name <|> nameFrom [p] id) := by
  rw [name_update _ _ f hf, name_create]

theorem killerWrites_Name (e : Kill) (k : Player) (p : PlayerStats) :
    (killerWrites e k p).Name = p.Name := by
  rw [killerWrites_def]
  cases e.Weapon <;> cases e.IsHeadshot <;> rfl

theorem orElse_assoc {α : Type} (a b c : Option α) : ((a <|> b) <|> c) = (a <|> (b <|> c)) := by
  cases a <;> rfl

theorem orElse_none_right {α : Type} (a : Option α) : (a <|> none) = a := by
  cases a <;> rfl

theorem name_step (v : View) (e : Event) (id : Nat) :
    ((v.step e) id).map PlayerStats.Name =
      ((v id).map PlayerStats.Name <|> nameFrom e.registered id) := by
  cases e with
  | roundStart => exact (orElse_none_right _).symm
  | other => exact (orElse_none_right _).symm
  | kill e =>
    simp only [View.step, View.onKill, Event.registered]
    rw [nameFrom_append]
    have hkiller : ((match e.Killer with
        | none => v
        | some k =>
          match e.Assister with
          | some a => (((v.create k).update k.SteamID64 (killerWrites e k)).create a).update
              a.SteamID64 (fun p => { p with Assists := p.Assists + 1 })
          | none => (v.create k).update k.SteamID64 (killerWrites e k)) id).map PlayerStats.Name =
        ((v id).map PlayerStats.Name <|> nameFrom (match e.Killer with
          | none => []
          | some k =>
            k :: (match e.Assister with
              | some a => [a]
              | none => [])) id) := by
      cases e.Killer with
      | none => exact (orElse_none_right _).symm
      | some k =>
        cases e.Assister with
        | none => exact name_touch v k _ (killerWrites_Name e k) id
        | some a =>
          simp only []
          rw [name_touch _ a (fun p => { p with Assists := p.Assists + 1 }) (fun _ => rfl),
            name_touch v k _ (killerWrites_Name e k), orElse_assoc, ← nameFrom_append]
          rfl
    cases e.Victim with
    | none =>
      simp only []
      rw [hkiller]
      show _ = (_ <|> (_ <|> none))
      rw [orElse_none_right]
    | some vi =>
      simp only []
      rw [name_touch _ vi (victimWrites vi) (fun _ => rfl), hkiller, orElse_assoc]
  | playerHurt e =>
    simp only [View.step, View.onPlayerHurt, Event.registered]
    cases e.Player with
    | none => exact (orElse_none_right _).symm
    | some pl =>
      simp only []
      cases e.Attacker with
      | none =>
        exact name_touch v pl
          (fun p => { p with DamageTaken := p.DamageTaken + (e.HealthDamage + e.ArmorDamage) })
          (fun _ => rfl) id
      | some att =>
        simp only []
        by_cases h : att.SteamID64 = pl.SteamID64
        · simp only [h, ne_eq, not_true_eq_false, if_false]
          exact name_touch v pl
            (fun p => { p with DamageTaken := p.DamageTaken + (e.HealthDamage + e.ArmorDamage) })
            (fun _ => rfl) id
        · simp only [h, ne_eq, not_false_eq_true, if_true]
          rw [name_touch _ att
              (fun p => { p with Damage := p.Damage + (e.HealthDamage + e.ArmorDamage) })
              (fun _ => rfl),
            name_touch v pl
              (fun p => { p with DamageTaken := p.DamageTaken + (e.HealthDamage + e.ArmorDamage) })
              (fun _ => rfl),
            orElse_assoc, ← nameFrom_append]
          rfl

theorem name_run (s : State) (hs : s.WF) (events : List Event) (id : Nat) :
    ((run s events).lookup id).map PlayerStats.Name =
      ((s.lookup id).map PlayerStats.Name <|> nameFrom (events.flatMap Event.registered) id) := by
  induction events generalizing s with
  | nil => exact (orElse_none_right _).symm
  | cons e events ih =>
    obtain ⟨hw, hl⟩ := step_sim s hs e
    have : run s (e :: events) = run (step s e) events := rfl
    rw [this, ih (step s e) hw, hl, name_step, orElse_assoc, List.flatMap_cons, nameFrom_append]

/-- C26 (as amended). For every event stream and every player id, the display
name stored in the record after the reduction is the name carried by the first
call of `getOrCreatePlayer` for that id, the one that creates the record
(first-write-wins); a player without such a call has no record.  Events added
to the stream never change the stored name, whatever name they carry. -/
theorem name_is_first_write (events : List Event) (id : Nat) :
    ((reduce events).lookup id).map PlayerStats.Name = firstName events id ∧
    ∀ (more : List Event) (name : String),
      ((reduce events).lookup id).map PlayerStats.Name = some name →
      ((reduce (events ++ more)).lookup id).map PlayerStats.Name = some name := by
  have hfirst : ∀ evs, ((reduce evs).lookup id).map PlayerStats.Name = firstName evs id := by
    intro evs
    unfold reduce firstName
    rw [name_run State.init init_WF evs id]
    rfl
  refine ⟨hfirst events, ?_⟩
  intro more name h
  rw [hfirst] at h ⊢
  unfold firstName at h ⊢
  rw [List.flatMap_append, nameFrom_append, h]
  rfl

/-- C26, counterexample: player 1 makes a kill under the name "Old" and then a
kill under the name "New"; the last event that refers to the player carries
"New", and the stored name is "Old". -/
theorem later_name_is_not_stored :
    lastName exampleRename 1 = some "New" ∧
    ((reduce exampleRename).lookup 1).map PlayerStats.Name = some "Old" ∧
    ¬ (((reduce exampleRename).lookup 1).map PlayerStats.Name = lastName exampleRename 1) := by
  decide

/-! ## Histories and counters -/

theorem onKill_playerHistory (s : State) (e : Kill) :
    (onKill s e).playerHistory =
      match e.Killer with
      | some k =>
        mapModify (getOrCreateHistory k.SteamID64 s.playerHistory) k.SteamID64
          (fun h => { h with Kills := h.Kills ++ [killEntry e] })
      | none => s.playerHistory := by
  rw [onKill_eq]
  cases e.Killer <;> cases e.Assister <;> cases e.Victim <;> simp

theorem optStat_getD (o : Option PlayerStats) (p : Player) (g : PlayerStats → Int)
    (hg : g (newPlayerStats p) = 0) : g (o.getD (newPlayerStats p)) = optStat o g := by
  cases o with
  | none => exact hg
  | some r => rfl

theorem view_touch_apply (v : View) (p : Player) (f : PlayerStats → PlayerStats) (id : Nat) :
    ((v.create p).update p.SteamID64 f) id =
      if id = p.SteamID64 then some (f ((v id).getD (newPlayerStats p))) else v id := by
  unfold View.update View.create
  by_cases h : id = p.SteamID64
  · simp [h]
  · simp [h]

theorem agrees_touch_keep (v : View) (p : Player) (f : PlayerStats → PlayerStats)
    (hf : ∀ r, (f r).Kills = r.Kills ∧ (f r).Headshots = r.Headshots ∧ (f r).Damage = r.Damage)
    (id : Nat) (h : Option PlayerHistory) (ha : Agrees (v id) h) :
    Agrees (((v.create p).update p.SteamID64 f) id) h := by
  rw [view_touch_apply]
  by_cases hid : id = p.SteamID64
  · rw [if_pos hid]
    obtain ⟨a1, a2, a3⟩ := ha
    refine ⟨?_, ?_, ?_⟩
    · show (f _).Kills = _
      rw [(hf _).1, optStat_getD _ p PlayerStats.Kills rfl]
      exact a1
    · show (f _).Headshots = _
      rw [(hf _).2.1, optStat_getD _ p PlayerStats.Headshots rfl]
      exact a2
    · show (f _).Damage = _
      rw [(hf _).2.2, optStat_getD _ p PlayerStats.Damage rfl]
      exact a3
  · rw [if_neg hid]
    exact ha

theorem histKills_getOrCreate (hist : IdMap PlayerHistory) (k id : Nat) :
    histKills (mapGet (getOrCreateHistory k hist) id) = histKills (mapGet hist id) ∧
    histDamages (mapGet (getOrCreateHistory k hist) id) = histDamages (mapGet hist id) := by
  rw [mapGet_getOrCreateHistory]
  by_cases h : k = id
  · rw [if_pos h]
    cases mapGet hist id <;> exact ⟨rfl, rfl⟩
  · rw [if_neg h]
    exact ⟨rfl, rfl⟩

theorem headshotCount_concat (l : List KillEvent) (x : KillEvent) :
    (headshotCount (l ++ [x]) : Int) = headshotCount l + (if x.Headshot then 1 else 0) := by
  unfold headshotCount
  rw [List.filter_append, List.length_append]
  cases hx : x.Headshot <;> simp [hx]

theorem killerWrites_counters (e : Kill) (k : Player) (r : PlayerStats) :
    (killerWrites e k r).Kills = r.Kills + 1 ∧
    (killerWrites e k r).Headshots = r.Headshots + (if e.IsHeadshot then 1 else 0) ∧
    (killerWrites e k r).Damage = r.Damage := by
  rw [killerWrites_def]
  cases e.Weapon <;> cases e.IsHeadshot <;> simp

theorem agrees_kill (v : View) (hist : IdMap PlayerHistory) (e : Kill) (k : Player) (id : Nat)
    (ha : Agrees (v id) (mapGet hist id)) :
    Agrees (((v.create k).update k.SteamID64 (killerWrites e k)) id)
      (mapGet (mapModify (getOrCreateHistory k.SteamID64 hist) k.SteamID64
        (fun h => { h with Kills := h.Kills ++ [killEntry e] })) id) := by
  rw [view_touch_apply, mapGet_mapModify]
  obtain ⟨a1, a2, a3⟩ := ha
  obtain ⟨g1, g2⟩ := histKills_getOrCreate hist k.SteamID64 id
  by_cases hid : id = k.SteamID64
  · rw [if_pos hid, if_pos hid.symm]
    obtain ⟨w1, w2, w3⟩ := killerWrites_counters e k ((v id).getD (newPlayerStats k))
    have hentry : (killEntry e).Headshot = e.IsHeadshot := rfl
    have hk : histKills (Option.map (fun (h : PlayerHistory) =>
        { h with Kills := h.Kills ++ [killEntry e] })
        (mapGet (getOrCreateHistory k.SteamID64 hist) id)) =
        histKills (mapGet hist id) ++ [killEntry e] := by
      rw [← g1]
      rw [mapGet_getOrCreateHistory, if_pos hid.symm]
      rfl
    have hd : histDamages (Option.map (fun (h : PlayerHistory) =>
        { h with Kills := h.Kills ++ [killEntry e] })
        (mapGet (getOrCreateHistory k.SteamID64 hist) id)) =
        histDamages (mapGet hist id) := by
      rw [← g2]
      rw [mapGet_getOrCreateHistory, if_pos hid.symm]
      rfl
    refine ⟨?_, ?_, ?_⟩
    · show (killerWrites e k _).Kills = _
      rw [w1, optStat_getD _ k PlayerStats.Kills rfl, a1, hk, List.length_append]
      simp
    · show (killerWrites e k _).Headshots = _
      rw [w2, optStat_getD _ k PlayerStats.Headshots rfl, a2, hk, headshotCount_concat, hentry]
    · show (killerWrites e k _).Damage = _
      rw [w3, optStat_getD _ k PlayerStats.Damage rfl, a3, hd]
  · have hid' : ¬ k.SteamID64 = id := fun h => hid h.symm
    rw [if_neg hid, if_neg hid']
    exact ⟨by rw [g1]; exact a1, by rw [g1]; exact a2, by rw [g2]; exact a3⟩

theorem agrees_damage (v : View) (hist : IdMap PlayerHistory) (att : Player) (d : DamageEvent)
    (id : Nat) (ha : Agrees (v id) (mapGet hist id)) :
    Agrees (((v.create att).update att.SteamID64
        (fun p => { p with Damage := p.Damage + d.Damage })) id)
      (mapGet (mapModify (getOrCreateHistory att.SteamID64 hist) att.SteamID64
        (fun h => { h with Damages := h.Damages ++ [d] })) id) := by
  rw [view_touch_apply, mapGet_mapModify]
  obtain ⟨a1, a2, a3⟩ := ha
  obtain ⟨g1, g2⟩ := histKills_getOrCreate hist att.SteamID64 id
  by_cases hid : id = att.SteamID64
  · rw [if_pos hid, if_pos hid.symm]
    have hk : histKills (Option.map (fun (h : PlayerHistory) =>
        { h with Damages := h.Damages ++ [d] })
        (mapGet (getOrCreateHistory att.SteamID64 hist) id)) = histKills (mapGet hist id) := by
      rw [← g1]
      rw [mapGet_getOrCreateHistory, if_pos hid.symm]
      rfl
    have hd : histDamages (Option.map (fun (h : PlayerHistory) =>
        { h with Damages := h.Damages ++ [d] })
        (mapGet (getOrCreateHistory att.SteamID64 hist) id)) =
        histDamages (mapGet hist id) ++ [d] := by
      rw [← g2]
      rw [mapGet_getOrCreateHistory, if_pos hid.symm]
      rfl
    refine ⟨?_, ?_, ?_⟩
    · show ((v id).getD (newPlayerStats att)).Kills = _
      rw [optStat_getD _ att PlayerStats.Kills rfl, a1, hk]
    · show ((v id).getD (newPlayerStats att)).Headshots = _
      rw [optStat_getD _ att PlayerStats.Headshots rfl, a2, hk]
    · show ((v id).getD (newPlayerStats att)).Damage + d.Damage = _
      rw [optStat_getD _ att PlayerStats.Damage rfl, a3, hd]
      simp [historyDamage]
  · have hid' : ¬ att.SteamID64 = id := fun h => hid h.symm
    rw [if_neg hid, if_neg hid']
    exact ⟨by rw [g1]; exact a1, by rw [g1]; exact a2, by rw [g2]; exact a3⟩

theorem agrees_onKill (s : State) (hs : s.WF) (e : Kill) (id : Nat)
    (ha : Agrees (s.lookup id) (mapGet s.playerHistory id)) :
    Agrees ((onKill s e).lookup id) (mapGet (onKill s e).playerHistory id) := by
  rw [(onKill_sim s hs e).2, onKill_playerHistory]
  unfold View.onKill
  cases e.Killer with
  | none =>
    simp only []
    cases e.Victim with
    | none => exact ha
    | some vi =>
      exact agrees_touch_keep _ vi (victimWrites vi) (fun _ => ⟨rfl, rfl, rfl⟩) id _ ha
  | some k =>
    simp only []
    have h1 := agrees_kill s.lookup s.playerHistory e k id ha
    generalize mapGet (mapModify (getOrCreateHistory k.SteamID64 s.playerHistory) k.SteamID64
      (fun h => { h with Kills := h.Kills ++ [killEntry e] })) id = h' at h1 ⊢
    generalize View.update (View.create s.lookup k) k.SteamID64 (killerWrites e k) = v1 at h1 ⊢
    have h2 : Agrees ((match e.Assister with
        | some a => View.update (View.create v1 a) a.SteamID64
            (fun p => { p with Assists := p.Assists + 1 })
        | none => v1) id) h' := by
      cases e.Assister with
      | none => exact h1
      | some a =>
        exact agrees_touch_keep v1 a (fun p => { p with Assists := p.Assists + 1 })
          (fun _ => ⟨rfl, rfl, rfl⟩) id _ h1
    generalize (match e.Assister with
        | some a => View.update (View.create v1 a) a.SteamID64
            (fun p => { p with Assists := p.Assists + 1 })
        | none => v1) = v2 at h2 ⊢
    cases e.Victim with
    | none => exact h2
    | some vi =>
      exact agrees_touch_keep v2 vi (victimWrites vi) (fun _ => ⟨rfl, rfl, rfl⟩) id _ h2

theorem agrees_onPlayerHurt (s : State) (hs : s.WF) (e : PlayerHurt) (id : Nat)
    (ha : Agrees (s.lookup id) (mapGet s.playerHistory id)) :
    Agrees ((onPlayerHurt s e).lookup id) (mapGet (onPlayerHurt s e).playerHistory id) := by
  rw [(onPlayerHurt_sim s hs e).2, onPlayerHurt_playerHistory]
  unfold View.onPlayerHurt
  cases e.Player with
  | none => exact ha
  | some pl =>
    simp only []
    have h1 := agrees_touch_keep s.lookup pl
      (fun p => { p with DamageTaken := p.DamageTaken + (e.HealthDamage + e.ArmorDamage) })
      (fun _ => ⟨rfl, rfl, rfl⟩) id _ ha
    generalize View.update (View.create s.lookup pl) pl.SteamID64
      (fun p => { p with DamageTaken := p.DamageTaken + (e.HealthDamage + e.ArmorDamage) }) = v1
      at h1 ⊢
    cases e.Attacker with
    | none => exact h1
    | some att =>
      simp only []
      by_cases h : att.SteamID64 = pl.SteamID64
      · simp only [h, ne_eq, not_true_eq_false, if_false]
        exact h1
      · simp only [h, ne_eq, not_false_eq_true, if_true]
        exact agrees_damage v1 s.playerHistory att
          { Tick := e.Tick, Attacker := att.Name, Victim := pl.Name,
            Damage := e.HealthDamage + e.ArmorDamage } id h1

theorem agrees_run (s : State) (hs : s.WF) (events : List Event)
    (ha : ∀ id, Agrees (s.lookup id) (mapGet s.playerHistory id)) :
    ∀ id, Agrees ((run s events).lookup id) (mapGet (run s events).playerHistory id) := by
  induction events generalizing s with
  | nil => exact ha
  | cons e events ih =>
    have hrun : run s (e :: events) = run (step s e) events := rfl
    rw [hrun]
    apply ih (step s e) (step_sim s hs e).1
    intro id
    cases e with
    | kill e => exact agrees_onKill s hs e id (ha id)
    | playerHurt e => exact agrees_onPlayerHurt s hs e id (ha id)
    | roundStart => exact ha id
    | other => exact ha id

theorem agrees_reduce (events : List Event) (id : Nat) :
    Agrees ((reduce events).lookup id) (mapGet (reduce events).playerHistory id) := by
  apply agrees_run State.init init_WF events
  intro id
  simp [Agrees, State.init, State.lookup, mapGet, optStat, histKills, histDamages, headshotCount,
    historyDamage]

/-- C27 (as amended). After reducing any event stream, for every player id the
history agrees with the counters of the record: the number of kill-history
entries is the kills counter, the number of kill-history entries flagged
headshot is the headshots counter, and the sum of the damage amounts of the
damage history is the damage-dealt counter.  Hence, for a player with at least
one kill, the headshot rate that the detector computes from the history is the
quotient headshots / kills that the metric calculator multiplies by 100: the
headshot percentage is the rate times 100, in exact arithmetic and in `float64`
arithmetic alike. -/
theorem history_agrees_with_counters (events : List Event) (id : Nat) :
    (((reduce events).kills id).length : Int) = (reduce events).stat id PlayerStats.Kills ∧
    (headshotCount ((reduce events).kills id) : Int) =
      (reduce events).stat id PlayerStats.Headshots ∧
    historyDamage ((reduce events).damages id) = (reduce events).stat id PlayerStats.Damage ∧
    ∀ p, (reduce events).lookup id = some p → 0 < p.Kills →
      (calcStats p).HSPercent = F64.mul (hsRate ((reduce events).kills id)) (F64.fin 100) ∧
      hsPercent64 p =
        (hsRate64 ((reduce events).kills id)).map
          (fun rate => Binary64.mul rate (Binary64.ofNat 100)) := by
  obtain ⟨a1, a2, a3⟩ := agrees_reduce events id
  have hk : (reduce events).kills id = histKills (mapGet (reduce events).playerHistory id) := by
    unfold State.kills histKills
    cases mapGet (reduce events).playerHistory id <;> rfl
  have hd : (reduce events).damages id =
      histDamages (mapGet (reduce events).playerHistory id) := by
    unfold State.damages histDamages
    cases mapGet (reduce events).playerHistory id <;> rfl
  rw [hk, hd, stat_eq_optStat, stat_eq_optStat, stat_eq_optStat]
  refine ⟨a1.symm, a2.symm, a3.symm, ?_⟩
  intro p hp hpos
  rw [hp] at a1 a2
  have e1 : p.Kills = ((histKills (mapGet (reduce events).playerHistory id)).length : Int) := a1
  have e2 : p.Headshots =
      (headshotCount (histKills (mapGet (reduce events).playerHistory id)) : Int) := a2
  constructor
  · rw [calcStats_HSPercent, if_neg (by omega), e1, e2]
    unfold hsRate
    rw [foldl_headshots, zero_add]
  · unfold hsPercent64 hsRate64
    rw [if_neg (by omega), e1, e2, Int.toNat_ofNat, Int.toNat_ofNat]

set_option maxRecDepth 20000

/-- C27, counterexample: after six kills of which four are headshots the
headshot rate of the detector is the `float64` 6004799503160661 / 2^53
(0.6666666666666666), the headshot percentage of the calculator is
4691249611844266 / 2^46 (66.66666666666666), and the percentage divided by 100
is 6004799503160660 / 2^53 (0.6666666666666665), not the rate. -/
theorem headshot_percent_over_100_is_not_the_rate :
    (reduce exampleSixKills).lookup 1 = some exampleSixKillsRecord ∧
    ((reduce exampleSixKills).kills 1).length = 6 ∧
    headshotCount ((reduce exampleSixKills).kills 1) = 4 ∧
    hsRate64 ((reduce exampleSixKills).kills 1) = some ⟨6004799503160661, -53⟩ ∧
    hsPercent64 exampleSixKillsRecord = some ⟨4691249611844266, -46⟩ ∧
    (hsPercent64 exampleSixKillsRecord).bind
      (fun percent => Binary64.div percent (Binary64.ofNat 100)) =
      some ⟨6004799503160660, -53⟩ ∧
    ¬ (hsRate64 ((reduce exampleSixKills).kills 1) =
      (hsPercent64 exampleSixKillsRecord).bind
        (fun percent => Binary64.div percent (Binary64.ofNat 100))) := by
  decide

set_option maxRecDepth 512

/-! ## Scanning every registered player -/

theorem foldl_append_flatMap {α β : Type} (g : α → List β) (l : List α) (init : List β) :
    l.foldl (fun acc x => acc ++ g x) init = init ++ l.flatMap g := by
  induction l generalizing init with
  | nil => simp
  | cons a l ih => rw [List.foldl_cons, ih, List.flatMap_cons, List.append_assoc]

theorem collectMoments_eq_flatMap (history : IdMap PlayerHistory) (playerMap : IdMap Nat)
    (heap : List PlayerStats) :
    collectMoments history playerMap heap =
      history.flatMap (fun entry =>
        match mapGet playerMap entry.1 with
        | none => []
        | some ptr =>
          match heap[ptr]? with
          | none => []
          | some playerStats => playerMoments playerStats entry.2) := by
  unfold collectMoments
  have h := foldl_append_flatMap (fun (entry : Nat × PlayerHistory) =>
    match mapGet playerMap entry.1 with
    | none => []
    | some ptr =>
      match heap[ptr]? with
      | none => []
      | some playerStats => playerMoments playerStats entry.2) history []
  rw [List.nil_append] at h
  rw [← h]
  congr 1
  funext moments entry
  cases mapGet playerMap entry.1 with
  | none => simp
  | some ptr => cases hh : heap[ptr]? <;> simp [hh]

theorem collectMomentsAll_eq_flatMap (players : List Nat) (history : IdMap PlayerHistory)
    (heap : List PlayerStats) :
    collectMomentsAll players history heap =
      players.flatMap (fun ptr =>
        match heap[ptr]? with
        | none => []
        | some playerStats =>
          playerMoments playerStats
            ((mapGet history playerStats.SteamID).getD (emptyHistory playerStats.SteamID))) := by
  unfold collectMomentsAll
  have h := foldl_append_flatMap (fun (ptr : Nat) =>
    match heap[ptr]? with
    | none => []
    | some playerStats =>
      playerMoments playerStats
        ((mapGet history playerStats.SteamID).getD (emptyHistory playerStats.SteamID)))
    players []
  rw [List.nil_append] at h
  rw [← h]
  congr 1
  funext moments ptr
  cases hh : heap[ptr]? <;> simp [hh]

theorem mem_collectMoments_iff (history : IdMap PlayerHistory) (playerMap : IdMap Nat)
    (heap : List PlayerStats) (m : SuspiciousMoment) :
    m ∈ collectMoments history playerMap heap ↔
      ∃ id hist ptr playerStats, (id, hist) ∈ history ∧ mapGet playerMap id = some ptr ∧
        heap[ptr]? = some playerStats ∧ m ∈ playerMoments playerStats hist := by
  rw [collectMoments_eq_flatMap, List.mem_flatMap]
  constructor
  · rintro ⟨⟨id, hist⟩, hmem, hm⟩
    simp only [] at hm
    cases hp : mapGet playerMap id with
    | none => rw [hp] at hm; cases hm
    | some ptr =>
      rw [hp] at hm
      simp only [] at hm
      cases hh : heap[ptr]? with
      | none => rw [hh] at hm; cases hm
      | some st =>
        rw [hh] at hm
        exact ⟨id, hist, ptr, st, hmem, hp, hh, hm⟩
  · rintro ⟨id, hist, ptr, st, hmem, hp, hh, hm⟩
    refine ⟨(id, hist), hmem, ?_⟩
    simp only [hp, hh]
    exact hm

theorem mem_collectMomentsAll_iff (players : List Nat) (history : IdMap PlayerHistory)
    (heap : List PlayerStats) (m : SuspiciousMoment) :
    m ∈ collectMomentsAll players history heap ↔
      ∃ ptr playerStats, ptr ∈ players ∧ heap[ptr]? = some playerStats ∧
        m ∈ playerMoments playerStats
          ((mapGet history playerStats.SteamID).getD (emptyHistory playerStats.SteamID)) := by
  rw [collectMomentsAll_eq_flatMap, List.mem_flatMap]
  constructor
  · rintro ⟨ptr, hmem, hm⟩
    cases hh : heap[ptr]? with
    | none => rw [hh] at hm; cases hm
    | some st =>
      rw [hh] at hm
      exact ⟨ptr, st, hmem, hh, hm⟩
  · rintro ⟨ptr, st, hmem, hh, hm⟩
    refine ⟨ptr, hmem, ?_⟩
    simp only [hh]
    exact hm

theorem mapGet_eq_none_iff {α : Type} (m : IdMap α) (k : Nat) :
    mapGet m k = none ↔ k ∉ m.map Prod.fst := by
  induction m with
  | nil => simp [mapGet]
  | cons hd tl ih =>
    obtain ⟨a, b⟩ := hd
    by_cases h : a = k
    · simp [mapGet, h]
    · have h' : ¬ k = a := fun e => h e.symm
      simp only [mapGet, if_neg h, ih, List.map_cons, List.mem_cons, not_or]
      exact ⟨fun hh => ⟨h', hh⟩, fun hh => hh.2⟩

theorem mem_of_mapGet {α : Type} (m : IdMap α) (k : Nat) (v : α) (h : mapGet m k = some v) :
    (k, v) ∈ m := by
  induction m with
  | nil => cases h
  | cons hd tl ih =>
    obtain ⟨a, b⟩ := hd
    by_cases hk : a = k
    · simp only [mapGet, if_pos hk, Option.some.injEq] at h
      subst hk
      subst h
      exact List.mem_cons_self _ _
    · simp only [mapGet, if_neg hk] at h
      exact List.mem_cons_of_mem _ (ih h)

theorem mapGet_of_mem {α : Type} (m : IdMap α) (hnd : (m.map Prod.fst).Nodup) (k : Nat) (v : α)
    (h : (k, v) ∈ m) : mapGet m k = some v := by
  induction m with
  | nil => cases h
  | cons hd tl ih =>
    obtain ⟨a, b⟩ := hd
    rw [List.map_cons, List.nodup_cons] at hnd
    rcases List.mem_cons.1 h with heq | hmem
    · cases heq
      simp [mapGet]
    · have hne : ¬ a = k := by
        intro e
        subst e
        exact hnd.1 (List.mem_map.2 ⟨(a, v), hmem, rfl⟩)
      simp only [mapGet, if_neg hne]
      exact ih hnd.2 hmem

theorem keys_mapModify {α : Type} (m : IdMap α) (k : Nat) (f : α → α) :
    (mapModify m k f).map Prod.fst = m.map Prod.fst := by
  induction m with
  | nil => rfl
  | cons hd tl ih =>
    obtain ⟨a, b⟩ := hd
    by_cases h : a = k
    · simp [mapModify, h]
    · simp [mapModify, h, ih]

theorem keys_mapSet {α : Type} (m : IdMap α) (k : Nat) (v : α) (h : mapGet m k = none) :
    (mapSet m k v).map Prod.fst = m.map Prod.fst ++ [k] := by
  induction m with
  | nil => rfl
  | cons hd tl ih =>
    obtain ⟨a, b⟩ := hd
    by_cases hk : a = k
    · simp [mapGet, hk] at h
    · simp only [mapGet, if_neg hk] at h
      simp [mapSet, hk, ih h]

theorem keys_getOrCreateHistory (hist : IdMap PlayerHistory) (k : Nat)
    (hnd : (hist.map Prod.fst).Nodup) : ((getOrCreateHistory k hist).map Prod.fst).Nodup := by
  unfold getOrCreateHistory
  cases h : mapGet hist k with
  | some v => exact hnd
  | none =>
    simp only []
    rw [keys_mapSet hist k _ h, List.nodup_append]
    refine ⟨hnd, List.nodup_singleton _, ?_⟩
    intro a ha hb
    rw [List.mem_singleton] at hb
    subst hb
    exact (mapGet_eq_none_iff hist a).1 h ha

theorem step_history_nodup (s : State) (e : Event)
    (hnd : (s.playerHistory.map Prod.fst).Nodup) :
    ((step s e).playerHistory.map Prod.fst).Nodup := by
  cases e with
  | roundStart => exact hnd
  | other => exact hnd
  | kill e =>
    show ((onKill s e).playerHistory.map Prod.fst).Nodup
    rw [onKill_playerHistory]
    cases e.Killer with
    | none => exact hnd
    | some k =>
      simp only []
      rw [keys_mapModify]
      exact keys_getOrCreateHistory _ _ hnd
  | playerHurt e =>
    show ((onPlayerHurt s e).playerHistory.map Prod.fst).Nodup
    rw [onPlayerHurt_playerHistory]
    cases e.Player with
    | none => exact hnd
    | some pl =>
      cases e.Attacker with
      | none => exact hnd
      | some att =>
        simp only []
        split
        · rw [keys_mapModify]
          exact keys_getOrCreateHistory _ _ hnd
        · exact hnd

theorem run_history_nodup (s : State) (events : List Event)
    (hnd : (s.playerHistory.map Prod.fst).Nodup) :
    ((run s events).playerHistory.map Prod.fst).Nodup := by
  induction events generalizing s with
  | nil => exact hnd
  | cons e events ih => exact ih (step s e) (step_history_nodup s e hnd)

theorem playerMoments_of_no_kills (playerStats : PlayerStats) (steamID : Nat)
    (h : playerStats.Kills = 0) : playerMoments playerStats (emptyHistory steamID) = [] := by
  simp [playerMoments, detectDamageBurst, detectHeadshotRate, detectExtremeKD, detectAccuracy,
    emptyHistory, h]

/-- C28. After reducing any event stream, a registered player without a history
entry has no kill and no damage dealt, and so yields no finding of any of the
four heuristics when scanned with an empty history; whatever order the loop of
`detectSuspiciousMoments` visits the history entries in, the findings it
collects are the findings that a scan of every registered player (with an empty
history where the player has none) collects. -/
theorem scanning_history_loses_nothing (events : List Event) :
    (∀ id p, (reduce events).lookup id = some p →
      mapGet (reduce events).playerHistory id = none →
      p.Kills = 0 ∧ p.Damage = 0 ∧ playerMoments (calcStats p) (emptyHistory id) = []) ∧
    ∀ order : IdMap PlayerHistory, order.Perm (calculate (reduce events)).playerHistory →
      ∀ m,
        m ∈ collectMoments order (calculate (reduce events)).playerMap
          (calculate (reduce events)).heap ↔
        m ∈ collectMomentsAll (calculate (reduce events)).players
          (calculate (reduce events)).playerHistory (calculate (reduce events)).heap := by
  have hwf := reduce_WF events
  have hwfS := calculate_WF _ hwf
  have hnd : ((reduce events).playerHistory.map Prod.fst).Nodup :=
    run_history_nodup State.init events (by simp [State.init])
  have hS := calculate_eq _ hwf
  have hhist : (calculate (reduce events)).playerHistory = (reduce events).playerHistory := by
    rw [hS]
  have hheap : (calculate (reduce events)).heap = (reduce events).heap.map calcStats := by
    rw [hS]
  have part1 : ∀ id p, (reduce events).lookup id = some p →
      mapGet (reduce events).playerHistory id = none →
      p.Kills = 0 ∧ p.Damage = 0 ∧ playerMoments (calcStats p) (emptyHistory id) = [] := by
    intro id p hp hnone
    obtain ⟨a1, _, a3⟩ := agrees_reduce events id
    rw [hp, hnone] at a1 a3
    have hk : p.Kills = 0 := a1
    have hd : p.Damage = 0 := a3
    exact ⟨hk, hd, playerMoments_of_no_kills _ id (by rw [calcStats_Kills]; exact hk)⟩
  refine ⟨part1, ?_⟩
  intro order hperm m
  rw [mem_collectMoments_iff, mem_collectMomentsAll_iff, hhist]
  rw [hhist] at hperm
  constructor
  · rintro ⟨id, hist, ptr, st, hmem, hp, hh, hm⟩
    have hget : mapGet (reduce events).playerHistory id = some hist :=
      mapGet_of_mem _ hnd id hist (hperm.subset hmem)
    obtain ⟨r, hr, hid⟩ := (hwfS.map_iff id ptr).1 hp
    rw [hh] at hr
    cases hr
    refine ⟨ptr, st, (hwfS.mem_players ptr).2 ⟨id, hp⟩, hh, ?_⟩
    rw [hid, hget]
    exact hm
  · rintro ⟨ptr, st, _, hh, hm⟩
    have hp : mapGet (calculate (reduce events)).playerMap st.SteamID = some ptr :=
      (hwfS.map_iff st.SteamID ptr).2 ⟨st, hh, rfl⟩
    cases hget : mapGet (reduce events).playerHistory st.SteamID with
    | some hist =>
      rw [hget] at hm
      exact ⟨st.SteamID, hist, ptr, st,
        hperm.symm.subset (mem_of_mapGet _ _ _ hget), hp, hh, hm⟩
    | none =>
      rw [hget] at hm
      rw [hheap, List.getElem?_map] at hh
      cases hq : (reduce events).heap[ptr]? with
      | none => rw [hq] at hh; cases hh
      | some p =>
        rw [hq] at hh
        simp only [Option.map_some', Option.some.injEq] at hh
        subst hh
        have hlook : (reduce events).lookup p.SteamID = some p := by
          have := (hwf.map_iff p.SteamID ptr).2 ⟨p, hq, rfl⟩
          simp [State.lookup, this, hq]
        rw [calcStats_SteamID] at hget hm
        have := (part1 p.SteamID p hlook hget).2.2
        simp only [Option.getD_none] at hm
        rw [this] at hm
        cases hm

/-! ## Redundant tests and derived bounds -/

theorem calcStats_KDRatio_ge (p : PlayerStats) (hd : 0 ≤ p.Deaths) (hk : 15 < p.Kills)
    (hd5 : p.Deaths < 5) : ∃ q : ℚ, (calcStats p).KDRatio = F64.fin q ∧ 4 ≤ q := by
  rw [calcStats_KDRatio]
  by_cases h0 : p.Deaths = 0
  · rw [if_pos h0]
    refine ⟨(p.Kills : ℚ), rfl, ?_⟩
    have : (16 : ℚ) ≤ (p.Kills : ℚ) := by exact_mod_cast (show (16 : Int) ≤ p.Kills by omega)
    linarith
  · rw [if_neg h0]
    have hpos : (0 : ℚ) < (p.Deaths : ℚ) := by
      exact_mod_cast (show (0 : Int) < p.Deaths by omega)
    have hne : ¬ ((p.Deaths : ℚ) = 0) := ne_of_gt hpos
    refine ⟨(p.Kills : ℚ) / (p.Deaths : ℚ), ?_, ?_⟩
    · simp only [F64.ofInt, F64.div]
      rw [if_neg hne]
    · rw [le_div_iff₀ hpos]
      have h1 : (16 : ℚ) ≤ (p.Kills : ℚ) := by exact_mod_cast (show (16 : Int) ≤ p.Kills by omega)
      have h2 : (p.Deaths : ℚ) ≤ 4 := by exact_mod_cast (show p.Deaths ≤ (4 : Int) by omega)
      linarith

/-- C29. For every record with deaths ≥ 0 whose kdRatio the metric calculator
has computed: kills > 15 and deaths < 5 imply that kdRatio is a finite value of
at least 4, so the extreme K/D finding is emitted exactly when kills > 15 and
deaths < 5 (the test kdRatio > 3.0 never fails), and the confidence of the
finding lies in the closed interval [0.8, 0.88]. -/
theorem extreme_kd_test_redundant (p : PlayerStats) (playerHist : PlayerHistory)
    (hd : 0 ≤ p.Deaths) :
    (15 < p.Kills → p.Deaths < 5 → ∃ q : ℚ, (calcStats p).KDRatio = F64.fin q ∧ 4 ≤ q) ∧
    ((∃ m, m ∈ playerMoments (calcStats p) playerHist ∧ m.SuspicionType = "extreme_kd_ratio") ↔
      15 < p.Kills ∧ p.Deaths < 5) ∧
    (∀ m, m ∈ playerMoments (calcStats p) playerHist ∧ m.SuspicionType = "extreme_kd_ratio" →
      ∃ c : ℚ, m.Confidence = F64.fin c ∧ 8 / 10 ≤ c ∧ c ≤ 88 / 100) := by
  have hK : (calcStats p).Kills = p.Kills := calcStats_Kills p
  have hD : (calcStats p).Deaths = p.Deaths := by rw [calcStats_eq]
  refine ⟨calcStats_KDRatio_ge p hd, ?_, ?_⟩
  · simp only [mem_playerMoments_extremeKD]
    constructor
    · rintro ⟨m, hm⟩
      obtain ⟨⟨h1, h2, _⟩, _⟩ := (mem_detectExtremeKD _ m).1 hm
      rw [hK] at h1
      rw [hD] at h2
      exact ⟨h1, h2⟩
    · rintro ⟨h1, h2⟩
      obtain ⟨q, hq, h4⟩ := calcStats_KDRatio_ge p hd h1 h2
      refine ⟨_, (mem_detectExtremeKD _ _).2 ⟨⟨by rw [hK]; exact h1, by rw [hD]; exact h2, ?_⟩, rfl⟩⟩
      rw [hq]
      simp only [F64.gt, F64.lt, decide_eq_true_eq]
      linarith
  · intro m hm
    rw [mem_playerMoments_extremeKD] at hm
    obtain ⟨⟨h1, h2, _⟩, hm⟩ := (mem_detectExtremeKD _ m).1 hm
    rw [hK] at h1
    rw [hD] at h2
    obtain ⟨q, hq, h4⟩ := calcStats_KDRatio_ge p hd h1 h2
    rw [hm, hq]
    have hdiv : F64.div (F64.fin q) (F64.fin 5) = F64.fin (q / 5) := by
      simp only [F64.div]
      rw [if_neg (by norm_num)]
    simp only [hdiv, F64.min]
    by_cases hlt : (88 / 100 : ℚ) < q / 5
    · rw [if_pos hlt]
      exact ⟨88 / 100, rfl, by norm_num, le_refl _⟩
    · rw [if_neg hlt]
      refine ⟨q / 5, rfl, ?_, not_lt.1 hlt⟩
      rw [le_div_iff₀ (by norm_num)]
      linarith

/-- C29, witness: the record with 20 kills and 2 deaths gets a kdRatio of at
least 4, and the extreme K/D finding is emitted for it. -/
theorem extreme_kd_test_redundant_witness :
    (0 : Int) ≤ exampleExtremeKD.Deaths ∧
    (∃ q : ℚ, (calcStats exampleExtremeKD).KDRatio = F64.fin q ∧ 4 ≤ q) ∧
    (∃ m, m ∈ playerMoments (calcStats exampleExtremeKD) (emptyHistory 1) ∧
      m.SuspicionType = "extreme_kd_ratio") :=
  ⟨by decide,
   (extreme_kd_test_redundant exampleExtremeKD (emptyHistory 1) (by decide)).1
     (by decide) (by decide),
   (extreme_kd_test_redundant exampleExtremeKD (emptyHistory 1) (by decide)).2.1.2
     ⟨by decide, by decide⟩⟩

theorem burstWindow_end_lt (start : Int) (l : List DamageEvent) (acc : Int × Int)
    (hacc : acc.2 - start < 128) : (burstWindow start l acc).2 - start < 128 := by
  induction l generalizing acc with
  | nil => exact hacc
  | cons d ds ih =>
    unfold burstWindow
    by_cases h : d.Tick - start < 128
    · rw [if_pos h]
      exact ih _ h
    · rw [if_neg h]
      exact hacc

theorem mem_burstScan_bounds (playerStats : PlayerStats) (l : List DamageEvent)
    (m : SuspiciousMoment) (hm : m ∈ burstScan playerStats l) :
    ∃ burstDamage burstStart burstEnd : Int,
      m = burstMoment playerStats burstDamage burstStart burstEnd ∧ 150 < burstDamage ∧
      10 < burstEnd - burstStart ∧ burstEnd - burstStart < 128 := by
  induction l with
  | nil => simp [burstScan] at hm
  | cons d t ih =>
    cases t with
    | nil => simp [burstScan] at hm
    | cons d' ds =>
      unfold burstScan at hm
      simp only [] at hm
      split at hm
      · rename_i hc
        rw [List.mem_singleton] at hm
        exact ⟨_, _, _, hm, hc.1, hc.2,
          burstWindow_end_lt d.Tick (d :: d' :: ds) (0, d.Tick) (by simp)⟩
      · exact ih hm

/-- C30. For every player and every damage history (ordered by tick or not),
every damage_burst finding has 10 < tick_end - tick_start < 128, so its
estimated duration, the integer quotient (tick_end - tick_start) / 64, is 0 or
1, and its confidence is a finite value greater than 0.5 and at most 0.95. -/
theorem damage_burst_bounds (playerStats : PlayerStats) (playerHist : PlayerHistory)
    (m : SuspiciousMoment) :
    m ∈ playerMoments playerStats playerHist ∧ m.SuspicionType = "damage_burst" →
      10 < m.TickEnd - m.TickStart ∧ m.TickEnd - m.TickStart < 128 ∧
      m.EstimatedDuration = Int.tdiv (m.TickEnd - m.TickStart) 64 ∧
      (m.EstimatedDuration = 0 ∨ m.EstimatedDuration = 1) ∧
      ∃ c : ℚ, m.Confidence = F64.fin c ∧ 1 / 2 < c ∧ c ≤ 95 / 100 := by
  intro hm
  rw [mem_playerMoments_burst] at hm
  obtain ⟨dmg, s, e, rfl, hdmg, h10, h128⟩ := mem_burstScan_bounds _ _ m hm
  refine ⟨h10, h128, rfl, ?_, ?_⟩
  · show Int.tdiv (e - s) 64 = 0 ∨ Int.tdiv (e - s) 64 = 1
    rw [Int.tdiv_eq_ediv (by omega) (by norm_num)]
    omega
  · have hdiv : F64.div (F64.ofInt dmg) (F64.fin 300) = F64.fin ((dmg : ℚ) / 300) := by
      simp only [F64.ofInt, F64.div]
      rw [if_neg (by norm_num)]
    have hq : (150 : ℚ) < (dmg : ℚ) := by exact_mod_cast hdmg
    simp only [burstMoment, hdiv, F64.min]
    by_cases hlt : (95 / 100 : ℚ) < (dmg : ℚ) / 300
    · rw [if_pos hlt]
      exact ⟨95 / 100, rfl, by norm_num, le_refl _⟩
    · rw [if_neg hlt]
      refine ⟨(dmg : ℚ) / 300, rfl, ?_, not_lt.1 hlt⟩
      rw [lt_div_iff₀ (by norm_num)]
      linarith

theorem exampleHistory_burst :
    burstMoment (newPlayerStats ⟨"K", 1, Team.terrorists⟩) 200 0 20 ∈
        playerMoments (newPlayerStats ⟨"K", 1, Team.terrorists⟩)
          ⟨1, "", Team.unassigned, [], [⟨0, "K", "V", 100⟩, ⟨20, "K", "V", 100⟩]⟩ ∧
      (burstMoment (newPlayerStats ⟨"K", 1, Team.terrorists⟩) 200 0 20).SuspicionType =
        "damage_burst" := by
  rw [mem_playerMoments_burst]
  simp [burstScan, burstWindow]

/-- C30, witness: two hits of 100 damage, 20 ticks apart, give a damage_burst
finding with tick_end - tick_start = 20, estimated duration 0 and a confidence
in the stated range. -/
theorem damage_burst_bounds_witness :
    (burstMoment (newPlayerStats ⟨"K", 1, Team.terrorists⟩) 200 0 20 ∈
        playerMoments (newPlayerStats ⟨"K", 1, Team.terrorists⟩)
          ⟨1, "", Team.unassigned, [], [⟨0, "K", "V", 100⟩, ⟨20, "K", "V", 100⟩]⟩ ∧
      (burstMoment (newPlayerStats ⟨"K", 1, Team.terrorists⟩) 200 0 20).SuspicionType =
        "damage_burst") ∧
    (burstMoment (newPlayerStats ⟨"K", 1, Team.terrorists⟩) 200 0 20).EstimatedDuration = 0 ∧
    ∃ c : ℚ, (burstMoment (newPlayerStats ⟨"K", 1, Team.terrorists⟩) 200 0 20).Confidence =
      F64.fin c ∧ 1 / 2 < c ∧ c ≤ 95 / 100 :=
  ⟨exampleHistory_burst, by decide,
   (damage_burst_bounds (newPlayerStats ⟨"K", 1, Team.terrorists⟩)
     ⟨1, "", Team.unassigned, [], [⟨0, "K", "V", 100⟩, ⟨20, "K", "V", 100⟩]⟩
     (burstMoment (newPlayerStats ⟨"K", 1, Team.terrorists⟩) 200 0 20)
     exampleHistory_burst).2.2.2.2⟩

/-! ## The two computed scores of the fallback -/

/-- The two quotients `16 * a / (a + b)` and `16 * b / (a + b)` of non-negative
kill sums add up to 15 or 16, are ordered as the kill sums are, and are equal
only for equal kill sums. -/
theorem computed_scores_facts (a b : Int) (ha : 0 ≤ a) (hb : 0 ≤ b) (ht : 0 < a + b) :
    0 ≤ Int.tdiv (a * 16) (a + b) ∧ 0 ≤ Int.tdiv (b * 16) (a + b) ∧
    15 ≤ Int.tdiv (a * 16) (a + b) + Int.tdiv (b * 16) (a + b) ∧
    Int.tdiv (a * 16) (a + b) + Int.tdiv (b * 16) (a + b) ≤ 16 ∧
    (b ≤ a → Int.tdiv (b * 16) (a + b) ≤ Int.tdiv (a * 16) (a + b)) ∧
    (a ≤ b → Int.tdiv (a * 16) (a + b) ≤ Int.tdiv (b * 16) (a + b)) ∧
    (Int.tdiv (a * 16) (a + b) = Int.tdiv (b * 16) (a + b) → a = b) := by
  rw [Int.tdiv_eq_ediv (by omega) (le_of_lt ht), Int.tdiv_eq_ediv (by omega) (le_of_lt ht)]
  have hne : a + b ≠ 0 := ne_of_gt ht
  have la := Int.ediv_mul_le (a * 16) hne
  have ua := Int.lt_ediv_add_one_mul_self (a * 16) ht
  have lb := Int.ediv_mul_le (b * 16) hne
  have ub := Int.lt_ediv_add_one_mul_self (b * 16) ht
  have na : 0 ≤ a * 16 / (a + b) := Int.ediv_nonneg (by omega) (le_of_lt ht)
  have nb : 0 ≤ b * 16 / (a + b) := Int.ediv_nonneg (by omega) (le_of_lt ht)
  generalize a * 16 / (a + b) = qa at la ua na ⊢
  generalize b * 16 / (a + b) = qb at lb ub nb ⊢
  have hsum_le : qa + qb ≤ 16 := by
    by_contra hc
    have h17 : 17 ≤ qa + qb := by omega
    have := mul_le_mul_of_nonneg_right h17 (le_of_lt ht)
    nlinarith
  have hsum_ge : 15 ≤ qa + qb := by
    by_contra hc
    have h14 : qa + qb + 2 ≤ 16 := by omega
    have := mul_le_mul_of_nonneg_right h14 (le_of_lt ht)
    nlinarith
  refine ⟨na, nb, hsum_ge, hsum_le, ?_, ?_, ?_⟩
  · intro hab
    by_contra hc
    have h1 : qa + 1 ≤ qb := by omega
    have := mul_le_mul_of_nonneg_right h1 (le_of_lt ht)
    nlinarith
  · intro hab
    by_contra hc
    have h1 : qb + 1 ≤ qa := by omega
    have := mul_le_mul_of_nonneg_right h1 (le_of_lt ht)
    nlinarith
  · intro heq
    have h8 : qa = 8 := by omega
    have h8b : qb = 8 := by omega
    subst h8
    subst h8b
    omega

/-- C31. In the score fallback (both decoder scores 0, kill counts not negative,
summed kills > 0) with teamAKills = a and teamBKills = b: the two computed
scores 16a/(a+b) and 16b/(a+b) are equal only when a = b, and then the result is
8 and 8; otherwise the computed score of the side with fewer kills is at most 7
and is replaced by 13, while the side with more kills keeps its computed score,
which is between 8 and 16.  So the side with more kills ends with the lower
final score whenever its computed score is below 13. -/
theorem score_fallback_trailing_raised (players : List PlayerStats) (a b : Int)
    (hk : ∀ p, p ∈ players → 0 ≤ p.Kills) (hab : teamKills players = (a, b))
    (hpos : 0 < a + b) :
    (Int.tdiv (a * 16) (a + b) = Int.tdiv (b * 16) (a + b) ↔ a = b) ∧
    (a = b → Int.tdiv (a * 16) (a + b) = 8 ∧ Int.tdiv (b * 16) (a + b) = 8 ∧
      ensureValidScores 0 0 players = some (8, 8)) ∧
    (b < a → Int.tdiv (b * 16) (a + b) ≤ 7 ∧ 8 ≤ Int.tdiv (a * 16) (a + b) ∧
      Int.tdiv (a * 16) (a + b) ≤ 16 ∧
      ensureValidScores 0 0 players = some (Int.tdiv (a * 16) (a + b), 13)) ∧
    (a < b → Int.tdiv (a * 16) (a + b) ≤ 7 ∧ 8 ≤ Int.tdiv (b * 16) (a + b) ∧
      Int.tdiv (b * 16) (a + b) ≤ 16 ∧
      ensureValidScores 0 0 players = some (13, Int.tdiv (b * 16) (a + b))) ∧
    (∀ finalA finalB, ensureValidScores 0 0 players = some (finalA, finalB) →
      (b < a → Int.tdiv (a * 16) (a + b) < 13 → finalA < finalB) ∧
      (a < b → Int.tdiv (b * 16) (a + b) < 13 → finalB < finalA)) := by
  obtain ⟨hA, hB⟩ := teamKills_nonneg players hk
  rw [hab] at hA hB
  simp only at hA hB
  obtain ⟨na, nb, hge, hle, hmonoA, hmonoB, heq⟩ := computed_scores_facts a b hA hB hpos
  have hcond : a > 0 ∨ b > 0 := by omega
  have hne : ¬ (a + b = 0) := by omega
  have hrun : ensureValidScores 0 0 players =
      if Int.tdiv (a * 16) (a + b) > Int.tdiv (b * 16) (a + b) then
        if Int.tdiv (b * 16) (a + b) < 13 then some (Int.tdiv (a * 16) (a + b), 13)
        else some (Int.tdiv (a * 16) (a + b), Int.tdiv (b * 16) (a + b))
      else if Int.tdiv (b * 16) (a + b) > Int.tdiv (a * 16) (a + b) then
        if Int.tdiv (a * 16) (a + b) < 13 then some (13, Int.tdiv (b * 16) (a + b))
        else some (Int.tdiv (a * 16) (a + b), Int.tdiv (b * 16) (a + b))
      else some (Int.tdiv (a * 16) (a + b), Int.tdiv (b * 16) (a + b)) := by
    unfold ensureValidScores
    rw [hab]
    simp only []
    rw [if_pos (by simp), if_pos hcond, if_neg hne]
  have hsame : a = b → Int.tdiv (a * 16) (a + b) = 8 ∧ Int.tdiv (b * 16) (a + b) = 8 := by
    intro h
    subst h
    omega
  rw [hrun]
  generalize Int.tdiv (a * 16) (a + b) = x at *
  generalize Int.tdiv (b * 16) (a + b) = y at *
  refine ⟨⟨heq, fun h => by have := hsame h; omega⟩, ?_, ?_, ?_, ?_⟩
  · intro h
    obtain ⟨hx, hy⟩ := hsame h
    subst hx
    subst hy
    exact ⟨rfl, rfl, by decide⟩
  · intro h
    have hlt : y < x := by
      have := hmonoA (le_of_lt h)
      have hne' : x ≠ y := fun e => by have := heq e; omega
      omega
    refine ⟨by omega, by omega, by omega, ?_⟩
    rw [if_pos hlt, if_pos (by omega)]
  · intro h
    have hlt : x < y := by
      have := hmonoB (le_of_lt h)
      have hne' : x ≠ y := fun e => by have := heq e; omega
      omega
    refine ⟨by omega, by omega, by omega, ?_⟩
    rw [if_neg (by omega), if_pos hlt, if_pos (by omega)]
  · intro finalA finalB hfinal
    constructor
    · intro h hx
      have hlt : y < x := by
        have := hmonoA (le_of_lt h)
        have hne' : x ≠ y := fun e => by have := heq e; omega
        omega
      rw [if_pos hlt, if_pos (by omega)] at hfinal
      simp only [Option.some.injEq, Prod.mk.injEq] at hfinal
      omega
    · intro h hy
      have hlt : x < y := by
        have := hmonoB (le_of_lt h)
        have hne' : x ≠ y := fun e => by have := heq e; omega
        omega
      rw [if_neg (by omega), if_pos hlt, if_pos (by omega)] at hfinal
      simp only [Option.some.injEq, Prod.mk.injEq] at hfinal
      omega

/-- C31, witness: with 48 kills on the Counter-Terrorist side and 16 on the
Terrorist side the computed scores are 12 and 4; the trailing 4 is replaced by
13 and the side with more kills ends with 12, the lower final score. -/
theorem score_fallback_trailing_raised_witness :
    (∀ p, p ∈ exampleScorePlayers → 0 ≤ p.Kills) ∧
    teamKills exampleScorePlayers = (48, 16) ∧ (0 : Int) < 48 + 16 ∧
    Int.tdiv (48 * 16) (48 + 16) = 12 ∧ Int.tdiv (16 * 16) (48 + 16) = 4 ∧
    (Int.tdiv (16 * 16) (48 + 16) ≤ 7 ∧ 8 ≤ Int.tdiv (48 * 16) (48 + 16) ∧
      Int.tdiv (48 * 16) (48 + 16) ≤ 16 ∧
      ensureValidScores 0 0 exampleScorePlayers = some (Int.tdiv (48 * 16) (48 + 16), 13)) :=
  ⟨by decide, by decide, by decide, by decide, by decide,
   (score_fallback_trailing_raised exampleScorePlayers 48 16 (by decide) (by decide)
     (by decide)).2.2.1 (by decide)⟩

/-! ## The sort of the Go library -/

theorem insertBack_perm {α : Type} (less : α → α → Bool) (x : α) (l : List α) :
    (insertBack less x l).Perm (x :: l) := by
  induction l with
  | nil => exact List.Perm.refl _
  | cons y ys ih =>
    unfold insertBack
    split
    · exact (ih.cons y).trans (List.Perm.swap x y ys)
    · exact List.Perm.refl _

theorem foldl_insertBack_perm {α : Type} (less : α → α → Bool) (data acc : List α) :
    (data.foldl (fun sorted x => insertBack less x sorted) acc).Perm (data ++ acc) := by
  induction data generalizing acc with
  | nil => exact List.Perm.refl _
  | cons x xs ih =>
    rw [List.foldl_cons]
    refine (ih (insertBack less x acc)).trans ?_
    refine ((insertBack_perm less x acc).append_left xs).trans ?_
    exact List.perm_middle

theorem insertionSortFunc_perm {α : Type} (less : α → α → Bool) (data : List α) :
    (insertionSortFunc less data).Perm data := by
  unfold insertionSortFunc
  refine (List.reverse_perm _).trans ?_
  have := foldl_insertBack_perm less data []
  rwa [List.append_nil] at this

theorem insertBack_sorted {α : Type} (key : α → Int) (x : α) (l : List α)
    (hl : l.Pairwise (fun a b => key a ≤ key b)) :
    (insertBack (fun a b => decide (key a > key b)) x l).Pairwise (fun a b => key a ≤ key b) := by
  induction l with
  | nil => exact List.pairwise_singleton _ _
  | cons y ys ih =>
    rw [List.pairwise_cons] at hl
    unfold insertBack
    by_cases h : key x > key y
    · rw [if_pos (by simpa using h), List.pairwise_cons]
      refine ⟨?_, ih hl.2⟩
      intro z hz
      rcases (List.mem_cons.1 ((insertBack_perm _ x ys).subset hz)) with hzx | hzy
      · rw [hzx]
        exact le_of_lt h
      · exact hl.1 z hzy
    · rw [if_neg (by simpa using h), List.pairwise_cons]
      refine ⟨?_, List.pairwise_cons.2 hl⟩
      intro z hz
      rcases List.mem_cons.1 hz with hzy | hzs
      · rw [hzy]
        exact not_lt.1 h
      · exact le_trans (not_lt.1 h) (hl.1 z hzs)

theorem foldl_insertBack_sorted {α : Type} (key : α → Int) (data acc : List α)
    (hacc : acc.Pairwise (fun a b => key a ≤ key b)) :
    (data.foldl (fun sorted x => insertBack (fun a b => decide (key a > key b)) x sorted)
      acc).Pairwise (fun a b => key a ≤ key b) := by
  induction data generalizing acc with
  | nil => exact hacc
  | cons x xs ih =>
    rw [List.foldl_cons]
    exact ih _ (insertBack_sorted key x acc hacc)

theorem insertionSortFunc_sorted {α : Type} (key : α → Int) (data : List α) :
    (insertionSortFunc (fun a b => decide (key a > key b)) data).Pairwise
      (fun a b => key b ≤ key a) := by
  unfold insertionSortFunc
  rw [List.pairwise_reverse]
  exact foldl_insertBack_sorted key data [] List.Pairwise.nil

theorem insertBack_filter {α : Type} (key : α → Int) (k : Int) (x : α) (l : List α) :
    (insertBack (fun a b => decide (key a > key b)) x l).filter (fun a => decide (key a = k)) =
      (x :: l).filter (fun a => decide (key a = k)) := by
  induction l with
  | nil => rfl
  | cons y ys ih =>
    unfold insertBack
    by_cases h : key x > key y
    · rw [if_pos (by simpa using h), List.filter_cons, ih]
      by_cases hx : key x = k
      · have hy : ¬ key y = k := by omega
        simp [List.filter_cons, hx, hy]
      · simp [List.filter_cons, hx]
    · rw [if_neg (by simpa using h)]

theorem foldl_insertBack_filter {α : Type} (key : α → Int) (k : Int) (data acc : List α) :
    (data.foldl (fun sorted x => insertBack (fun a b => decide (key a > key b)) x sorted)
      acc).filter (fun a => decide (key a = k)) =
      (data.reverse ++ acc).filter (fun a => decide (key a = k)) := by
  induction data generalizing acc with
  | nil => rfl
  | cons x xs ih =>
    rw [List.foldl_cons, ih, List.filter_append, insertBack_filter, ← List.filter_append,
      List.reverse_cons, List.append_assoc]
    rfl

/-- The insertion sort keeps elements of equal key in their order. -/
theorem insertionSortFunc_stable {α : Type} (key : α → Int) (k : Int) (data : List α) :
    (insertionSortFunc (fun a b => decide (key a > key b)) data).filter
        (fun a => decide (key a = k)) =
      data.filter (fun a => decide (key a = k)) := by
  unfold insertionSortFunc
  rw [List.filter_reverse, foldl_insertBack_filter, List.append_nil, List.filter_reverse,
    List.reverse_reverse]

theorem killsAt_calculate (s : State) (hs : s.WF) (ptr : Nat) :
    killsAt (calculate s).heap ptr = killsAt s.heap ptr := by
  rw [calculate_eq s hs]
  unfold killsAt
  show (match (s.heap.map calcStats)[ptr]? with
    | some p => p.Kills
    | none => 0) = _
  rw [List.getElem?_map]
  cases s.heap[ptr]? with
  | none => rfl
  | some p => exact calcStats_Kills p

theorem sortPlayers_calculate (s : State) (hs : s.WF) :
    sortPlayers (calculate s) = sortPlayers s := by
  unfold sortPlayers
  have hp : (calculate s).players = s.players := by rw [calculate_eq s hs]
  have hless : (fun a b => decide (killsAt (calculate s).heap a > killsAt (calculate s).heap b)) =
      (fun a b => decide (killsAt s.heap a > killsAt s.heap b)) := by
    funext a b
    rw [killsAt_calculate s hs a, killsAt_calculate s hs b]
  rw [hp, hless]

theorem summarySorted_calculate (s : State) (hs : s.WF) :
    summarySorted (calculate s) = (summarySorted s).map (List.map calcStats) := by
  unfold summarySorted
  rw [sortPlayers_calculate s hs, Option.map_map]
  congr 1
  funext sorted
  have hheap : (calculate s).heap = s.heap.map calcStats := by rw [calculate_eq s hs]
  simp only [Function.comp, hheap, List.getElem?_map, List.map_filterMap]

theorem filter_deref (heap : List PlayerStats) (k : Int) (sorted : List Nat) :
    (sorted.filterMap (fun ptr => heap[ptr]?)).filter (fun p => decide (p.Kills = k)) =
      (sorted.filter (fun ptr => decide (killsAt heap ptr = k))).filterMap
        (fun ptr => heap[ptr]?) := by
  induction sorted with
  | nil => rfl
  | cons ptr rest ih =>
    cases h : heap[ptr]? with
    | none =>
      by_cases hk : killsAt heap ptr = k
      · simp [List.filterMap_cons, List.filter_cons, h, hk, ih]
      · simp [List.filterMap_cons, List.filter_cons, h, hk, ih]
    | some p =>
      have hkills : killsAt heap ptr = p.Kills := by
        unfold killsAt
        rw [h]
      by_cases hk : p.Kills = k
      · simp [List.filterMap_cons, List.filter_cons, h, hkills, hk, ih]
      · simp [List.filterMap_cons, List.filter_cons, h, hkills, hk, ih]

/-- C25 (as amended). For every event stream that registers at most 12 players,
the sort of the players by kills is stable: `sort.Slice` sorts a slice of at
most 12 elements by insertion, so the summary is a permutation of the registry's
records with non-increasing kills in which the players of each kill count stand
in their registry insertion order.  (For more players the sort partitions the
slice and the insertion order of players with equal kills can be lost.) -/
theorem players_sort_stable_up_to_12 (events : List Event)
    (h : (reduce events).players.length ≤ 12) :
    ∃ result, summarySorted (calculate (reduce events)) = some result ∧
      result.Perm (calculate (reduce events)).records ∧
      result.Pairwise (fun a b => b.Kills ≤ a.Kills) ∧
      summaryPlayers (calculate (reduce events)) result ∧
      ∀ k : Int, result.filter (fun p => decide (p.Kills = k)) =
        (calculate (reduce events)).records.filter (fun p => decide (p.Kills = k)) := by
  have hwf := calculate_WF _ (reduce_WF events)
  have hp : (calculate (reduce events)).players = (reduce events).players := by
    rw [calculate_eq _ (reduce_WF events)]
  rw [← hp] at h
  generalize calculate (reduce events) = s at hwf h ⊢
  have hsort : sortPlayers s = some (insertionSortFunc
      (fun a b => decide (killsAt s.heap a > killsAt s.heap b)) s.players) := by
    unfold sortPlayers sortSlice
    rw [if_pos h]
  have hperm := insertionSortFunc_perm
    (fun a b => decide (killsAt s.heap a > killsAt s.heap b)) s.players
  have hsorted := insertionSortFunc_sorted (killsAt s.heap) s.players
  have hstable := fun k => insertionSortFunc_stable (killsAt s.heap) k s.players
  generalize insertionSortFunc
    (fun a b => decide (killsAt s.heap a > killsAt s.heap b)) s.players = sorted
    at hsort hperm hsorted hstable
  have hcontract : SortedByKills s.heap sorted s.players :=
    ⟨hperm, hsorted.imp (fun hab => not_lt.2 hab)⟩
  refine ⟨sorted.filterMap (fun ptr => s.heap[ptr]?), ?_, hperm.filterMap _,
    pairwise_of_sortedByKills s.heap sorted hcontract.2, ⟨sorted, hcontract, rfl⟩, ?_⟩
  · unfold summarySorted
    rw [hsort]
    rfl
  · intro k
    unfold State.records
    rw [filter_deref, filter_deref, hstable k]

/-- C25, witness: the stream `exampleTie` registers two players. -/
theorem players_sort_stable_up_to_12_witness :
    (reduce exampleTie).players.length ≤ 12 ∧
    ∃ result, summarySorted (calculate (reduce exampleTie)) = some result ∧
      result.Perm (calculate (reduce exampleTie)).records ∧
      result.Pairwise (fun a b => b.Kills ≤ a.Kills) ∧
      summaryPlayers (calculate (reduce exampleTie)) result ∧
      ∀ k : Int, result.filter (fun p => decide (p.Kills = k)) =
        (calculate (reduce exampleTie)).records.filter (fun p => decide (p.Kills = k)) :=
  ⟨by decide, players_sort_stable_up_to_12 exampleTie (by decide)⟩

/-- C25, counterexample: thirteen players are registered with the ids 1 to 13 in
this order, the player with id 2 has one kill and the others none.  The sort
takes the player with id 7 as pivot and swaps it to the front, and the summary
lists the ids 2, 7, 3, 4, 5, 6, 1, 8, ..., 13: the player with id 7 stands
before the player with id 1, who has the same kill count and was registered
earlier. -/
theorem ties_reordered_among_thirteen_players :
    (reduce exampleThirteen).records.map PlayerStats.SteamID =
      [1, 2, 3, 4, 5, 6, 7, 8, 9, 10, 11, 12, 13] ∧
    (reduce exampleThirteen).records.map PlayerStats.Kills =
      [0, 1, 0, 0, 0, 0, 0, 0, 0, 0, 0, 0, 0] ∧
    (summarySorted (calculate (reduce exampleThirteen))).map (List.map PlayerStats.SteamID) =
      some [2, 7, 3, 4, 5, 6, 1, 8, 9, 10, 11, 12, 13] ∧
    (summarySorted (calculate (reduce exampleThirteen))).map (List.map PlayerStats.Kills) =
      some [1, 0, 0, 0, 0, 0, 0, 0, 0, 0, 0, 0, 0] := by
  have hids : (List.map PlayerStats.SteamID ∘ List.map calcStats) =
      List.map PlayerStats.SteamID := by
    funext l
    simp [List.map_map, Function.comp_def, calcStats_SteamID]
  have hkills : (List.map PlayerStats.Kills ∘ List.map calcStats) =
      List.map PlayerStats.Kills := by
    funext l
    simp [List.map_map, Function.comp_def, calcStats_Kills]
  refine ⟨by decide, by decide, ?_, ?_⟩
  · rw [summarySorted_calculate _ (reduce_WF exampleThirteen), Option.map_map, hids]
    decide
  · rw [summarySorted_calculate _ (reduce_WF exampleThirteen), Option.map_map, hkills]
    decide

end Cs2
